import Mathlib

/-!
Shallow embedding of the conlang_fmt markup compiler (Rust) and verification
of specification claims about it.

The embedding mirrors, definition by definition:
* `src/document.rs` — `Document`, `SectionList`, `Document::add_block`;
* `src/blocks/heading.rs` — `Heading`, `FillerHeading`, the `HeadingLike` view;
* `src/blocks/replacements.rs` — `Replacements::insert` / `Replacements::update`;
* `src/blocks/table.rs` — the continuation accounting of `Table::write`;
* `src/blocks/gloss.rs` — the `<dl>`-group loop of `Gloss::write`;
* `src/text.rs` — `Text`, `Inline`, `starts_with` / `ends_with`;
* `src/parse.rs` — the block scanner (`Block::parse`, `text_until`, parameters).

Rust `usize` values are modelled as `Nat` (no overflow is relevant: all values
are small counters and indices).  Rust `HashMap`s are modelled as association
lists; the only operations used by the modelled code are `entry` (lookup +
insert-if-vacant), `insert` (overwrite) and `contains_key`, for which the
association-list model is faithful.  Panicking accesses
(`Document::get_heading` on a non-heading index) are modelled with default
junk values; every theorem below only evaluates the model on states where the
Rust code provably does not panic.  Loops whose termination is not structural
are given explicit fuel; fuel exhaustion is modelled as a distinguished outcome
that is never equal to a successful result.
-/

namespace ConlangFmt

/-- Decimal digit list of a natural number, most significant first, with
structural fuel (`fuel ≥ n + 1` is always sufficient).  This models Rust's
`Display` formatting of a `usize`. -/
def natDigits : Nat → Nat → List Nat
  | 0, _ => []
  | f + 1, n => if n < 10 then [n] else natDigits f (n / 10) ++ [n % 10]

/-- Decimal string of a `usize`, as produced by Rust's `format!("{}", n)`. -/
def usizeDec (n : Nat) : String :=
  ((natDigits (n + 1) n).map (fun d => Char.ofNat (48 + d))).asString

/-- `itertools::format("-")` over a section-number vector. -/
def joinDash : List Nat → String
  | [] => ""
  | [n] => usizeDec n
  | n :: rest => usizeDec n ++ "-" ++ joinDash rest

/-- The value of a decimal digit list, most significant first (used to show
that `usizeDec` is injective). -/
def digitsVal (l : List Nat) : Nat :=
  l.foldl (fun a d => a * 10 + d) 0

/-! ## `src/text.rs`: inline text -/

mutual

/-- `text.rs` `InlineType`. -/
inductive InlineType where
  | emphasis (t : Text)
  | strong (t : Text)
  | italics (t : Text)
  | bold (t : Text)
  | smallCaps (t : Text)
  | span (t : Text)
  | replace (key : String)
  | reference (id : String)
  | link (url : String) (title : Text)
  | textLit (s : String)

/-- `text.rs` `Inline`: a kind plus the `InlineCommon` class. -/
inductive Inline where
  | mk (kind : InlineType) (cls : String)

/-- `text.rs` `Text`: a sequence of inline elements. -/
inductive Text where
  | mk (elems : List Inline)

end

def Text.elems : Text → List Inline
  | .mk l => l

def Inline.kind : Inline → InlineType
  | .mk k _ => k

def Inline.cls : Inline → String
  | .mk _ c => c

def Text.new : Text := .mk []

/-- `Text::push`. -/
def Text.push (t : Text) (i : Inline) : Text := .mk (t.elems ++ [i])

/-- `From<String> for Inline`. -/
def Inline.ofString (s : String) : Inline := .mk (.textLit s) ""

/-- `From<T: Into<String>> for Text`. -/
def Text.ofString (s : String) : Text := .mk [Inline.ofString s]

/-- `Text::with_class`. -/
def Text.with_class (t : Text) (cls : String) : Text := .mk [.mk (.span t) cls]

mutual

/-- `InlineType::starts_with`. -/
def InlineType.starts_with : InlineType → Char → Bool
  | .emphasis t, c => t.starts_with c
  | .strong t, c => t.starts_with c
  | .italics t, c => t.starts_with c
  | .bold t, c => t.starts_with c
  | .smallCaps t, c => t.starts_with c
  | .span t, c => t.starts_with c
  | .link _ t, c => t.starts_with c
  | .textLit s, c => s.startsWith (String.mk [c])
  | _, _ => false

/-- `Inline::kind.starts_with`. -/
def Inline.starts_with : Inline → Char → Bool
  | .mk k _, c => k.starts_with c

/-- `Text::starts_with`: looks at the first inline element only. -/
def Text.starts_with : Text → Char → Bool
  | .mk [], _ => false
  | .mk (i :: _), c => i.starts_with c

end

mutual

/-- `InlineType::ends_with`. -/
def InlineType.ends_with : InlineType → Char → Bool
  | .emphasis t, c => t.ends_with c
  | .strong t, c => t.ends_with c
  | .italics t, c => t.ends_with c
  | .bold t, c => t.ends_with c
  | .smallCaps t, c => t.ends_with c
  | .span t, c => t.ends_with c
  | .link _ t, c => t.ends_with c
  | .textLit s, c => s.endsWith (String.mk [c])
  | _, _ => false

/-- `Inline::kind.ends_with`. -/
def Inline.ends_with : Inline → Char → Bool
  | .mk k _, c => k.ends_with c

/-- last element of an inline list, for `Text::ends_with`. -/
def inlinesLast : List Inline → Char → Bool
  | [], _ => false
  | [i], c => i.ends_with c
  | _ :: i2 :: rest, c => inlinesLast (i2 :: rest) c

/-- `Text::ends_with`: looks at the last inline element only. -/
def Text.ends_with : Text → Char → Bool
  | .mk l, c => inlinesLast l c

end

/-! ## `src/blocks/heading.rs`: section lists and headings -/

/-- `SectionList`. -/
structure SectionList where
  headings : List Nat
  last_child_number : Nat
  level : Nat
deriving Repr, DecidableEq

/-- `SectionList::new`. -/
def SectionList.new (level : Nat) : SectionList :=
  { headings := [], last_child_number := 0, level := level }

/-- `Default for SectionList` (level 1). -/
def SectionList.defaultVal : SectionList :=
  { headings := [], last_child_number := 0, level := 1 }

/-- `SectionList::push`. -/
def SectionList.push (l : SectionList) (index : Nat) (numbered : Bool) : SectionList :=
  { l with
    headings := l.headings ++ [index]
    last_child_number := if numbered then l.last_child_number + 1 else l.last_child_number }

/-- `Heading` (the `title` field is carried but irrelevant to `add_block`). -/
structure Heading where
  title : Text
  numbered : Bool
  toc : Bool
  level : Nat
  children : SectionList
  number : List Nat

/-- `Heading::new`. -/
def Heading.new (level : Nat) : Heading :=
  { title := Text.new, numbered := true, toc := true, level := level
    children := SectionList.new (level + 1), number := [] }

/-- `FillerHeading`. -/
structure FillerHeading where
  children : SectionList

/-- `FillerHeading::new`. -/
def FillerHeading.new (level : Nat) : FillerHeading :=
  { children := SectionList.new level }

/-! ## Other block kinds -/

/-- `blocks/table.rs` `Cell`. -/
structure Cell where
  rows : Nat
  cols : Nat
  cls : String
  text : Text

/-- `Default for Cell`. -/
def Cell.defaultVal : Cell := { rows := 1, cols := 1, cls := "", text := Text.new }

/-- `blocks/table.rs` `Row`. -/
structure Row where
  cells : List Cell
  header : Bool
  cls : String

def Row.defaultVal : Row := { cells := [], header := false, cls := "" }

/-- `blocks/table.rs` `Column`. -/
structure Column where
  header : Bool
  cls : String

def Column.defaultVal : Column := { header := false, cls := "" }

/-- `blocks/table.rs` `Table`. -/
structure Table where
  title : Text
  numbered : Bool
  number : Nat
  rows : List Row
  columns : List Column

/-- `Default for Table`. -/
def Table.defaultVal : Table :=
  { title := Text.new, numbered := true, number := 0, rows := [], columns := [] }

/-- `blocks/gloss.rs` `GlossLine`. -/
structure GlossLine where
  words : List Text
  cls : String

def GlossLine.defaultVal : GlossLine := { words := [], cls := "" }

/-- `GlossLine::push`. -/
def GlossLine.pushWord (l : GlossLine) (w : Text) : GlossLine :=
  { l with words := l.words ++ [w] }

/-- `blocks/gloss.rs` `Gloss`. -/
structure Gloss where
  title : Text
  numbered : Bool
  number : Nat
  preamble : List Text
  gloss : List GlossLine
  postamble : List Text

/-- `Default for Gloss`. -/
def Gloss.defaultVal : Gloss :=
  { title := Text.new, numbered := true, number := 0
    preamble := [], gloss := [], postamble := [] }

/-- `blocks/gloss.rs` `GlossLineType`. -/
inductive GlossLineType where
  | noSplit
  | split
deriving Repr, DecidableEq

/-- `blocks/replacements.rs` `Replacements` (the `HashMap` as an association
list; `insert` overwrites in place, keeping one entry per key). -/
structure Replacements where
  replacements : List (String × Text)

def Replacements.defaultVal : Replacements := { replacements := [] }

/-- `HashMap::get`. -/
def Replacements.get (r : Replacements) (key : String) : Option Text :=
  (r.replacements.find? (fun p => p.1 = key)).map (·.2)

/-- `HashMap::contains_key`. -/
def Replacements.containsKey (r : Replacements) (key : String) : Bool :=
  r.replacements.any (fun p => p.1 = key)

/-- `HashMap::insert` (overwrites an existing binding of the key). -/
def Replacements.mapInsert (r : Replacements) (key : String) (value : Text) : Replacements :=
  if r.containsKey key then
    { replacements := r.replacements.map (fun p => if p.1 = key then (key, value) else p) }
  else
    { replacements := r.replacements ++ [(key, value)] }

/-- `blocks/contents.rs` `Contents`. -/
structure Contents where
  title : Text
  max_level : Nat

/-- `Default for Contents`. -/
def Contents.defaultVal : Contents :=
  { title := Text.ofString "Table of Contents", max_level := 6 }

/-- `document.rs` `ListItem`. -/
inductive ListItem where
  | mk (text : Text) (sublist : List ListItem)

def ListItem.text : ListItem → Text
  | .mk t _ => t

def ListItem.sublist : ListItem → List ListItem
  | .mk _ s => s

def ListItem.defaultVal : ListItem := .mk Text.new []

/-- `document.rs` `List` (named `ListBlock` here: `List` is taken by Lean). -/
structure ListBlock where
  items : List ListItem
  ordered : Bool

def ListBlock.defaultVal : ListBlock := { items := [], ordered := false }

/-! ## Blocks and the document -/

/-- The closed set of `BlockType` implementors in `document.rs`:
`Heading`, `FillerHeading`, `Contents`, `List`, `Table`, `Gloss`,
`Replacements`, `Text` (a paragraph). -/
inductive BlockKind where
  | heading (h : Heading)
  | filler (f : FillerHeading)
  | contents (c : Contents)
  | listB (l : ListBlock)
  | table (t : Table)
  | gloss (g : Gloss)
  | replacements (r : Replacements)
  | text (t : Text)

/-- `BlockCommon` (the `class` field is named `cls`: `class` is a keyword). -/
structure BlockCommon where
  cls : String
  id : String
  start_line : Nat
deriving Repr, DecidableEq

/-- `Default for BlockCommon`. -/
def BlockCommon.defaultVal : BlockCommon := { cls := "", id := "", start_line := 0 }

/-- `BlockCommon::new`. -/
def BlockCommon.new (start_line : Nat) : BlockCommon :=
  { cls := "", id := "", start_line := start_line }

/-- `Block`. -/
structure Block where
  kind : BlockKind
  common : BlockCommon

/-- `BlockType::as_heading().is_some()`: which kinds are heading-like. -/
def BlockKind.hl_is : BlockKind → Bool
  | .heading _ => true
  | .filler _ => true
  | _ => false

/-- `HeadingLike::numbered` (for `Heading`: `numbered && toc`; for
`FillerHeading`: `false`). -/
def BlockKind.hl_numbered : BlockKind → Bool
  | .heading h => h.numbered && h.toc
  | _ => false

/-- `HeadingLike::level` (for `FillerHeading`: `children.level - 1`). -/
def BlockKind.hl_level : BlockKind → Nat
  | .heading h => h.level
  | .filler f => f.children.level - 1
  | _ => 0

/-- `HeadingLike::children` (junk on non-headings, where Rust would panic). -/
def BlockKind.hl_children : BlockKind → SectionList
  | .heading h => h.children
  | .filler f => f.children
  | _ => SectionList.new 0

/-- `HeadingLike::mut_children` write-back (no-op on non-headings). -/
def BlockKind.hl_set_children : BlockKind → SectionList → BlockKind
  | .heading h, l => .heading { h with children := l }
  | .filler _, l => .filler { children := l }
  | k, _ => k

/-- `HeadingLike::number` (for `FillerHeading`: the empty slice). -/
def BlockKind.hl_number : BlockKind → List Nat
  | .heading h => h.number
  | _ => []

/-- `HeadingLike::push_number` (no-op on `FillerHeading`). -/
def BlockKind.hl_push_number : BlockKind → Nat → BlockKind
  | .heading h, v => .heading { h with number := h.number ++ [v] }
  | k, _ => k

/-- `src/errors.rs` `EndOfBlockKind`. -/
inductive EndOfBlockKind where
  | escape
  | expect (c : Char)
deriving Repr, DecidableEq

/-- `src/errors.rs` `ErrorKind` (the variants reachable from the modelled
code). -/
inductive ErrorKind where
  | endOfBlock (k : EndOfBlockKind)
  | expected (a b : Char)
  | glossLine
  | parse
  | parameter (s : String)
  | id (s : String)
  | replace (s : String)
deriving Repr, DecidableEq

/-- `document.rs` `Document`. -/
structure Document where
  blocks : List Block
  sections : SectionList
  ids : List (String × Nat)
  replacements : Replacements
  tables : List Nat
  glosses : List Nat
  table_number : Nat
  gloss_number : Nat
  noid_index : Nat

/-- `Default for Document`. -/
def Document.defaultVal : Document :=
  { blocks := [], sections := SectionList.defaultVal, ids := []
    replacements := Replacements.defaultVal, tables := [], glosses := []
    table_number := 0, gloss_number := 0, noid_index := 0 }

/-- `Document::get_section_list` (junk where Rust would panic). -/
def Document.get_section_list (doc : Document) : Option Nat → SectionList
  | none => doc.sections
  | some i =>
    match doc.blocks[i]? with
    | some b => b.kind.hl_children
    | none => SectionList.new 0

/-- `Document::get_mut_section_list` write-back. -/
def Document.set_section_list (doc : Document) : Option Nat → SectionList → Document
  | none, l => { doc with sections := l }
  | some i, l =>
    match doc.blocks[i]? with
    | some b => { doc with blocks := doc.blocks.set i { b with kind := b.kind.hl_set_children l } }
    | none => doc

/-- `Replacements::insert`: error if the key is already present. -/
def Replacements.insert (r : Replacements) (key : String) (value : Text) :
    Replacements × Option ErrorKind :=
  if r.containsKey key then (r, some (.replace key))
  else (r.mapInsert key value, none)

/-- `Replacements::update`: drains `other` into `self`, replacing duplicates
(no error). -/
def Replacements.update (r other : Replacements) : Replacements :=
  other.replacements.foldl (fun acc p => acc.mapInsert p.1 p.2) r

/-- The filler block pushed by `add_block` when a section list is empty
(`FillerHeading::new(curr_level + 1).into()`). -/
def fillerBlock (level : Nat) : Block :=
  { kind := .filler (FillerHeading.new level), common := BlockCommon.defaultVal }

/-- One filler insertion of `add_block` (document.rs lines 66–72): push the
filler onto the block list and register its index in the current list as a
non-numbered child. -/
def docPushFiller (doc : Document) (curr : Option Nat) (idx : Nat) : Document :=
  let doc1 := { doc with
    blocks := doc.blocks ++ [fillerBlock ((doc.get_section_list curr).level + 1)] }
  doc1.set_section_list curr ((doc1.get_section_list curr).push idx false)

/-- `if heading.numbered() { heading.push_number(n) }`. -/
def pushIf (kind : BlockKind) (n : Nat) : BlockKind :=
  if kind.hl_numbered then kind.hl_push_number n else kind

/-- The descent loop of `Document::add_block` (document.rs lines 63–78):
while the current section list's level is below the heading's, insert a
filler when the list is empty, push the list's `last_child_number` onto the
heading's number when the heading is numbered, and move to the list's last
child.  `fuel` bounds the iteration count; `hl_level kind` iterations always
suffice on well-formed documents (levels along the descent start at 1 and
grow by 1 each step). -/
def add_block_descend :
    Nat → Document → BlockKind → Nat → Option Nat →
    Document × BlockKind × Nat × Option Nat
  | 0, doc, kind, idx, curr => (doc, kind, idx, curr)
  | fuel + 1, doc, kind, idx, curr =>
    if (doc.get_section_list curr).level < kind.hl_level then
      if (doc.get_section_list curr).headings.isEmpty then
        add_block_descend fuel (docPushFiller doc curr idx)
          (pushIf kind (((docPushFiller doc curr idx).get_section_list curr)).last_child_number)
          (idx + 1) (((docPushFiller doc curr idx).get_section_list curr).headings.getLast?)
      else
        add_block_descend fuel doc
          (pushIf kind (doc.get_section_list curr).last_child_number)
          idx ((doc.get_section_list curr).headings.getLast?)
    else (doc, kind, idx, curr)

/-- The `nonumber` elder-sibling copy of `add_block` (document.rs lines
80–88): an unnumbered heading's own children list inherits the children
counter of its elder sibling, if any. -/
def heading_kind2 (doc1 : Document) (curr : Option Nat) (kind1 : BlockKind) : BlockKind :=
  if !kind1.hl_numbered then
    match (doc1.get_section_list curr).headings.getLast? with
    | some older =>
      kind1.hl_set_children
        { kind1.hl_children with
          last_child_number := (doc1.get_section_list (some older)).last_child_number }
    | none => kind1
  else kind1

/-- The final number component of `add_block` (document.rs lines 89–90):
a numbered heading pushes `last_child_number + 1`. -/
def heading_kind3 (doc1 : Document) (curr : Option Nat) (kind1 : BlockKind) : BlockKind :=
  if (heading_kind2 doc1 curr kind1).hl_numbered then
    (heading_kind2 doc1 curr kind1).hl_push_number
      ((doc1.get_section_list curr).last_child_number + 1)
  else heading_kind2 doc1 curr kind1

/-- The `sec-…` id synthesis of `add_block` (document.rs lines 91–93). -/
def heading_common3 (doc1 : Document) (curr : Option Nat) (kind1 : BlockKind)
    (common : BlockCommon) : BlockCommon :=
  if (heading_kind2 doc1 curr kind1).hl_numbered then
    if common.id = "" then
      { common with id := "sec-" ++ joinDash (heading_kind3 doc1 curr kind1).hl_number }
    else common
  else common

/-- Post-descent part of the heading phase: elder-sibling copy, final number,
id synthesis, and registration in the parent list (document.rs lines 79–97). -/
def heading_register : Document × BlockKind × Nat × Option Nat → BlockCommon →
    Document × BlockKind × BlockCommon × Nat
  | (doc1, kind1, idx1, curr), common =>
    (doc1.set_section_list curr
        ((doc1.get_section_list curr).push idx1 (heading_kind3 doc1 curr kind1).hl_numbered),
      heading_kind3 doc1 curr kind1,
      heading_common3 doc1 curr kind1 common,
      idx1)

/-- The heading phase of `Document::add_block` (document.rs lines 62–97):
descent, the `nonumber` elder-sibling copy, the final number component, the
`sec-` id synthesis, and the registration in the parent list. -/
def add_block_heading (doc : Document) (kind : BlockKind) (common : BlockCommon) (idx : Nat) :
    Document × BlockKind × BlockCommon × Nat :=
  heading_register (add_block_descend kind.hl_level doc kind idx none) common

/-- The replacements phase of `add_block` (document.rs lines 98–100): the
block's map is drained into the document's, silently replacing duplicates. -/
def phase_repl : Document × Block → Document × Block
  | (doc, block) =>
    match block.kind with
    | .replacements r =>
      ({ doc with replacements := doc.replacements.update r },
        { kind := .replacements Replacements.defaultVal, common := block.common })
    | _ => (doc, block)

/-- The table phase of `add_block` (document.rs lines 101–107). -/
def phase_table (idx : Nat) : Document × Block → Document × Block
  | (doc, block) =>
    match block.kind with
    | .table t =>
      if t.numbered then
        ({ doc with table_number := doc.table_number + 1, tables := doc.tables ++ [idx] },
          { kind := .table { t with number := doc.table_number + 1 }, common := block.common })
      else
        ({ doc with tables := doc.tables ++ [idx] }, block)
    | _ => (doc, block)

/-- The gloss phase of `add_block` (document.rs lines 108–114). -/
def phase_gloss (idx : Nat) : Document × Block → Document × Block
  | (doc, block) =>
    match block.kind with
    | .gloss g =>
      if g.numbered then
        ({ doc with gloss_number := doc.gloss_number + 1, glosses := doc.glosses ++ [idx] },
          { kind := .gloss { g with number := doc.gloss_number + 1 }, common := block.common })
      else
        ({ doc with glosses := doc.glosses ++ [idx] }, block)
    | _ => (doc, block)

/-- The `__no-id-<n>` synthesis of `add_block` (document.rs lines 115–118). -/
def phase_noid : Document × Block → Document × Block
  | (doc, block) =>
    if block.common.id = "" then
      ({ doc with noid_index := doc.noid_index + 1 },
        { kind := block.kind,
          common := { block.common with id := "__no-id-" ++ usizeDec doc.noid_index } })
    else (doc, block)

/-- The heading phase of `add_block` lifted to blocks. -/
def prepare_heading (doc : Document) (block : Block) : Document × Block × Nat :=
  if block.kind.hl_is then
    ((add_block_heading doc block.kind block.common doc.blocks.length).1,
      { kind := (add_block_heading doc block.kind block.common doc.blocks.length).2.1,
        common := (add_block_heading doc block.kind block.common doc.blocks.length).2.2.1 },
      (add_block_heading doc block.kind block.common doc.blocks.length).2.2.2)
  else (doc, block, doc.blocks.length)

/-- Phases 1–4 of `Document::add_block` plus the `__no-id` synthesis
(document.rs lines 60–118): everything before the id-map check.  Returns the
mutated document, the mutated block, and the block's index. -/
def add_block_prepare (doc : Document) (block : Block) : Document × Block × Nat :=
  match prepare_heading doc block with
  | (doc1, block1, idx1) =>
    (((phase_noid (phase_gloss idx1 (phase_table idx1 (phase_repl (doc1, block1))))).1,
      (phase_noid (phase_gloss idx1 (phase_table idx1 (phase_repl (doc1, block1))))).2,
      idx1) : Document × Block × Nat)

/-- `Document::add_block` (document.rs lines 60–126).  Returns the document
state after the call together with `none` on success or the error.  On a
duplicate id the mutations of the earlier phases persist, the id map is
unchanged, and the block itself is not appended — exactly as in the Rust
code, which returns early from the `Entry::Occupied` arm. -/
def Document.add_block (doc : Document) (block : Block) : Document × Option ErrorKind :=
  match add_block_prepare doc block with
  | (doc5, block5, idx) =>
    match doc5.ids.find? (fun q => q.1 = block5.common.id) with
    | some e => (doc5, some (.id e.1))
    | none =>
      ({ doc5 with
          ids := doc5.ids ++ [(block5.common.id, idx)]
          blocks := doc5.blocks ++ [block5] }, none)

/-- Folding a sequence of blocks into a document, ignoring errors (the state
evolution of repeated `add_block` calls). -/
def addBlocks (doc : Document) (bs : List Block) : Document :=
  bs.foldl (fun d b => (d.add_block b).1) doc

/-! ## Observables used by the claims -/

/-- Whether the block at index `j` is a numbered heading
(`HeadingLike::numbered`). -/
def isNumIdx (doc : Document) (j : Nat) : Bool :=
  match doc.blocks[j]? with
  | some b => b.kind.hl_numbered
  | none => false

/-- The last component of the number of the heading at index `j`. -/
def numLast (doc : Document) (j : Nat) : Option Nat :=
  match doc.blocks[j]? with
  | some b => b.kind.hl_number.getLast?
  | none => none

/-- The last number components of the numbered headings recorded in a section
list, in insertion order. -/
def numberedFinals (doc : Document) (l : SectionList) : List (Option Nat) :=
  (l.headings.filter (fun j => isNumIdx doc j)).map (fun j => numLast doc j)

/-- How many numbered headings a section list records. -/
def numberedCount (doc : Document) (l : SectionList) : Nat :=
  (l.headings.filter (fun j => isNumIdx doc j)).length

/-- Whether a block kind is a synthetic `FillerHeading`. -/
def BlockKind.isFiller : BlockKind → Bool
  | .filler _ => true
  | _ => false

/-- A parser-fresh heading block: what `Block::parse` hands to `add_block`
for `#…` input — `Heading::new(level)` with `numbered` possibly cleared by a
`nonumber` parameter, an optional explicit id, and an otherwise default
common part. -/
def freshHeading (level : Nat) (numbered : Bool := true) (id : String := "") : Block :=
  { kind := .heading { Heading.new level with numbered := numbered }
    common := { BlockCommon.defaultVal with id := id } }

/-- The id under which `add_block` will try to register a block: its explicit
id, or the auto-generated one (`sec-…` for numbered headings, `__no-id-…`
otherwise). -/
def assigned_id (doc : Document) (block : Block) : String :=
  (add_block_prepare doc block).2.1.common.id

/-- A block as `Block::parse` hands it to `add_block`: a heading comes from
`Heading::new(level)` with `level ≥ 1` (empty number, fresh children list one
level deeper, zero child counter), and `FillerHeading`s are never produced by
the parser. -/
def FreshBlock (b : Block) : Bool :=
  match b.kind with
  | .heading h =>
    h.number.isEmpty && h.children.headings.isEmpty
      && (h.children.last_child_number == 0) && (h.children.level == h.level + 1)
      && decide (1 ≤ h.level)
  | .filler _ => false
  | _ => true

/-- The documents reachable from the initial state by successful `add_block`
calls on parser-produced blocks. -/
inductive Reachable : Document → Prop where
  | init : Reachable Document.defaultVal
  | step {d : Document} {b : Block} (hr : Reachable d) (hf : FreshBlock b = true)
      (hok : (d.add_block b).2 = none) : Reachable (d.add_block b).1

/-- The level at which the descent chain of `add_block` (root, then always
the last recorded child) first meets an empty section list, or the level it
has reached when `stop` is attained (the loop of document.rs lines 62–78,
read off the unmutated document). -/
def chain_empty_level : Nat → Document → Option Nat → Nat → Nat
  | 0, doc, curr, _ => (doc.get_section_list curr).level
  | fuel + 1, doc, curr, stop =>
    if (doc.get_section_list curr).level < stop then
      if (doc.get_section_list curr).headings.isEmpty then
        (doc.get_section_list curr).level
      else
        chain_empty_level fuel doc ((doc.get_section_list curr).headings.getLast?) stop
    else (doc.get_section_list curr).level

/-- The per-document freshness invariant of the `__no-id` counter: no id in
the map is the `__no-id` string of the current or a future counter value. -/
def NoidInv (d : Document) : Prop :=
  ∀ p ∈ d.ids, ∀ j : Nat, p.1 = "__no-id-" ++ usizeDec j → j < d.noid_index

/-- The documents reachable by `add_block` calls on blocks that carry no
explicit id (the auto-id setting of the uniqueness claim); failed calls keep
their mutated state, as in the code. -/
inductive ReachableNE : Document → Prop where
  | init : ReachableNE Document.defaultVal
  | step {d : Document} {b : Block} (hr : ReachableNE d) (hb : b.common.id = "") :
      ReachableNE (d.add_block b).1

/-! ## Concrete documents used by the claims -/

/-- The four-block insertion sequence `# A`, `## A.1`, `#[nonumber] B`,
`## B.1`: the unnumbered level-1 heading `B` inherits its elder sibling's
children counter, so the first numbered heading recorded in `B`'s section
list receives final number component 2, not 1. -/
def c1Doc : Document :=
  addBlocks Document.defaultVal
    [freshHeading 1, freshHeading 2, freshHeading 1 false, freshHeading 2]

/-- The section list of block 2 (the unnumbered heading `B`) in `c1Doc`. -/
def c1List : SectionList := c1Doc.get_section_list (some 2)

/-- The first six blocks of the id-collision sequence: `# A`, `#### X`,
`### Y`, `### Y2`, `#### V`, `##[nonumber] D`.  All ids are auto-generated;
`V` gets `sec-1-0-2-1`. -/
def c3Doc : Document :=
  addBlocks Document.defaultVal
    [freshHeading 1, freshHeading 4, freshHeading 3, freshHeading 3,
      freshHeading 4, freshHeading 2 false]

/-- A replacements block binding `key` to the literal text `value`. -/
def replBlock (key value : String) : Block :=
  { kind := .replacements { replacements := [(key, Text.ofString value)] }
    common := BlockCommon.defaultVal }

/-- A document holding just `# A` (auto-id `sec-1`): adding a level-3 heading
with the explicit id `sec-1` fails with a duplicate-id error after a filler
has already been pushed. -/
def c10Doc : Document := addBlocks Document.defaultVal [freshHeading 1]

/-! ## `src/parse.rs`: the block parser

The parser is embedded with an explicit scanner state and fuel-bounded
loops.  Results are reported through `POut`: `ok`, `err` (a Rust `Err`),
or `fuel` when the fuel bound is exhausted, so that a theorem about an
error can never be satisfied by mere fuel exhaustion.  Errors carry the
`ErrorKind`, wrapped in the starting line of the block wherever the Rust
code attaches `.context(ErrorKind::Block(self.start.unwrap()))`
(`PError.ctx`), and bare where they are propagated with `?` from
`update_param` (`PError.bare`).  `char::is_whitespace` is modelled by
`Char.isWhitespace` (they agree on the ASCII inputs exercised here) and
`str::parse::<usize>` by `String.toNat?`. -/

/-- A parse error: `kind.context(ErrorKind::Block(start))`, or a bare
`ErrorKind` as propagated from `update_param` calls. -/
inductive PError where
  | bare (kind : ErrorKind)
  | ctx (startLine : Nat) (kind : ErrorKind)
deriving Repr, DecidableEq

/-- A parser result; `fuel` marks fuel exhaustion and is distinct from both
success and source-level errors. -/
inductive POut (α : Type) where
  | ok (a : α)
  | err (e : PError)
  | fuel

def POut.bind : POut α → (α → POut β) → POut β
  | .ok a, f => f a
  | .err e, _ => .err e
  | .fuel, _ => .fuel

instance instMonadPOut : Monad POut where
  pure := POut.ok
  bind := POut.bind

/-- `parse.rs` `Block<'a>`: the character slice and the scan position;
`startLine` is `self.start.unwrap()`, the starting line number used in
error contexts (always present for nonempty blocks). -/
structure Scanner where
  slice : List Char
  startLine : Nat
  idx : Nat
deriving Repr, DecidableEq

/-- A scanner over a string, at position 0 (as `Block::new` makes one). -/
def mkScanner (s : String) : Scanner :=
  { slice := s.data, startLine := 0, idx := 0 }

/-- Slice indexing, `self.get(i)`. -/
def Scanner.get (s : Scanner) (i : Nat) : Option Char := s.slice[i]?

/-- `Block::next`: the character at `idx`, incrementing `idx` (also past the
end). -/
def Scanner.next (s : Scanner) : Option Char × Scanner :=
  (s.slice[s.idx]?, { s with idx := s.idx + 1 })

/-- `Block::peek`. -/
def Scanner.peek (s : Scanner) : Option Char := s.slice[s.idx]?

/-- `self.len()` (the `Deref` to the slice). -/
def Scanner.len (s : Scanner) : Nat := s.slice.length

/-- The loop of `skip_whitespace_virtual`, with fuel. -/
def skipWsFrom : Nat → Scanner → Nat → Nat
  | 0, _, i => i
  | f + 1, s, i =>
    match s.get i with
    | some c => if c.isWhitespace then skipWsFrom f s (i + 1) else i
    | none => i

/-- `Block::skip_whitespace_virtual`.  The loop advances by one position per
step and stops at the end of the slice, so `length + 1` fuel always runs it
to completion. -/
def Scanner.skip_whitespace_virtual (s : Scanner) : Nat :=
  skipWsFrom (s.slice.length + 1) s s.idx

/-- `Block::skip_whitespace`. -/
def Scanner.skip_whitespace (s : Scanner) : Scanner :=
  { s with idx := s.skip_whitespace_virtual }

/-- `Block::match_hard_line`: a newline followed (after whitespace) by `::`
or by the end of the block. -/
def Scanner.match_hard_line (s : Scanner) (c : Char) : Bool :=
  c = '\n' &&
    match s.get s.skip_whitespace_virtual with
    | some c1 =>
      c1 = ':' &&
        match s.get (s.skip_whitespace_virtual + 1) with
        | some c2 => c2 = ':'
        | none => false
    | none => true

/-- `Block::end_of_block`. -/
def Scanner.end_of_block (s : Scanner) (kind : EndOfBlockKind) : PError :=
  .ctx s.startLine (.endOfBlock kind)

/-- `Block::expect`. -/
def Scanner.expect (s : Scanner) (expected : Char) : POut (Char × Scanner) :=
  match s.next with
  | (some c, s1) => .ok (c, s1)
  | (none, _) => .err (s.end_of_block (.expect expected))

/-- `Block::expect_escaped`. -/
def Scanner.expect_escaped (s : Scanner) : POut (Char × Scanner) :=
  match s.next with
  | (some c, s1) => .ok (c, s1)
  | (none, _) => .err (s.end_of_block .escape)

/-- `Block::expect_exact`. -/
def Scanner.expect_exact (s : Scanner) (expected : Char) : POut Scanner :=
  match s.next with
  | (some c, s1) =>
    if c = expected then .ok s1
    else .err (.ctx s.startLine (.expected expected c))
  | (none, _) => .err (s.end_of_block (.expect expected))

/-- The loop of `Block::directive`, accumulating the name into `acc`. -/
def directiveLoop : Nat → Scanner → String → POut (String × Scanner)
  | 0, _, _ => .fuel
  | f + 1, s, acc => do
    let (c, s1) ← s.expect ':'
    if c = ':' then pure (acc, s1)
    else if c = '\\' then do
      let (e, s2) ← s1.expect_escaped
      directiveLoop f s2 (acc.push e)
    else directiveLoop f s1 (acc.push c)

/-- The loop of `Block::bracketed`: the contents of a `\x7b\x7d` group, the
opening brace already consumed.  The Rust code pushes onto the caller's
buffer; the freshly pushed part is returned instead. -/
def bracketedLoop : Nat → Scanner → String → POut (String × Scanner)
  | 0, _, _ => .fuel
  | f + 1, s, buffer => do
    let (c, s1) ← s.expect '\x7d'
    if c = '\x7d' then pure (buffer, s1)
    else if c = '\\' then do
      let (e, s2) ← s1.expect_escaped
      bracketedLoop f s2 (buffer.push e)
    else bracketedLoop f s1 (buffer.push c)

/-- `param_builder.last_mut().unwrap().push(c)`: the builder is nonempty
throughout (it starts as `[""]`), so the `[]` case is junk. -/
def pushLastChar : List String → Char → List String
  | [], c => [String.mk [c]]
  | [w], c => [w.push c]
  | w :: v :: rest, c => w :: pushLastChar (v :: rest) c

/-- Appending a whole string to the builder's last word (the `bracketed`
call sites). -/
def appendLastStr : List String → String → List String
  | [], x => [x]
  | [w], x => [w ++ x]
  | w :: v :: rest, x => w :: appendLastStr (v :: rest) x

/-- `.iter().filter(|w| w.len() > 0).join(" ")`. -/
def joinWords (l : List String) : String :=
  String.intercalate " " (l.filter (fun w => w.length > 0))

/-- The loop of `Block::parameter_value`. -/
def parameter_valueLoop : Nat → Scanner → List String → POut (List String × Scanner)
  | 0, _, _ => .fuel
  | f + 1, s, builder =>
    match s.peek with
    | none => .ok (builder, s)
    | some c =>
      if c = ']' then .ok (builder, s)
      else if c = '\\' then do
        let (e, s2) ← Scanner.expect_escaped { s with idx := s.idx + 1 }
        parameter_valueLoop f s2 (pushLastChar builder e)
      else if c = '\x7b' then do
        let (inner, s2) ← bracketedLoop f { s with idx := s.idx + 1 } ""
        parameter_valueLoop f s2 (appendLastStr builder inner)
      else if c = ',' then .ok (builder, { s with idx := s.idx + 1 })
      else if c.isWhitespace then
        parameter_valueLoop f s.skip_whitespace (builder ++ [""])
      else parameter_valueLoop f { s with idx := s.idx + 1 } (pushLastChar builder c)

/-- `Block::parameter_value`. -/
def Scanner.parameter_value (fuel : Nat) (s : Scanner) : POut (String × Scanner) := do
  let (builder, s1) ← parameter_valueLoop fuel s.skip_whitespace [""]
  pure (joinWords builder, s1)

/-- `document.rs` `Parameter`: an optional name and a value. -/
structure Parameter where
  name : Option String
  value : String
deriving Repr, DecidableEq

/-- The loop of `Block::parameter`: `parameter_value`'s loop plus the `=`
arm; returns the builder and the optional value. -/
def parameterLoop : Nat → Scanner → List String →
    POut (List String × Option String × Scanner)
  | 0, _, _ => .fuel
  | f + 1, s, builder =>
    match s.peek with
    | none => .ok (builder, none, s)
    | some c =>
      if c = ']' then .ok (builder, none, s)
      else if c = '\\' then do
        let (e, s2) ← Scanner.expect_escaped { s with idx := s.idx + 1 }
        parameterLoop f s2 (pushLastChar builder e)
      else if c = '\x7b' then do
        let (inner, s2) ← bracketedLoop f { s with idx := s.idx + 1 } ""
        parameterLoop f s2 (appendLastStr builder inner)
      else if c = ',' then .ok (builder, none, { s with idx := s.idx + 1 })
      else if c = '=' then do
        let (v, s2) ← Scanner.parameter_value f { s with idx := s.idx + 1 }
        pure (builder, some v, s2)
      else if c.isWhitespace then
        parameterLoop f s.skip_whitespace (builder ++ [""])
      else parameterLoop f { s with idx := s.idx + 1 } (pushLastChar builder c)

/-- `Block::parameter`. -/
def Scanner.parameter (fuel : Nat) (s : Scanner) : POut (Option Parameter × Scanner) := do
  let (builder, v, s1) ← parameterLoop fuel s.skip_whitespace [""]
  if (joinWords builder).length = 0 then pure (none, s1)
  else
    match v with
    | some value => pure (some ⟨some (joinWords builder), value⟩, s1)
    | none => pure (some ⟨none, joinWords builder⟩, s1)

/-- The loop of `Block::parameters`. -/
def parametersLoop : Nat → Scanner → List Parameter → POut (List Parameter × Scanner)
  | 0, _, _ => .fuel
  | f + 1, s, params => do
    let (c, s1) ← s.expect ']'
    if c = ']' then pure (params, s1)
    else do
      let (p, s2) ← Scanner.parameter f { s1 with idx := s1.idx - 1 }
      match p with
      | some p => parametersLoop f s2 (params ++ [p])
      | none => parametersLoop f s2 params

/-- `Block::parameters`: an empty list, without advancing, when no `[` is
found after the current whitespace. -/
def Scanner.parameters (fuel : Nat) (s : Scanner) : POut (List Parameter × Scanner) :=
  match s.skip_whitespace.peek with
  | some '[' =>
    parametersLoop fuel
      (Scanner.skip_whitespace { s.skip_whitespace with idx := s.skip_whitespace.idx + 1 }) []
  | _ => .ok ([], s)

/-! ### The `update_param` implementations (`document.rs`) -/

/-- An updatable object: the updated value and the parameter when it was not
consumed (`OResult<Parameter>`). -/
abbrev Upd (α : Type) := α → Parameter → POut (α × Option Parameter)

/-- Lifting an infallible `update_param`. -/
def pureUpd (f : α → Parameter → α × Option Parameter) : Upd α :=
  fun a p => .ok (f a p)

/-- `impl UpdateParam for String` (and the identical `InlineCommon` impl):
`class` or a bare value sets the class. -/
def updateClass (cls : String) (p : Parameter) : String × Option Parameter :=
  match p.name with
  | some n => if n = "class" then (p.value, none) else (cls, some p)
  | none => (p.value, none)

/-- `impl UpdateParam for BlockCommon`: `class` or bare sets the class,
`id` the id. -/
def BlockCommon.update_param (c : BlockCommon) (p : Parameter) :
    BlockCommon × Option Parameter :=
  match p.name with
  | some n =>
    if n = "class" then ({ c with cls := p.value }, none)
    else if n = "id" then ({ c with id := p.value }, none)
    else (c, some p)
  | none => ({ c with cls := p.value }, none)

/-- `impl UpdateParam for Heading`: bare `nonumber`, `notoc`. -/
def Heading.update_param (h : Heading) (p : Parameter) : Heading × Option Parameter :=
  match p.name with
  | some _ => (h, some p)
  | none =>
    if p.value = "nonumber" then ({ h with numbered := false }, none)
    else if p.value = "notoc" then ({ h with toc := false }, none)
    else (h, some p)

/-- `impl UpdateParam for Contents`: `max_level`, with a `Parse` error when
the value is not a `usize`. -/
def Contents.update_param (c : Contents) (p : Parameter) :
    POut (Contents × Option Parameter) :=
  match p.name with
  | some n =>
    if n = "max_level" then
      match p.value.toNat? with
      | some v => .ok ({ c with max_level := v }, none)
      | none => .err (.bare .parse)
    else .ok (c, some p)
  | none => .ok (c, some p)

/-- `impl UpdateParam for List`: bare `ordered`. -/
def ListBlock.update_param (l : ListBlock) (p : Parameter) : ListBlock × Option Parameter :=
  match p.name with
  | some _ => (l, some p)
  | none =>
    if p.value = "ordered" then ({ l with ordered := true }, none) else (l, some p)

/-- `impl UpdateParam for Table`: bare `nonumber`. -/
def Table.update_param (t : Table) (p : Parameter) : Table × Option Parameter :=
  match p.name with
  | some _ => (t, some p)
  | none =>
    if p.value = "nonumber" then ({ t with numbered := false }, none) else (t, some p)

/-- `impl UpdateParam for Row`: `class`; bare `header` or class. -/
def Row.update_param (r : Row) (p : Parameter) : Row × Option Parameter :=
  match p.name with
  | some n => if n = "class" then ({ r with cls := p.value }, none) else (r, some p)
  | none =>
    if p.value = "header" then ({ r with header := true }, none)
    else ({ r with cls := p.value }, none)

/-- `impl UpdateParam for Column`: `class`; bare `header` or class. -/
def Column.update_param (c : Column) (p : Parameter) : Column × Option Parameter :=
  match p.name with
  | some n => if n = "class" then ({ c with cls := p.value }, none) else (c, some p)
  | none =>
    if p.value = "header" then ({ c with header := true }, none)
    else ({ c with cls := p.value }, none)

/-- `impl UpdateParam for Cell`: `class` or bare class; `rows` and `cols`
parsed as `usize` with a `Parse` error on failure. -/
def Cell.update_param (c : Cell) (p : Parameter) : POut (Cell × Option Parameter) :=
  match p.name with
  | some n =>
    if n = "class" then .ok ({ c with cls := p.value }, none)
    else if n = "rows" then
      match p.value.toNat? with
      | some v => .ok ({ c with rows := v }, none)
      | none => .err (.bare .parse)
    else if n = "cols" then
      match p.value.toNat? with
      | some v => .ok ({ c with cols := v }, none)
      | none => .err (.bare .parse)
    else .ok (c, some p)
  | none => .ok ({ c with cls := p.value }, none)

/-- `impl UpdateParam for Gloss`: bare `nonumber`. -/
def Gloss.update_param (g : Gloss) (p : Parameter) : Gloss × Option Parameter :=
  match p.name with
  | some _ => (g, some p)
  | none =>
    if p.value = "nonumber" then ({ g with numbered := false }, none) else (g, some p)

/-- `GlossLineType::update_param`: bare `nosplit`. -/
def GlossLineType.update_param (k : GlossLineType) (p : Parameter) :
    GlossLineType × Option Parameter :=
  match p.name with
  | some _ => (k, some p)
  | none => if p.value = "nosplit" then (GlossLineType.noSplit, none) else (k, some p)

/-- `impl UpdateParam for InlineType`: `ref` for references, `link` and
`title` for links. -/
def InlineType.update_param (k : InlineType) (p : Parameter) :
    InlineType × Option Parameter :=
  match k with
  | .reference _ =>
    match p.name with
    | some n => if n = "ref" then (.reference p.value, none) else (k, some p)
    | none => (.reference p.value, none)
  | .link url title =>
    match p.name with
    | some n =>
      if n = "link" then (.link p.value title, none)
      else if n = "title" then (.link url (Text.ofString p.value), none)
      else (k, some p)
    | none => (.link p.value title, none)
  | _ => (k, some p)

/-- `update_one!` with two objects: chain the parameter through `fa` then
`fb`; a parameter that neither consumes is a `Parameter` error naming it
(`param.0.unwrap()`: the name is always present there, because every last
argument consumes nameless parameters; the `none` case is junk). -/
def update_one2 (fa : Upd α) (fb : Upd β) (line : Nat) (p : Parameter) (a : α) (b : β) :
    POut (α × β) := do
  let (a1, p1) ← fa a p
  match p1 with
  | none => pure (a1, b)
  | some p1 => do
    let (b1, p2) ← fb b p1
    match p2 with
    | none => pure (a1, b1)
    | some p2 =>
      match p2.name with
      | some n => POut.err (.ctx line (.parameter n))
      | none => POut.err (.ctx line (.parameter ""))

/-- `update_one!` with a single object. -/
def update_one1 (fb : Upd β) (line : Nat) (p : Parameter) (b : β) : POut β := do
  let (b1, p1) ← fb b p
  match p1 with
  | none => pure b1
  | some p1 =>
    match p1.name with
    | some n => POut.err (.ctx line (.parameter n))
    | none => POut.err (.ctx line (.parameter ""))

/-- The parameter fold of `update_multiple!` (two objects). -/
def updParams2 (fa : Upd α) (fb : Upd β) (line : Nat) :
    List Parameter → α → β → POut (α × β)
  | [], a, b => .ok (a, b)
  | p :: rest, a, b => do
    let (a1, b1) ← update_one2 fa fb line p a b
    updParams2 fa fb line rest a1 b1

/-- The parameter fold of `update_multiple!` (one object). -/
def updParams1 (fb : Upd β) (line : Nat) : List Parameter → β → POut β
  | [], b => .ok b
  | p :: rest, b => do
    let b1 ← update_one1 fb line p b
    updParams1 fb line rest b1

/-- `update_multiple!($self, $a, $b)`: parse the parameter list, then fold
it through the two objects. -/
def update_multiple2 (fuel : Nat) (fa : Upd α) (fb : Upd β) (s : Scanner) (a : α) (b : β) :
    POut (α × β × Scanner) := do
  let (params, s1) ← s.parameters fuel
  let (a1, b1) ← updParams2 fa fb s.startLine params a b
  pure (a1, b1, s1)

/-- `update_multiple!($self, $b)`: one object. -/
def update_multiple1 (fuel : Nat) (fb : Upd β) (s : Scanner) (b : β) :
    POut (β × Scanner) := do
  let (params, s1) ← s.parameters fuel
  let b1 ← updParams1 fb s.startLine params b
  pure (b1, s1)

/-- `Block::simple_inline`: update the kind and the inline class from the
parameter list (the `InlineCommon` is its class string). -/
def simpleInline (fuel : Nat) (s : Scanner) (kind : InlineType) : POut (Inline × Scanner) := do
  let (kind1, cls1, s1) ←
    update_multiple2 fuel (pureUpd InlineType.update_param) (pureUpd updateClass) s kind ""
  pure (Inline.mk kind1 cls1, s1)

/-- `if buffer.len() != 0 \x7b text.push(buffer) \x7d` (`push_and_renew!`
and the final flush of `text_until`). -/
def pushBuf (t : Text) (buffer : String) : Text :=
  if buffer.length ≠ 0 then t.push (Inline.ofString buffer) else t

/-- The backtick character (`` ` ``), delimiting `Span` inlines. -/
def backtickChar : Char := Char.ofNat 96

/-- `Block::text_until` (the loop, with the pending `buffer`), plus the body
of `Block::formatting_inline` inlined at the `*` and `_` arms (both call
sites pass the delimiter `'*'` — faithfully to the source, where the `_` arm
also passes `'*'`).  The predicate sees the scanner after `next()`, as in
Rust.  One fuel unit is spent per character and per nested construct. -/
def textUntilLoop : Nat → Scanner → (Scanner → Char → Bool) → Text → String →
    POut (Text × Scanner)
  | 0, _, _, _, _ => .fuel
  | f + 1, s, pred, text, buffer =>
    match s.next with
    | (none, s1) => .ok (pushBuf text buffer, s1)
    | (some c, s1) =>
      if pred s1 c then .ok (pushBuf text buffer, s1)
      else if c = '\x7b' then do
        let (text1, s2) ← textUntilLoop f s1 (fun _ ch => ch = '\x7d') (pushBuf text buffer) ""
        textUntilLoop f s2 pred text1 ""
      else if c = ':' then do
        let (name, s2) ← directiveLoop f s1 ""
        let (inl, s3) ←
          if name = "ref" then simpleInline f s2 (.reference "")
          else if name = "link" then simpleInline f s2 (.link "" Text.new)
          else simpleInline f s2 (.replace name)
        textUntilLoop f s3 pred ((pushBuf text buffer).push inl) ""
      else if c = '*' then do
        let (c2, s2) ← s1.expect '*'
        let (inl, s3) ←
          if c2 = '*' then do
            let (inner, s3) ← textUntilLoop f s2 (fun _ ch => ch = '*') Text.new ""
            let s4 ← s3.expect_exact '*'
            simpleInline f s4 (.strong inner)
          else do
            let (inner, s3) ←
              textUntilLoop f { s2 with idx := s2.idx - 1 } (fun _ ch => ch = '*') Text.new ""
            simpleInline f s3 (.emphasis inner)
        textUntilLoop f s3 pred ((pushBuf text buffer).push inl) ""
      else if c = '_' then do
        let (c2, s2) ← s1.expect '*'
        let (inl, s3) ←
          if c2 = '*' then do
            let (inner, s3) ← textUntilLoop f s2 (fun _ ch => ch = '*') Text.new ""
            let s4 ← s3.expect_exact '*'
            simpleInline f s4 (.bold inner)
          else do
            let (inner, s3) ←
              textUntilLoop f { s2 with idx := s2.idx - 1 } (fun _ ch => ch = '*') Text.new ""
            simpleInline f s3 (.italics inner)
        textUntilLoop f s3 pred ((pushBuf text buffer).push inl) ""
      else if c = '^' then do
        let (inner, s2) ← textUntilLoop f s1 (fun _ ch => ch = '^') Text.new ""
        let (inl, s3) ← simpleInline f s2 (.smallCaps inner)
        textUntilLoop f s3 pred ((pushBuf text buffer).push inl) ""
      else if c = backtickChar then do
        let (inner, s2) ← textUntilLoop f s1 (fun _ ch => ch = backtickChar) Text.new ""
        let (cls, s3) ← update_multiple1 f (pureUpd updateClass) s2 "conlang"
        textUntilLoop f s3 pred ((pushBuf text buffer).push (Inline.mk (.span inner) cls)) ""
      else if c = '\\' then do
        let (e, s2) ← s1.expect_escaped
        textUntilLoop f s2 pred text (buffer.push e)
      else if c.isWhitespace then
        textUntilLoop f s1.skip_whitespace pred text (buffer.push ' ')
      else textUntilLoop f s1 pred text (buffer.push c)

/-- `Block::text_until`. -/
def text_until (fuel : Nat) (s : Scanner) (pred : Scanner → Char → Bool) (text : Text) :
    POut (Text × Scanner) :=
  textUntilLoop fuel s pred text ""

/-- `Block::text_rest`. -/
def text_rest (fuel : Nat) (s : Scanner) (text : Text) : POut (Text × Scanner) :=
  text_until fuel s (fun _ _ => false) text

/-- `Block::text_until_char`. -/
def text_until_char (fuel : Nat) (s : Scanner) (text : Text) (u : Char) :
    POut (Text × Scanner) :=
  text_until fuel s (fun _ ch => ch = u) text

/-- `Block::text_until_hard_line`. -/
def text_until_hard_line (fuel : Nat) (s : Scanner) (text : Text) :
    POut (Text × Scanner) :=
  text_until fuel s Scanner.match_hard_line text

/-! ### The block-level arms of `Block::parse` -/

/-- `Default for Heading` (what `Heading::new()` without arguments denotes
in `parse.rs`): level 0 and the default (level-1) children list; `parse`
overwrites `level` right after. -/
def Heading.defaultVal : Heading :=
  { title := Text.new, numbered := true, toc := true, level := 0
    children := SectionList.defaultVal, number := [] }

/-- The `toc` arm of `parse` (parse.rs lines 91–100). -/
def arm_toc (fuel : Nat) (s : Scanner) : POut (Block × Scanner) := do
  let (toc, common, s1) ←
    update_multiple2 fuel Contents.update_param (pureUpd BlockCommon.update_param) s
      Contents.defaultVal (BlockCommon.new 0)
  let (title, s2) ← text_rest fuel s1 toc.title
  pure ({ kind := .contents { toc with title := title }, common := common }, s2)

/-- `Block::list_tree` (parse.rs lines 292–308). -/
def list_tree : Nat → Scanner → Nat → List ListItem → POut (List ListItem × Scanner)
  | 0, _, _, _ => .fuel
  | f + 1, s, last_indent, parent =>
    if s.skip_whitespace_virtual - s.idx ≤ last_indent then .ok (parent, s)
    else do
      let (txt, s2) ←
        text_until_hard_line f
          { s with idx := s.idx + (s.skip_whitespace_virtual - s.idx) + 2 } Text.new
      let (sub, s3) ← list_tree f s2 (s.skip_whitespace_virtual - s.idx) []
      list_tree f s3 last_indent (parent ++ [ListItem.mk txt sub])

/-- The item loop of the `list` arm (parse.rs lines 105–112). -/
def arm_listLoop : Nat → Scanner → ListBlock → POut (ListBlock × Scanner)
  | 0, _, _ => .fuel
  | f + 1, s, list =>
    if s.idx < s.len then do
      let (txt, s2) ←
        text_until_hard_line f
          { s with idx := s.idx + (s.skip_whitespace_virtual - s.idx) + 2 } Text.new
      let (sub, s3) ← list_tree f s2 (s.skip_whitespace_virtual - s.idx) []
      arm_listLoop f s3 { list with items := list.items ++ [ListItem.mk txt sub] }
    else .ok (list, s)

/-- The `list` arm of `parse` (parse.rs lines 101–117). -/
def arm_list (fuel : Nat) (s : Scanner) : POut (Block × Scanner) := do
  let (list, common, s1) ←
    update_multiple2 fuel (pureUpd ListBlock.update_param) (pureUpd BlockCommon.update_param) s
      ListBlock.defaultVal (BlockCommon.new 0)
  let (list2, s2) ← arm_listLoop fuel s1 list
  pure ({ kind := .listB list2, common := common }, s2)

/-- The column-parameter loop of the `table` arm (parse.rs lines 124–143). -/
def tableColumnsLoop : Nat → Scanner → Table → POut (Table × Scanner)
  | 0, _, _ => .fuel
  | f + 1, s, table =>
    match s.next with
    | (none, s1) => .ok (table, s1)
    | (some c, s1) =>
      if c = '|' then do
        let (col, s2) ← update_multiple1 f (pureUpd Column.update_param) s1 Column.defaultVal
        tableColumnsLoop f s2 { table with columns := table.columns ++ [col] }
      else if s1.match_hard_line c then .ok (table, s1)
      else if c.isWhitespace then tableColumnsLoop f s1 table
      else .err (.ctx s.startLine (.expected '|' c))

/-- The cell loop of one table row (parse.rs lines 153–176). -/
def tableCellsLoop : Nat → Scanner → Row → POut (Row × Scanner)
  | 0, _, _ => .fuel
  | f + 1, s, row =>
    match s.next with
    | (none, s1) => .ok (row, s1)
    | (some c, s1) =>
      if c = '|' then do
        let (cell, s2) ← update_multiple1 f Cell.update_param s1 Cell.defaultVal
        let (txt, s3) ←
          text_until f s2 (fun slf ch => ch = '|' || slf.match_hard_line ch) cell.text
        match s3.peek with
        | some '|' =>
          tableCellsLoop f s3 { row with cells := row.cells ++ [{ cell with text := txt }] }
        | _ => .ok ({ row with cells := row.cells ++ [{ cell with text := txt }] }, s3)
      else if c = '\n' && s1.match_hard_line '\n' then .ok (row, s1)
      else if c.isWhitespace then tableCellsLoop f s1 row
      else .err (.ctx s.startLine (.expected '|' c))

/-- The row loop of the `table` arm (parse.rs lines 146–179). -/
def tableRowsLoop : Nat → Scanner → Table → POut (Table × Scanner)
  | 0, _, _ => .fuel
  | f + 1, s, table =>
    match s.peek with
    | none => .ok (table, s)
    | some _ => do
      let (row, s3) ←
        update_multiple1 f (pureUpd Row.update_param)
          { s.skip_whitespace with idx := s.skip_whitespace.idx + 2 } Row.defaultVal
      let (row1, s4) ← tableCellsLoop f s3 row
      tableRowsLoop f s4 { table with rows := table.rows ++ [row1] }

/-- The `table` arm of `parse` (parse.rs lines 118–184). -/
def arm_table (fuel : Nat) (s : Scanner) : POut (Block × Scanner) := do
  let (table, common, s1) ←
    update_multiple2 fuel (pureUpd Table.update_param) (pureUpd BlockCommon.update_param) s
      Table.defaultVal (BlockCommon.new 0)
  let (title, s2) ← text_until_char fuel s1 table.title '\n'
  let (table1, s3) ← tableColumnsLoop fuel s2 { table with title := title }
  let (table2, s4) ← tableRowsLoop fuel s3 table1
  pure ({ kind := .table table2, common := common }, s4)

/-- The word loop of a split gloss line (parse.rs lines 227–245). -/
def glossWordsLoop : Nat → Scanner → GlossLine → POut (GlossLine × Scanner)
  | 0, _, _ => .fuel
  | f + 1, s, line =>
    match s.next with
    | (none, s1) => .ok (line, s1)
    | (some c, s1) =>
      if c = '\n' && s1.match_hard_line '\n' then .ok (line, s1)
      else if c.isWhitespace then glossWordsLoop f s1 line
      else do
        let (word, s2) ←
          text_until f { s1 with idx := s1.idx - 1 } (fun _ ch => ch.isWhitespace) Text.new
        glossWordsLoop f { s2 with idx := s2.idx - 1 } (line.pushWord word)

/-- The line loop of the `gloss` arm (parse.rs lines 192–249): a `NoSplit`
line goes to the preamble while no split line has been seen, to the
postamble afterwards; a `Split` line after a nonempty postamble is the
`GlossLine` error, in the block's starting-line context. -/
def glossLoop : Nat → Scanner → Gloss → POut (Gloss × Scanner)
  | 0, _, _ => .fuel
  | f + 1, s, gloss =>
    match s.peek with
    | none => .ok (gloss, s)
    | some _ => do
      let (kind, cls, s3) ←
        update_multiple2 f (pureUpd GlossLineType.update_param) (pureUpd updateClass)
          { s.skip_whitespace with idx := s.skip_whitespace.idx + 2 } GlossLineType.split ""
      match kind with
      | .noSplit => do
        let (line, s4) ← text_until_hard_line f s3 Text.new
        if gloss.gloss.length = 0 then
          glossLoop f s4
            { gloss with preamble :=
                gloss.preamble ++ [if cls.length ≠ 0 then line.with_class cls else line] }
        else
          glossLoop f s4
            { gloss with postamble :=
                gloss.postamble ++ [if cls.length ≠ 0 then line.with_class cls else line] }
      | .split =>
        if gloss.postamble.length ≠ 0 then POut.err (.ctx s.startLine .glossLine)
        else do
          let (line, s4) ← glossWordsLoop f s3 { GlossLine.defaultVal with cls := cls }
          glossLoop f s4 { gloss with gloss := gloss.gloss ++ [line] }

/-- The `gloss` arm of `parse` (parse.rs lines 185–254). -/
def arm_gloss (fuel : Nat) (s : Scanner) : POut (Block × Scanner) := do
  let (gloss, common, s1) ←
    update_multiple2 fuel (pureUpd Gloss.update_param) (pureUpd BlockCommon.update_param) s
      Gloss.defaultVal (BlockCommon.new 0)
  let (title, s2) ← text_until_hard_line fuel s1 gloss.title
  let (gloss1, s3) ← glossLoop fuel s2 { gloss with title := title }
  pure ({ kind := .gloss gloss1, common := common }, s3)

/-- The `#`-counting loop of the heading arm:
`while let Some('#') = self.next() \x7b\x7d`. -/
def headingHashLoop : Nat → Scanner → Scanner
  | 0, s => s
  | f + 1, s =>
    match s.next with
    | (some c, s1) => if c = '#' then headingHashLoop f s1 else s1
    | (none, s1) => s1

/-- The heading arm of `parse` (parse.rs lines 264–280); `start` is the
position of the first `#`, already consumed.  As in the source, `level` is
computed as `self.idx - start` after the counting loop has consumed one
character past the `#`s. -/
def arm_heading (fuel : Nat) (start : Nat) (s : Scanner) : POut (Block × Scanner) := do
  let (heading1, common, s3) ←
    update_multiple2 fuel (pureUpd Heading.update_param) (pureUpd BlockCommon.update_param)
      { headingHashLoop fuel s with idx := (headingHashLoop fuel s).idx - 1 }
      { Heading.defaultVal with level := (headingHashLoop fuel s).idx - start }
      (BlockCommon.new 0)
  let (title, s4) ← text_rest fuel s3 heading1.title
  pure ({ kind := .heading { heading1 with title := title }, common := common }, s4)

/-- The paragraph arm of `parse` (parse.rs lines 281–286 and 255–262): the
scanner has been rewound to the block's first non-whitespace character. -/
def arm_paragraph (fuel : Nat) (s : Scanner) : POut (Block × Scanner) := do
  let (txt, s1) ← text_rest fuel s Text.new
  pure ({ kind := .text txt, common := BlockCommon.defaultVal }, s1)

/-- `Block::parse` (parse.rs lines 83–289): skip leading whitespace, then
dispatch on the first character; a `:` reads a directive and selects the
`toc`/`list`/`table`/`gloss` arm, any other directive rewinds and parses a
paragraph; `#` parses a heading; anything else a paragraph; an exhausted
block gives `none`. -/
def blockParse (fuel : Nat) (s : Scanner) : POut (Option Block × Scanner) :=
  match s.skip_whitespace.next with
  | (none, s1) => .ok (none, s1)
  | (some c, s1) =>
    if c = ':' then do
      let (name, s2) ← directiveLoop fuel s1 ""
      let (b, s3) ←
        if name = "toc" then arm_toc fuel s2
        else if name = "list" then arm_list fuel s2
        else if name = "table" then arm_table fuel s2
        else if name = "gloss" then arm_gloss fuel s2
        else arm_paragraph fuel { s2 with idx := s.skip_whitespace.idx }
      pure (some b, s3)
    else if c = '#' then do
      let (b, s3) ← arm_heading fuel s.skip_whitespace.idx s1
      pure (some b, s3)
    else do
      let (b, s3) ← arm_paragraph fuel { s1 with idx := s.skip_whitespace.idx }
      pure (some b, s3)

/-- Which kinds the dispatch claims are about. -/
def BlockKind.isContents : BlockKind → Bool
  | .contents _ => true
  | _ => false

def BlockKind.isListB : BlockKind → Bool
  | .listB _ => true
  | _ => false

def BlockKind.isTable : BlockKind → Bool
  | .table _ => true
  | _ => false

def BlockKind.isGloss : BlockKind → Bool
  | .gloss _ => true
  | _ => false

def BlockKind.isText : BlockKind → Bool
  | .text _ => true
  | _ => false

def BlockKind.isReplacements : BlockKind → Bool
  | .replacements _ => true
  | _ => false

/-! ## `Table::write`: the column-continuation accounting (`table.rs`) -/

/-- The `while let Some(n) = continuation_cells.get_mut(col)` loop of
`Table::write` (table.rs lines 56–65): advance `col` past positive counts,
decrementing each count passed. -/
def advanceCol : Nat → List Nat → Nat → List Nat × Nat
  | 0, cc, col => (cc, col)
  | f + 1, cc, col =>
    match cc[col]? with
    | some n => if 0 < n then advanceCol f (cc.set col (n - 1)) (col + 1) else (cc, col)
    | none => (cc, col)

/-- `continuation_cells.resize(n, 0)` when shorter than `n` (table.rs lines
67–69). -/
def resizeZero (l : List Nat) (n : Nat) : List Nat :=
  if l.length < n then l ++ List.replicate (n - l.length) 0 else l

/-- `for n in &mut continuation_cells[c..c + k] \x7b *n =
rows.max(*n).saturating_sub(1) \x7d` (table.rs lines 70–72), as a
position-indexed map starting at index `i`. -/
def paintRange : List Nat → Nat → Nat → Nat → Nat → List Nat
  | [], _, _, _, _ => []
  | n :: rest, i, c, k, rows =>
    (if c ≤ i && i < c + k then max rows n - 1 else n) :: paintRange rest (i + 1) c k rows

/-- The per-cell continuation accounting of `Table::write` (table.rs lines
55–74): the updated continuation list and the physical column at which the
cell is emitted.  The `while` loop advances one column per step and stops at
the end of the list, so `length + 1` fuel always completes it. -/
def placeCell (cc : List Nat) (col : Nat) (cell : Cell) : List Nat × Nat :=
  match advanceCol (cc.length + 1) cc col with
  | (cc1, c) => (paintRange (resizeZero cc1 (c + cell.cols)) 0 c cell.cols cell.rows, c)

/-- One row of `Table::write`: the emitted physical column of each cell, the
column cursor advancing by `cell.cols` (table.rs lines 53–76). -/
def rowPlace : List Cell → List Nat → Nat → List Nat × List Nat
  | [], cc, _ => (cc, [])
  | cell :: rest, cc, col =>
    match placeCell cc col cell with
    | (cc1, c) =>
      match rowPlace rest cc1 (c + cell.cols) with
      | (cc2, emits) => (cc2, c :: emits)

/-- The emitted physical columns of every row of a table, the continuation
list carried across rows and the cursor reset to 0 per row (table.rs lines
48–78). -/
def tableEmitCols (t : Table) : List (List Nat) :=
  (t.rows.foldl
    (fun acc row =>
      match rowPlace row.cells acc.1 0 with
      | (cc1, emits) => (cc1, acc.2 ++ [emits]))
    (([] : List Nat), ([] : List (List Nat)))).2

/-- The 2×2 table of the claim: a `rows=2, cols=2` cell at physical column 0
(first row), then a single default cell in the next row. -/
def c7Table : Table :=
  { Table.defaultVal with
    rows := [
      { Row.defaultVal with cells := [{ Cell.defaultVal with rows := 2, cols := 2 }] },
      { Row.defaultVal with cells := [Cell.defaultVal] }] }

/-! ## `Gloss::write`: the `<dl>` group loop (`gloss.rs` lines 53–89) -/

/-- `self.gloss[0].words.get(i)`: word `i` of the first line of a line
list (`headD` is junk for the empty list, where Rust would panic; the loop
only runs on nonempty glosses). -/
def lineHeadWord (lines : List GlossLine) (i : Nat) : Option Text :=
  (lines.headD GlossLine.defaultVal).words[i]?

/-- `head_word.map(|w| w.starts_with('-'))`, false for a missing word. -/
def lineStartsDash (lines : List GlossLine) (i : Nat) : Bool :=
  match lineHeadWord lines i with
  | some w => w.starts_with '-'
  | none => false

/-- `head_word.map(|w| w.ends_with('-'))`, false for a missing word (the
`add_space` update). -/
def lineEndsDash (lines : List GlossLine) (i : Nat) : Bool :=
  match lineHeadWord lines i with
  | some w => w.ends_with '-'
  | none => false

/-- The group loop of `Gloss::write`, from word index `i`, for `count` more
groups, with the `add_space` flag: each group records whether a separating
space is written before it, the head word (`self.gloss[0].words.get(i)`),
and word `i` of every other line (`line.words.get(i)` for
`&self.gloss[1..]`). -/
def glossGroupsFrom (lines : List GlossLine) :
    Nat → Nat → Bool → List (Bool × Option Text × List (Option Text))
  | _, 0, _ => []
  | i, count + 1, add_space =>
    match lineHeadWord lines i with
    | some w =>
      (add_space || !(w.starts_with '-'), some w,
          (lines.drop 1).map (fun l => l.words[i]?)) ::
        glossGroupsFrom lines (i + 1) count (w.ends_with '-')
    | none =>
      (true, none, (lines.drop 1).map (fun l => l.words[i]?)) ::
        glossGroupsFrom lines (i + 1) count false

/-- `self.gloss.iter().map(|line| line.words.len()).max()`, with 0 for the
empty gloss (where the Rust code skips the loop). -/
def glossMaxWords (g : Gloss) : Nat :=
  ((g.gloss.map (fun l => l.words.length)).max?).getD 0

/-- The `<dl>` groups `Gloss::write` emits: `num_words` groups starting at
word 0 with `add_space` initially false; none when the gloss body is
empty. -/
def glossGroups (g : Gloss) : List (Bool × Option Text × List (Option Text)) :=
  match (g.gloss.map (fun l => l.words.length)).max? with
  | none => []
  | some num_words => glossGroupsFrom g.gloss 0 num_words false

/-- Word `i` of the first body line. -/
def glossHeadWord (g : Gloss) (i : Nat) : Option Text :=
  lineHeadWord g.gloss i

/-- Whether the head word of group `i` begins with `-`. -/
def glossStartsDash (g : Gloss) (i : Nat) : Bool :=
  lineStartsDash g.gloss i

/-- Whether the head word of the group before `i` ended with `-` (false for
the first group and for a missing head word). -/
def glossPrevEndsDash (g : Gloss) : Nat → Bool
  | 0 => false
  | j + 1 => lineEndsDash g.gloss j

/-- The claim's spacing rule, stated from the spec's words: a space is
written before group `i` unless its head word begins with `-` and the
previous group's head word did not end with `-`. -/
def glossSpaceSpec (g : Gloss) (i : Nat) : Bool :=
  !(glossStartsDash g i && !(glossPrevEndsDash g i))

/-! ## Structural lemmas about the heading-like view -/

@[simp] theorem hl_is_set_children (k : BlockKind) (l : SectionList) :
    (k.hl_set_children l).hl_is = k.hl_is := by
  cases k <;> rfl

@[simp] theorem hl_numbered_set_children (k : BlockKind) (l : SectionList) :
    (k.hl_set_children l).hl_numbered = k.hl_numbered := by
  cases k <;> rfl

@[simp] theorem hl_number_set_children (k : BlockKind) (l : SectionList) :
    (k.hl_set_children l).hl_number = k.hl_number := by
  cases k <;> rfl

theorem hl_children_set_children {k : BlockKind} (l : SectionList) (h : k.hl_is = true) :
    (k.hl_set_children l).hl_children = l := by
  cases k <;> simp_all [BlockKind.hl_is, BlockKind.hl_set_children, BlockKind.hl_children]

@[simp] theorem hl_is_push_number (k : BlockKind) (v : Nat) :
    (k.hl_push_number v).hl_is = k.hl_is := by
  cases k <;> rfl

@[simp] theorem hl_numbered_push_number (k : BlockKind) (v : Nat) :
    (k.hl_push_number v).hl_numbered = k.hl_numbered := by
  cases k <;> rfl

@[simp] theorem hl_level_push_number (k : BlockKind) (v : Nat) :
    (k.hl_push_number v).hl_level = k.hl_level := by
  cases k <;> rfl

@[simp] theorem hl_children_push_number (k : BlockKind) (v : Nat) :
    (k.hl_push_number v).hl_children = k.hl_children := by
  cases k <;> rfl

theorem hl_number_push_number {k : BlockKind} (v : Nat) (h : k.hl_numbered = true) :
    (k.hl_push_number v).hl_number = k.hl_number ++ [v] := by
  cases k <;> simp_all [BlockKind.hl_numbered, BlockKind.hl_push_number, BlockKind.hl_number]

@[simp] theorem hl_is_pushIf (k : BlockKind) (v : Nat) : (pushIf k v).hl_is = k.hl_is := by
  unfold pushIf; split <;> simp

@[simp] theorem hl_numbered_pushIf (k : BlockKind) (v : Nat) :
    (pushIf k v).hl_numbered = k.hl_numbered := by
  unfold pushIf; split <;> simp

@[simp] theorem hl_level_pushIf (k : BlockKind) (v : Nat) :
    (pushIf k v).hl_level = k.hl_level := by
  unfold pushIf; split <;> simp

@[simp] theorem hl_children_pushIf (k : BlockKind) (v : Nat) :
    (pushIf k v).hl_children = k.hl_children := by
  unfold pushIf; split <;> simp

@[simp] theorem isFiller_set_children (k : BlockKind) (l : SectionList) :
    (k.hl_set_children l).isFiller = k.isFiller := by
  cases k <;> rfl

@[simp] theorem push_level (l : SectionList) (i : Nat) (numbered : Bool) :
    (l.push i numbered).level = l.level := rfl

@[simp] theorem push_headings (l : SectionList) (i : Nat) (numbered : Bool) :
    (l.push i numbered).headings = l.headings ++ [i] := rfl

/-! ## Structural lemmas about `get_section_list` / `set_section_list` -/

/-- Rust's `get_section_list(curr)` does not panic: `curr` is the root or a
valid heading-like block index. -/
def HLAt (doc : Document) : Option Nat → Prop
  | none => True
  | some i => ∃ b, doc.blocks[i]? = some b ∧ b.kind.hl_is = true

theorem set_section_list_blocks_none (doc : Document) (l : SectionList) :
    (doc.set_section_list none l).blocks = doc.blocks := rfl

theorem set_section_list_sections_some (doc : Document) (i : Nat) (l : SectionList) :
    (doc.set_section_list (some i) l).sections = doc.sections := by
  unfold Document.set_section_list
  cases h : doc.blocks[i]? <;> simp [h]

theorem get_section_list_set_same (doc : Document) (curr : Option Nat) (l : SectionList)
    (h : HLAt doc curr) :
    (doc.set_section_list curr l).get_section_list curr = l := by
  cases curr with
  | none => rfl
  | some i =>
    obtain ⟨b, hb, hbe⟩ := h
    have hlen : i < doc.blocks.length := by
      have := List.getElem?_eq_some.mp hb
      exact this.1
    simp only [Document.set_section_list, Document.get_section_list, hb]
    simp only [List.getElem?_set_self hlen]
    exact hl_children_set_children l hbe

/-- `set_section_list` only changes the targeted block's children; every
block keeps its position, heading-likeness, numbering flag and number. -/
theorem blocks_set_section_list (doc : Document) (curr : Option Nat) (l : SectionList) (j : Nat) :
    ((doc.set_section_list curr l).blocks[j]? = doc.blocks[j]?) ∨
      (∃ i b, curr = some i ∧ j = i ∧ doc.blocks[i]? = some b ∧
        (doc.set_section_list curr l).blocks[j]? =
          some { b with kind := b.kind.hl_set_children l }) := by
  cases curr with
  | none => left; rfl
  | some i =>
    unfold Document.set_section_list
    cases hb : doc.blocks[i]? with
    | none => left; simp [hb]
    | some b =>
      by_cases hij : j = i
      · subst hij
        right
        refine ⟨j, b, rfl, rfl, hb, ?_⟩
        have hlen : j < doc.blocks.length := (List.getElem?_eq_some.mp hb).1
        simp [hb, List.getElem?_set_self hlen]
      · left
        simp [hb, List.getElem?_set_ne (fun h => hij h.symm)]

theorem isNumIdx_set_section_list (doc : Document) (curr : Option Nat) (l : SectionList)
    (j : Nat) : isNumIdx (doc.set_section_list curr l) j = isNumIdx doc j := by
  rcases blocks_set_section_list doc curr l j with h | ⟨i, b, hc, hj, hb, h⟩
  · simp [isNumIdx, h]
  · subst hj
    simp [isNumIdx, h, hb]

theorem numLast_set_section_list (doc : Document) (curr : Option Nat) (l : SectionList)
    (j : Nat) : numLast (doc.set_section_list curr l) j = numLast doc j := by
  rcases blocks_set_section_list doc curr l j with h | ⟨i, b, hc, hj, hb, h⟩
  · simp [numLast, h]
  · subst hj
    simp [numLast, h, hb]

theorem numberedFinals_set_section_list (doc : Document) (curr : Option Nat) (l0 l : SectionList) :
    numberedFinals (doc.set_section_list curr l0) l = numberedFinals doc l := by
  unfold numberedFinals
  rw [List.filter_congr (fun j _ => isNumIdx_set_section_list doc curr l0 j)]
  exact List.map_congr_left (fun j _ => numLast_set_section_list doc curr l0 j)

theorem numberedCount_set_section_list (doc : Document) (curr : Option Nat) (l0 l : SectionList) :
    numberedCount (doc.set_section_list curr l0) l = numberedCount doc l := by
  unfold numberedCount
  rw [List.filter_congr (fun j _ => isNumIdx_set_section_list doc curr l0 j)]

theorem set_section_list_blocks_length (doc : Document) (curr : Option Nat) (l : SectionList) :
    (doc.set_section_list curr l).blocks.length = doc.blocks.length := by
  cases curr with
  | none => rfl
  | some i =>
    unfold Document.set_section_list
    cases hb : doc.blocks[i]? <;> simp [hb]

/-- Whether the block at index `j` is a synthetic filler. -/
def isFillerAt (doc : Document) (j : Nat) : Bool :=
  match doc.blocks[j]? with
  | some b => b.kind.isFiller
  | none => false

theorem isFillerAt_set_section_list (doc : Document) (curr : Option Nat) (l : SectionList)
    (j : Nat) : isFillerAt (doc.set_section_list curr l) j = isFillerAt doc j := by
  rcases blocks_set_section_list doc curr l j with h | ⟨i, b, hc, hj, hb, h⟩
  · simp [isFillerAt, h]
  · subst hj
    simp [isFillerAt, h, hb]

/-! ## The document invariant -/

/-- Per-list numbering invariant: the numbered children recorded in the list
have consecutive final number components ending at `last_child_number`. -/
def listOk (doc : Document) (l : SectionList) : Prop :=
  numberedCount doc l ≤ l.last_child_number ∧
  numberedFinals doc l =
    (List.range' (l.last_child_number - numberedCount doc l + 1) (numberedCount doc l)).map some

/-- Per-list well-formedness: every recorded index is a heading-like block
whose children list sits exactly one level deeper. -/
def listWF (doc : Document) (l : SectionList) : Prop :=
  ∀ j ∈ l.headings, ∃ b, doc.blocks[j]? = some b ∧ b.kind.hl_is = true ∧
    b.kind.hl_children.level = l.level + 1

/-- The global document invariant maintained by successful `add_block`
calls. -/
def Inv (doc : Document) : Prop :=
  doc.sections.level = 1 ∧ listOk doc doc.sections ∧ listWF doc doc.sections ∧
  ∀ (j : Nat) (b : Block), doc.blocks[j]? = some b → b.kind.hl_is = true →
    listOk doc b.kind.hl_children ∧ listWF doc b.kind.hl_children

/-! Transfer lemmas: observables only depend on `blocks`, and appending a
block does not disturb them at old indices. -/

theorem isNumIdx_append {d d' : Document} {x : Block} (h : d'.blocks = d.blocks ++ [x])
    {j : Nat} (hj : j < d.blocks.length) : isNumIdx d' j = isNumIdx d j := by
  simp [isNumIdx, h, List.getElem?_append_left hj]

theorem numLast_append {d d' : Document} {x : Block} (h : d'.blocks = d.blocks ++ [x])
    {j : Nat} (hj : j < d.blocks.length) : numLast d' j = numLast d j := by
  simp [numLast, h, List.getElem?_append_left hj]

theorem isFillerAt_append {d d' : Document} {x : Block} (h : d'.blocks = d.blocks ++ [x])
    {j : Nat} (hj : j < d.blocks.length) : isFillerAt d' j = isFillerAt d j := by
  simp [isFillerAt, h, List.getElem?_append_left hj]

theorem numberedFinals_append {d d' : Document} {x : Block} (h : d'.blocks = d.blocks ++ [x])
    {l : SectionList} (hb : ∀ j ∈ l.headings, j < d.blocks.length) :
    numberedFinals d' l = numberedFinals d l := by
  unfold numberedFinals
  rw [List.filter_congr (fun j hj => isNumIdx_append h (hb j hj))]
  refine List.map_eq_map_iff.mpr (fun j hj => ?_)
  have hj2 : j ∈ l.headings := List.mem_of_mem_filter hj
  exact numLast_append h (hb j hj2)

theorem numberedCount_append {d d' : Document} {x : Block} (h : d'.blocks = d.blocks ++ [x])
    {l : SectionList} (hb : ∀ j ∈ l.headings, j < d.blocks.length) :
    numberedCount d' l = numberedCount d l := by
  unfold numberedCount
  rw [List.filter_congr (fun j hj => isNumIdx_append h (hb j hj))]

theorem listWF_bounds {doc : Document} {l : SectionList} (h : listWF doc l) :
    ∀ j ∈ l.headings, j < doc.blocks.length := by
  intro j hj
  obtain ⟨b, hb, -, -⟩ := h j hj
  exact (List.getElem?_eq_some.mp hb).1

theorem listOk_append {d d' : Document} {x : Block} (h : d'.blocks = d.blocks ++ [x])
    {l : SectionList} (hWF : listWF d l) (hOk : listOk d l) : listOk d' l := by
  refine ⟨?_, ?_⟩
  · rw [numberedCount_append h (listWF_bounds hWF)]; exact hOk.1
  · rw [numberedCount_append h (listWF_bounds hWF),
      numberedFinals_append h (listWF_bounds hWF)]
    exact hOk.2

theorem listWF_append {d d' : Document} {x : Block} (h : d'.blocks = d.blocks ++ [x])
    {l : SectionList} (hWF : listWF d l) : listWF d' l := by
  intro j hj
  obtain ⟨b, hb, his, hlev⟩ := hWF j hj
  refine ⟨b, ?_, his, hlev⟩
  rw [h, List.getElem?_append_left (listWF_bounds hWF j hj)]
  exact hb

theorem listOk_set_section_list {doc : Document} (curr : Option Nat) (l0 : SectionList)
    {l : SectionList} (hOk : listOk doc l) : listOk (doc.set_section_list curr l0) l := by
  unfold listOk
  rw [numberedCount_set_section_list, numberedFinals_set_section_list]
  exact hOk

/-- `set_section_list` with a same-level list (our uses always push onto the
existing list) preserves `listWF` of every list. -/
theorem listWF_set_section_list {doc : Document} {curr : Option Nat} {l0 : SectionList}
    (hlev : ∀ i, curr = some i → l0.level = (doc.get_section_list (some i)).level)
    {l : SectionList} (hWF : listWF doc l) : listWF (doc.set_section_list curr l0) l := by
  intro j hj
  obtain ⟨b, hb, his, hl⟩ := hWF j hj
  rcases blocks_set_section_list doc curr l0 j with h | ⟨i, b2, hc, hji, hb2, h⟩
  · exact ⟨b, by rw [h]; exact hb, his, hl⟩
  · subst hji
    have hbb : b2 = b := by
      rw [hb] at hb2
      exact (Option.some.inj hb2).symm
    subst hbb
    refine ⟨_, h, by simpa using his, ?_⟩
    rw [hl_children_set_children l0 his]
    have h2 := hlev _ hc
    rw [h2]
    simpa [Document.get_section_list, hb] using hl

/-- Registering a non-numbered child preserves the numbering invariant. -/
theorem listOk_push_false {doc : Document} {l : SectionList} {j : Nat}
    (hOk : listOk doc l) (hnum : isNumIdx doc j = false) : listOk doc (l.push j false) := by
  have hfilter :
      (l.headings ++ [j]).filter (fun j => isNumIdx doc j) =
        l.headings.filter (fun j => isNumIdx doc j) := by
    rw [List.filter_append]
    simp [hnum]
  constructor
  · simpa [numberedCount, SectionList.push, hfilter] using hOk.1
  · simpa [numberedFinals, numberedCount, SectionList.push, hfilter] using hOk.2

/-- Registering a numbered child whose final number component is
`last_child_number + 1` extends the consecutive run by one. -/
theorem listOk_push_true {doc : Document} {l : SectionList} {j : Nat}
    (hOk : listOk doc l) (hnum : isNumIdx doc j = true)
    (hlast : numLast doc j = some (l.last_child_number + 1)) :
    listOk doc (l.push j true) := by
  have hfilter :
      (l.headings ++ [j]).filter (fun j => isNumIdx doc j) =
        l.headings.filter (fun j => isNumIdx doc j) ++ [j] := by
    rw [List.filter_append]
    simp [hnum]
  obtain ⟨hle, hfin⟩ := hOk
  have hcount : numberedCount doc (l.push j true) = numberedCount doc l + 1 := by
    simp [numberedCount, SectionList.push, hfilter]
  have hlcn : (l.push j true).last_child_number = l.last_child_number + 1 := by
    simp [SectionList.push]
  have hfin2 : numberedFinals doc (l.push j true) =
      numberedFinals doc l ++ [some (l.last_child_number + 1)] := by
    simp [numberedFinals, SectionList.push, hfilter, hlast]
  have h1 : l.last_child_number + 1 - (numberedCount doc l + 1) + 1 =
      l.last_child_number - numberedCount doc l + 1 := by omega
  have h2 : l.last_child_number - numberedCount doc l + 1 + numberedCount doc l =
      l.last_child_number + 1 := by omega
  constructor
  · rw [hcount, hlcn]
    omega
  · calc numberedFinals doc (l.push j true)
        = numberedFinals doc l ++ [some (l.last_child_number + 1)] := hfin2
      _ = (List.range' (l.last_child_number - numberedCount doc l + 1)
            (numberedCount doc l)).map some ++ [some (l.last_child_number + 1)] := by rw [hfin]
      _ = (List.range' (l.last_child_number - numberedCount doc l + 1)
            (numberedCount doc l + 1)).map some := by
          rw [List.range'_1_concat, List.map_append, h2]
          simp
      _ = (List.range' ((l.push j true).last_child_number - numberedCount doc (l.push j true) + 1)
            (numberedCount doc (l.push j true))).map some := by
          rw [hcount, hlcn, h1]

/-- Registering a child that is a valid heading one level deeper preserves
`listWF`. -/
theorem listWF_push {doc : Document} {l : SectionList} {j : Nat} {b : Block} (num : Bool)
    (hWF : listWF doc l) (hb : doc.blocks[j]? = some b) (his : b.kind.hl_is = true)
    (hlev : b.kind.hl_children.level = l.level + 1) : listWF doc (l.push j num) := by
  intro j2 hj2
  rw [push_headings, List.mem_append] at hj2
  rcases hj2 with hj2 | hj2
  · simpa using hWF j2 hj2
  · have : j2 = j := by simpa using hj2
    subst this
    exact ⟨b, hb, his, by simpa using hlev⟩

theorem listOk_empty (doc : Document) {l : SectionList} (h : l.headings = []) :
    listOk doc l := by
  simp [listOk, numberedCount, numberedFinals, h]

theorem listWF_empty (doc : Document) {l : SectionList} (h : l.headings = []) :
    listWF doc l := by
  intro j hj
  rw [h] at hj
  cases hj

theorem get_section_list_append {d d' : Document} {x : Block}
    (hb : d'.blocks = d.blocks ++ [x]) (hs : d'.sections = d.sections)
    {curr : Option Nat} (hAt : HLAt d curr) :
    d'.get_section_list curr = d.get_section_list curr := by
  cases curr with
  | none => simpa [Document.get_section_list] using hs
  | some i =>
    obtain ⟨b, hbi, -⟩ := hAt
    have hlt : i < d.blocks.length := (List.getElem?_eq_some.mp hbi).1
    simp [Document.get_section_list, hb, List.getElem?_append_left hlt]

theorem HLAt_append {d d' : Document} {x : Block} (hb : d'.blocks = d.blocks ++ [x])
    {curr : Option Nat} (hAt : HLAt d curr) : HLAt d' curr := by
  cases curr with
  | none => trivial
  | some i =>
    obtain ⟨b, hbi, his⟩ := hAt
    have hlt : i < d.blocks.length := (List.getElem?_eq_some.mp hbi).1
    exact ⟨b, by rw [hb, List.getElem?_append_left hlt]; exact hbi, his⟩

theorem HLAt_set_section_list (d : Document) (curr0 : Option Nat) (l0 : SectionList)
    {curr : Option Nat} (hAt : HLAt d curr) : HLAt (d.set_section_list curr0 l0) curr := by
  cases curr with
  | none => trivial
  | some i =>
    obtain ⟨b, hbi, his⟩ := hAt
    rcases blocks_set_section_list d curr0 l0 i with h | ⟨i2, b2, hc, hji, hb2, h⟩
    · exact ⟨b, by rw [h]; exact hbi, his⟩
    · subst hji
      have hbb : b2 = b := by rw [hbi] at hb2; exact (Option.some.inj hb2).symm
      subst hbb
      exact ⟨_, h, by simpa using his⟩

/-- Full characterization of a single filler insertion, on an invariant
state whose current section list is empty. -/
theorem docPushFiller_spec (doc : Document) (curr : Option Nat)
    (hInv : Inv doc) (hAt : HLAt doc curr)
    (hEmpty : (doc.get_section_list curr).headings = [])
    (d2 : Document) (hd2 : d2 = docPushFiller doc curr doc.blocks.length) :
    Inv d2 ∧
    d2.get_section_list curr = (doc.get_section_list curr).push doc.blocks.length false ∧
    d2.get_section_list (some doc.blocks.length) =
      SectionList.new ((doc.get_section_list curr).level + 1) ∧
    HLAt d2 (some doc.blocks.length) ∧
    d2.blocks.length = doc.blocks.length + 1 ∧
    isFillerAt d2 doc.blocks.length = true ∧
    (∀ j, j < doc.blocks.length → isFillerAt d2 j = isFillerAt doc j) := by
  obtain ⟨hroot, hokS, hwfS, hblocks⟩ := hInv
  set m := (doc.get_section_list curr).level with hm
  set idx := doc.blocks.length with hidx
  set d1 : Document := { doc with blocks := doc.blocks ++ [fillerBlock (m + 1)] } with hd1
  have f1 : d1.blocks = doc.blocks ++ [fillerBlock (m + 1)] := rfl
  have f2 : d1.sections = doc.sections := rfl
  have g1 : d1.get_section_list curr = doc.get_section_list curr :=
    get_section_list_append f1 f2 hAt
  have hAt1 : HLAt d1 curr := HLAt_append f1 hAt
  have hd2' : d2 = d1.set_section_list curr ((d1.get_section_list curr).push idx false) := by
    rw [hd2]
    unfold docPushFiller
    rfl
  set l0 : SectionList := (d1.get_section_list curr).push idx false with hl0
  -- the filler block sits at index `idx` in both d1 and d2
  have hfill1 : d1.blocks[idx]? = some (fillerBlock (m + 1)) := by
    rw [f1, hidx]
    exact List.getElem?_concat_length _ _
  have hcur_lt : ∀ i, curr = some i → i < doc.blocks.length := by
    intro i hi
    subst hi
    obtain ⟨b, hbi, -⟩ := hAt
    exact (List.getElem?_eq_some.mp hbi).1
  have hfill2 : d2.blocks[idx]? = some (fillerBlock (m + 1)) := by
    rw [hd2']
    rcases blocks_set_section_list d1 curr l0 idx with h | ⟨i, b2, hc, hji, hb2, h⟩
    · rw [h]; exact hfill1
    · exfalso
      have := hcur_lt i hc
      omega
  have hchild_fill : (fillerBlock (m + 1)).kind.hl_children = SectionList.new (m + 1) := rfl
  have c2 : d2.get_section_list curr = (doc.get_section_list curr).push idx false := by
    rw [hd2', get_section_list_set_same _ _ _ hAt1, hl0, g1]
  have c3 : d2.get_section_list (some idx) = SectionList.new (m + 1) := by
    simp [Document.get_section_list, hfill2, hchild_fill]
  have c4 : HLAt d2 (some idx) := ⟨fillerBlock (m + 1), hfill2, rfl⟩
  have c5 : d2.blocks.length = doc.blocks.length + 1 := by
    rw [hd2', set_section_list_blocks_length, f1]
    simp
  have c6 : isFillerAt d2 idx = true := by
    simp [isFillerAt, hfill2]
    rfl
  have c7 : ∀ j, j < doc.blocks.length → isFillerAt d2 j = isFillerAt doc j := by
    intro j hj
    rw [hd2', isFillerAt_set_section_list, isFillerAt_append f1 hj]
  -- bounds for every pre-existing list
  have hband : ∀ l : SectionList, listWF doc l → ∀ j ∈ l.headings, j < doc.blocks.length :=
    fun l hl => listWF_bounds hl
  -- the characterization of d2's blocks
  have hblocks2 : ∀ (j : Nat) (b : Block), d2.blocks[j]? = some b →
      (j < doc.blocks.length ∧
        ∃ bOld, doc.blocks[j]? = some bOld ∧
          ((b = bOld) ∨
            (curr = some j ∧ b = { bOld with kind := bOld.kind.hl_set_children l0 }))) ∨
      (j = idx ∧ b = fillerBlock (m + 1)) := by
    intro j b hb
    rw [hd2'] at hb
    rcases blocks_set_section_list d1 curr l0 j with h | ⟨i, b2, hc, hji, hb2, h⟩
    · rw [h] at hb
      by_cases hj : j < doc.blocks.length
      · left
        refine ⟨hj, b, ?_, Or.inl rfl⟩
        rw [f1, List.getElem?_append_left hj] at hb
        exact hb
      · right
        have hj2 : j < d1.blocks.length := (List.getElem?_eq_some.mp hb).1
        have hlen1 : d1.blocks.length = doc.blocks.length + 1 := by rw [f1]; simp
        have hjidx : j = idx := by omega
        subst hjidx
        rw [hfill1] at hb
        exact ⟨rfl, (Option.some.inj hb).symm⟩
    · subst hji
      have hjlt : j < doc.blocks.length := hcur_lt j hc
      left
      have hb2' : doc.blocks[j]? = some b2 := by
        rw [f1, List.getElem?_append_left hjlt] at hb2
        exact hb2
      refine ⟨hjlt, b2, hb2', Or.inr ⟨hc, ?_⟩⟩
      rw [h] at hb
      exact (Option.some.inj hb).symm
  -- transfers of listOk / listWF from doc to d2 for pre-existing lists
  have hOk2 : ∀ l : SectionList, listWF doc l → listOk doc l → listOk d2 l := by
    intro l hwf hok
    rw [hd2']
    exact listOk_set_section_list _ _ (listOk_append f1 hwf hok)
  have hWF2 : ∀ l : SectionList, listWF doc l → listWF d2 l := by
    intro l hwf
    rw [hd2']
    refine listWF_set_section_list ?_ (listWF_append f1 hwf)
    intro i hi
    rw [hl0, push_level, hi]
  -- listOk / listWF for the pushed current list in d2
  have hOkPush : listOk d2 ((doc.get_section_list curr).push idx false) := by
    have hIdxNum : isNumIdx d2 idx = false := by
      simp [isNumIdx, hfill2]
      rfl
    exact listOk_push_false (listOk_empty d2 hEmpty) hIdxNum
  have hWFPush : listWF d2 ((doc.get_section_list curr).push idx false) := by
    refine listWF_push false (listWF_empty d2 hEmpty) hfill2 rfl ?_
    rw [hchild_fill]
    rfl
  -- listOk / listWF for the filler's fresh children list
  have hOkNew : listOk d2 (SectionList.new (m + 1)) := listOk_empty d2 rfl
  have hWFNew : listWF d2 (SectionList.new (m + 1)) := listWF_empty d2 rfl
  refine ⟨⟨?_, ?_, ?_, ?_⟩, c2, c3, c4, c5, c6, c7⟩
  · -- root level
    cases curr with
    | none =>
      have : d2.sections = (doc.get_section_list none).push idx false := c2
      rw [this]
      simpa using hroot
    | some i =>
      rw [hd2', set_section_list_sections_some, f2]
      exact hroot
  · -- listOk of the root list
    cases curr with
    | none =>
      have hs2 : d2.sections = (doc.get_section_list none).push idx false := c2
      rw [hs2]
      exact hOkPush
    | some i =>
      have hs2 : d2.sections = doc.sections := by
        rw [hd2', set_section_list_sections_some, f2]
      rw [hs2]
      exact hOk2 _ hwfS hokS
  · -- listWF of the root list
    cases curr with
    | none =>
      have hs2 : d2.sections = (doc.get_section_list none).push idx false := c2
      rw [hs2]
      exact hWFPush
    | some i =>
      have hs2 : d2.sections = doc.sections := by
        rw [hd2', set_section_list_sections_some, f2]
      rw [hs2]
      exact hWF2 _ hwfS
  · -- every heading-like block's children list
    intro j b hb his
    rcases hblocks2 j b hb with ⟨hj, bOld, hbOld, hcase⟩ | ⟨hj, hbf⟩
    · rcases hcase with hcase | ⟨hc, hcase⟩
      · subst hcase
        obtain ⟨hok, hwf⟩ := hblocks j b hbOld his
        exact ⟨hOk2 _ hwf hok, hWF2 _ hwf⟩
      · subst hcase
        have his' : bOld.kind.hl_is = true := by simpa using his
        have hch : ({ bOld with kind := bOld.kind.hl_set_children l0 } : Block).kind.hl_children
            = l0 := hl_children_set_children l0 his'
        rw [hch, hl0, g1]
        -- the current list is the children of block j, pushed
        exact ⟨hOkPush, hWFPush⟩
    · subst hbf
      rw [hchild_fill]
      exact ⟨hOkNew, hWFNew⟩

theorem set_section_list_frame (doc : Document) (curr : Option Nat) (l : SectionList) :
    (doc.set_section_list curr l).ids = doc.ids ∧
    (doc.set_section_list curr l).replacements = doc.replacements ∧
    (doc.set_section_list curr l).tables = doc.tables ∧
    (doc.set_section_list curr l).glosses = doc.glosses ∧
    (doc.set_section_list curr l).table_number = doc.table_number ∧
    (doc.set_section_list curr l).gloss_number = doc.gloss_number ∧
    (doc.set_section_list curr l).noid_index = doc.noid_index := by
  cases curr with
  | none => exact ⟨rfl, rfl, rfl, rfl, rfl, rfl, rfl⟩
  | some i =>
    unfold Document.set_section_list
    cases hb : doc.blocks[i]? <;> simp [hb]

/-- Frame conditions of the descent loop, with no invariant assumptions:
the heading-like view of the inserted kind is unchanged except for its
number, the non-block document fields are untouched, the index variable
tracks the block count, and every appended block is a filler. -/
theorem descend_frame (fuel : Nat) :
    ∀ (doc : Document) (kind : BlockKind) (idx : Nat) (curr : Option Nat),
    (add_block_descend fuel doc kind idx curr).2.1.hl_level = kind.hl_level ∧
    (add_block_descend fuel doc kind idx curr).2.1.isFiller = kind.isFiller ∧
    (add_block_descend fuel doc kind idx curr).2.1.hl_numbered = kind.hl_numbered ∧
    (add_block_descend fuel doc kind idx curr).2.1.hl_is = kind.hl_is ∧
    (add_block_descend fuel doc kind idx curr).2.1.hl_children = kind.hl_children ∧
    (add_block_descend fuel doc kind idx curr).1.ids = doc.ids ∧
    (add_block_descend fuel doc kind idx curr).1.replacements = doc.replacements ∧
    (add_block_descend fuel doc kind idx curr).1.tables = doc.tables ∧
    (add_block_descend fuel doc kind idx curr).1.glosses = doc.glosses ∧
    (add_block_descend fuel doc kind idx curr).1.table_number = doc.table_number ∧
    (add_block_descend fuel doc kind idx curr).1.gloss_number = doc.gloss_number ∧
    (add_block_descend fuel doc kind idx curr).1.noid_index = doc.noid_index ∧
    doc.blocks.length ≤ (add_block_descend fuel doc kind idx curr).1.blocks.length ∧
    (add_block_descend fuel doc kind idx curr).2.2.1 + doc.blocks.length =
      idx + (add_block_descend fuel doc kind idx curr).1.blocks.length ∧
    (∀ (j : Nat) (b : Block), doc.blocks.length ≤ j →
      (add_block_descend fuel doc kind idx curr).1.blocks[j]? = some b →
      b.kind.isFiller = true) ∧
    (∀ j, j < doc.blocks.length →
      isFillerAt (add_block_descend fuel doc kind idx curr).1 j = isFillerAt doc j) := by
  induction fuel with
  | zero =>
    intro doc kind idx curr
    refine ⟨rfl, rfl, rfl, rfl, rfl, rfl, rfl, rfl, rfl, rfl, rfl, rfl, le_refl _, rfl, ?_, ?_⟩
    · intro j b hlen hb
      exfalso
      have hlt := (List.getElem?_eq_some.mp hb).1
      simp only [add_block_descend] at hlt
      omega
    · intro j hj
      rfl
  | succ fuel ih =>
    intro doc kind idx curr
    rw [add_block_descend]
    by_cases hlt : (doc.get_section_list curr).level < kind.hl_level
    · rw [if_pos hlt]
      by_cases hemp : (doc.get_section_list curr).headings.isEmpty
      · rw [if_pos hemp]
        set doc1 := docPushFiller doc curr idx with hdoc1
        have hframe1 : doc1.ids = doc.ids ∧ doc1.replacements = doc.replacements ∧
            doc1.tables = doc.tables ∧ doc1.glosses = doc.glosses ∧
            doc1.table_number = doc.table_number ∧ doc1.gloss_number = doc.gloss_number ∧
            doc1.noid_index = doc.noid_index := by
          rw [hdoc1]
          unfold docPushFiller
          exact set_section_list_frame _ _ _
        have hlen1 : doc1.blocks.length = doc.blocks.length + 1 := by
          rw [hdoc1]
          unfold docPushFiller
          rw [set_section_list_blocks_length]
          simp
        have hfillAt : isFillerAt doc1 doc.blocks.length = true := by
          rw [hdoc1]
          unfold docPushFiller
          rw [isFillerAt_set_section_list]
          simp [isFillerAt, List.getElem?_concat_length, fillerBlock, BlockKind.isFiller]
        have hstab : ∀ j, j < doc.blocks.length → isFillerAt doc1 j = isFillerAt doc j := by
          intro j hj
          rw [hdoc1]
          unfold docPushFiller
          rw [isFillerAt_set_section_list]
          exact isFillerAt_append rfl hj
        obtain ⟨g1, g0, g2, g3, g4, g5, g6, g7, g8, g9, g10, g11, g12, g13, g14, g15⟩ :=
          ih doc1 (pushIf kind (doc1.get_section_list curr).last_child_number) (idx + 1)
            ((doc1.get_section_list curr).headings.getLast?)
        refine ⟨by rw [g1]; simp, by rw [g0]; unfold pushIf; split <;> cases kind <;> rfl,
          by rw [g2]; simp, by rw [g3]; simp, by rw [g4]; simp,
          by rw [g5, hframe1.1], by rw [g6, hframe1.2.1], by rw [g7, hframe1.2.2.1],
          by rw [g8, hframe1.2.2.2.1], by rw [g9, hframe1.2.2.2.2.1],
          by rw [g10, hframe1.2.2.2.2.2.1], by rw [g11, hframe1.2.2.2.2.2.2],
          by omega, by omega, ?_, ?_⟩
        · intro j b hle hb
          rcases Nat.lt_or_ge j doc1.blocks.length with hcase | hcase
          · have hjeq : j = doc.blocks.length := by omega
            have h2 : isFillerAt
                (add_block_descend fuel doc1
                  (pushIf kind (doc1.get_section_list curr).last_child_number) (idx + 1)
                  ((doc1.get_section_list curr).headings.getLast?)).1 j = true := by
              rw [g15 j hcase, hjeq]
              exact hfillAt
            simpa [isFillerAt, hb] using h2
          · exact g14 j b hcase hb
        · intro j hj
          rw [g15 j (by omega), hstab j hj]
      · rw [if_neg hemp]
        obtain ⟨g1, g0, g2, g3, g4, g5, g6, g7, g8, g9, g10, g11, g12, g13, g14, g15⟩ :=
          ih doc (pushIf kind (doc.get_section_list curr).last_child_number) idx
            ((doc.get_section_list curr).headings.getLast?)
        exact ⟨by rw [g1]; simp, by rw [g0]; unfold pushIf; split <;> cases kind <;> rfl,
          by rw [g2]; simp, by rw [g3]; simp, by rw [g4]; simp,
          g5, g6, g7, g8, g9, g10, g11, g12, by omega, g14, g15⟩
    · rw [if_neg hlt]
      refine ⟨rfl, rfl, rfl, rfl, rfl, rfl, rfl, rfl, rfl, rfl, rfl, rfl, le_refl _, rfl, ?_, ?_⟩
      · intro j b hlen hb
        exfalso
        have hlen2 : j < doc.blocks.length := (List.getElem?_eq_some.mp hb).1
        omega
      · intro j hj
        rfl

theorem Inv_get {doc : Document} (hInv : Inv doc) {curr : Option Nat} (hAt : HLAt doc curr) :
    listOk doc (doc.get_section_list curr) ∧ listWF doc (doc.get_section_list curr) := by
  cases curr with
  | none => exact ⟨hInv.2.1, hInv.2.2.1⟩
  | some i =>
    obtain ⟨b, hb, his⟩ := hAt
    have h := hInv.2.2.2 i b hb his
    have hg : doc.get_section_list (some i) = b.kind.hl_children := by
      simp [Document.get_section_list, hb]
    rw [hg]
    exact h

/-- The descent loop keeps the invariant, lands on a valid heading-like
position, and exits exactly at the heading's level (given enough fuel). -/
theorem descend_inv (fuel : Nat) :
    ∀ (doc : Document) (kind : BlockKind) (idx : Nat) (curr : Option Nat),
    Inv doc → HLAt doc curr → idx = doc.blocks.length →
    kind.hl_level ≤ (doc.get_section_list curr).level + fuel →
    Inv (add_block_descend fuel doc kind idx curr).1 ∧
    HLAt (add_block_descend fuel doc kind idx curr).1
      (add_block_descend fuel doc kind idx curr).2.2.2 ∧
    ((add_block_descend fuel doc kind idx curr).1.get_section_list
      (add_block_descend fuel doc kind idx curr).2.2.2).level =
      max (doc.get_section_list curr).level kind.hl_level := by
  induction fuel with
  | zero =>
    intro doc kind idx curr hInv hAt hidx hfuel
    have hle : kind.hl_level ≤ (doc.get_section_list curr).level := by omega
    exact ⟨hInv, hAt, (Nat.max_eq_left hle).symm⟩
  | succ fuel ih =>
    intro doc kind idx curr hInv hAt hidx hfuel
    rw [add_block_descend]
    by_cases hlt : (doc.get_section_list curr).level < kind.hl_level
    · rw [if_pos hlt]
      by_cases hemp : (doc.get_section_list curr).headings.isEmpty
      · rw [if_pos hemp]
        have hempty : (doc.get_section_list curr).headings = [] := List.isEmpty_iff.mp hemp
        subst hidx
        obtain ⟨hInv1, hc2, hc3, hc4, hlen1, -, -⟩ :=
          docPushFiller_spec doc curr hInv hAt hempty _ rfl
        have hlast : ((docPushFiller doc curr doc.blocks.length).get_section_list
            curr).headings.getLast? = some doc.blocks.length := by
          rw [hc2, push_headings, List.getLast?_concat]
        rw [hlast]
        have hlev2 : ((docPushFiller doc curr doc.blocks.length).get_section_list
            (some doc.blocks.length)).level = (doc.get_section_list curr).level + 1 := by
          rw [hc3]
          rfl
        obtain ⟨r1, r2, r3⟩ := ih (docPushFiller doc curr doc.blocks.length)
          (pushIf kind
            ((docPushFiller doc curr doc.blocks.length).get_section_list curr).last_child_number)
          (doc.blocks.length + 1) (some doc.blocks.length)
          hInv1 hc4 (by omega)
          (by rw [hlev2, hl_level_pushIf]; omega)
        refine ⟨r1, r2, ?_⟩
        rw [r3, hlev2, hl_level_pushIf]
        rw [Nat.max_eq_right (by omega : (doc.get_section_list curr).level + 1 ≤ kind.hl_level),
          Nat.max_eq_right (Nat.le_of_lt hlt)]
      · rw [if_neg hemp]
        have hne : (doc.get_section_list curr).headings ≠ [] := by
          simpa [List.isEmpty_iff] using hemp
        obtain ⟨j, hj⟩ := Option.isSome_iff_exists.mp (List.getLast?_isSome.mpr hne)
        rw [hj]
        have hmem : j ∈ (doc.get_section_list curr).headings := List.mem_of_mem_getLast? hj
        obtain ⟨b, hb, his, hlev⟩ := (Inv_get hInv hAt).2 j hmem
        have hAt2 : HLAt doc (some j) := ⟨b, hb, his⟩
        have hget2 : doc.get_section_list (some j) = b.kind.hl_children := by
          simp [Document.get_section_list, hb]
        obtain ⟨r1, r2, r3⟩ := ih doc
          (pushIf kind (doc.get_section_list curr).last_child_number) idx (some j)
          hInv hAt2 hidx
          (by rw [hget2, hlev, hl_level_pushIf]; omega)
        refine ⟨r1, r2, ?_⟩
        rw [r3, hget2, hlev, hl_level_pushIf]
        rw [Nat.max_eq_right (by omega : (doc.get_section_list curr).level + 1 ≤ kind.hl_level),
          Nat.max_eq_right (Nat.le_of_lt hlt)]
    · rw [if_neg hlt]
      exact ⟨hInv, hAt, (Nat.max_eq_left (Nat.le_of_not_lt hlt)).symm⟩

theorem heading_kind2_pres (doc1 : Document) (curr : Option Nat) (kind1 : BlockKind) :
    (heading_kind2 doc1 curr kind1).hl_is = kind1.hl_is ∧
    (heading_kind2 doc1 curr kind1).isFiller = kind1.isFiller ∧
    (heading_kind2 doc1 curr kind1).hl_numbered = kind1.hl_numbered ∧
    (heading_kind2 doc1 curr kind1).hl_number = kind1.hl_number ∧
    (heading_kind2 doc1 curr kind1).hl_level = kind1.hl_level := by
  unfold heading_kind2
  split
  · split
    · exact ⟨by simp, by simp, by simp, by simp, by cases kind1 <;> rfl⟩
    · exact ⟨rfl, rfl, rfl, rfl, rfl⟩
  · exact ⟨rfl, rfl, rfl, rfl, rfl⟩

theorem heading_kind2_children (doc1 : Document) (curr : Option Nat) (kind1 : BlockKind)
    (his : kind1.hl_is = true) :
    (heading_kind2 doc1 curr kind1).hl_children.headings = kind1.hl_children.headings ∧
    (heading_kind2 doc1 curr kind1).hl_children.level = kind1.hl_children.level := by
  unfold heading_kind2
  split
  · split
    · rw [hl_children_set_children _ his]
      exact ⟨rfl, rfl⟩
    · exact ⟨rfl, rfl⟩
  · exact ⟨rfl, rfl⟩

theorem heading_kind3_true (doc1 : Document) (curr : Option Nat) (kind1 : BlockKind)
    (h : kind1.hl_numbered = true) :
    heading_kind3 doc1 curr kind1 =
      (heading_kind2 doc1 curr kind1).hl_push_number
        ((doc1.get_section_list curr).last_child_number + 1) := by
  unfold heading_kind3
  rw [if_pos]
  rw [(heading_kind2_pres doc1 curr kind1).2.2.1, h]

theorem heading_kind3_false (doc1 : Document) (curr : Option Nat) (kind1 : BlockKind)
    (h : kind1.hl_numbered = false) :
    heading_kind3 doc1 curr kind1 = heading_kind2 doc1 curr kind1 := by
  unfold heading_kind3
  rw [if_neg]
  rw [(heading_kind2_pres doc1 curr kind1).2.2.1, h]
  simp

theorem heading_kind3_pres (doc1 : Document) (curr : Option Nat) (kind1 : BlockKind) :
    (heading_kind3 doc1 curr kind1).hl_is = kind1.hl_is ∧
    (heading_kind3 doc1 curr kind1).isFiller = kind1.isFiller ∧
    (heading_kind3 doc1 curr kind1).hl_numbered = kind1.hl_numbered ∧
    (heading_kind3 doc1 curr kind1).hl_level = kind1.hl_level := by
  obtain ⟨p1, p2, p3, p4, p5⟩ := heading_kind2_pres doc1 curr kind1
  rcases Bool.eq_false_or_eq_true kind1.hl_numbered with h | h
  · rw [heading_kind3_true doc1 curr kind1 h]
    refine ⟨by simpa using p1, ?_, by simpa using p3, by simpa using p5⟩
    have hfi : ∀ (k : BlockKind) (v : Nat), (k.hl_push_number v).isFiller = k.isFiller := by
      intro k v
      cases k <;> rfl
    rw [hfi, p2]
  · rw [heading_kind3_false doc1 curr kind1 h]
    exact ⟨p1, p2, p3, p5⟩

theorem heading_kind3_children (doc1 : Document) (curr : Option Nat) (kind1 : BlockKind)
    (his : kind1.hl_is = true) :
    (heading_kind3 doc1 curr kind1).hl_children.headings = kind1.hl_children.headings ∧
    (heading_kind3 doc1 curr kind1).hl_children.level = kind1.hl_children.level := by
  obtain ⟨c1, c2⟩ := heading_kind2_children doc1 curr kind1 his
  cases h : kind1.hl_numbered with
  | true =>
    rw [heading_kind3_true doc1 curr kind1 h, hl_children_push_number]
    exact ⟨c1, c2⟩
  | false =>
    rw [heading_kind3_false doc1 curr kind1 h]
    exact ⟨c1, c2⟩

theorem heading_kind3_numlast (doc1 : Document) (curr : Option Nat) (kind1 : BlockKind)
    (h : kind1.hl_numbered = true) :
    (heading_kind3 doc1 curr kind1).hl_number.getLast? =
      some ((doc1.get_section_list curr).last_child_number + 1) := by
  rw [heading_kind3_true doc1 curr kind1 h]
  rw [hl_number_push_number _ (by rw [(heading_kind2_pres doc1 curr kind1).2.2.1]; exact h)]
  exact List.getLast?_concat _

/-- Registering a fresh heading-like block in its parent list and appending
it to the block list preserves the invariant (document.rs lines 95–97 and the
final push of line 119). -/
theorem register_inv (doc1 : Document) (curr : Option Nat) (kind3 : BlockKind) (c : BlockCommon)
    (hInv1 : Inv doc1) (hAt1 : HLAt doc1 curr)
    (hk3is : kind3.hl_is = true)
    (hch_emp : kind3.hl_children.headings = [])
    (hch_lev : kind3.hl_children.level = (doc1.get_section_list curr).level + 1)
    (hnum : kind3.hl_numbered = true →
      kind3.hl_number.getLast? = some ((doc1.get_section_list curr).last_child_number + 1))
    (doc2 d3 : Document)
    (hd2 : doc2 = doc1.set_section_list curr
      ((doc1.get_section_list curr).push doc1.blocks.length kind3.hl_numbered))
    (h3b : d3.blocks = doc2.blocks ++ [{ kind := kind3, common := c }])
    (h3s : d3.sections = doc2.sections) :
    Inv d3 := by
  obtain ⟨hOkL1, hWFL1⟩ := Inv_get hInv1 hAt1
  obtain ⟨hroot1, hokS1, hwfS1, hblocks1⟩ := hInv1
  have hlen2 : doc2.blocks.length = doc1.blocks.length := by
    rw [hd2, set_section_list_blocks_length]
  have hblock3 : d3.blocks[doc1.blocks.length]? = some { kind := kind3, common := c } := by
    rw [h3b, ← hlen2]
    exact List.getElem?_concat_length _ _
  have hWF2 : ∀ l : SectionList, listWF doc1 l → listWF doc2 l := by
    intro l h
    rw [hd2]
    refine listWF_set_section_list ?_ h
    intro i hc
    rw [push_level, hc]
  have hWF3 : ∀ l : SectionList, listWF doc1 l → listWF d3 l :=
    fun l h => listWF_append h3b (hWF2 l h)
  have hOk3 : ∀ l : SectionList, listWF doc1 l → listOk doc1 l → listOk d3 l := by
    intro l hw ho
    refine listOk_append h3b (hWF2 l hw) ?_
    rw [hd2]
    exact listOk_set_section_list _ _ ho
  have hOkL13 : listOk d3 (doc1.get_section_list curr) := hOk3 _ hWFL1 hOkL1
  have hWFL13 : listWF d3 (doc1.get_section_list curr) := hWF3 _ hWFL1
  have hNum3 : isNumIdx d3 doc1.blocks.length = kind3.hl_numbered := by
    simp [isNumIdx, hblock3]
  have hLast3 : numLast d3 doc1.blocks.length = kind3.hl_number.getLast? := by
    simp [numLast, hblock3]
  have hOkPush :
      listOk d3 ((doc1.get_section_list curr).push doc1.blocks.length kind3.hl_numbered) := by
    cases hn : kind3.hl_numbered with
    | true => exact listOk_push_true hOkL13 (hNum3.trans hn) (hLast3.trans (hnum hn))
    | false => exact listOk_push_false hOkL13 (hNum3.trans hn)
  have hWFPush :
      listWF d3 ((doc1.get_section_list curr).push doc1.blocks.length kind3.hl_numbered) := by
    refine listWF_push _ hWFL13 hblock3 ?_ ?_
    · exact hk3is
    · exact hch_lev
  have hOkNew : listOk d3 kind3.hl_children := listOk_empty d3 hch_emp
  have hWFNew : listWF d3 kind3.hl_children := listWF_empty d3 hch_emp
  have hblocks3 : ∀ (j : Nat) (b : Block), d3.blocks[j]? = some b →
      (∃ bOld, doc1.blocks[j]? = some bOld ∧
        (b = bOld ∨ (curr = some j ∧ b.kind = bOld.kind.hl_set_children
          ((doc1.get_section_list curr).push doc1.blocks.length kind3.hl_numbered)))) ∨
      (j = doc1.blocks.length ∧ b = { kind := kind3, common := c }) := by
    intro j b hb
    rw [h3b] at hb
    by_cases hj : j < doc2.blocks.length
    · rw [List.getElem?_append_left hj] at hb
      rw [hd2] at hb
      rcases blocks_set_section_list doc1 curr
          ((doc1.get_section_list curr).push doc1.blocks.length kind3.hl_numbered) j with
        h | ⟨i, b2, hc, hji, hb2, h⟩
      · rw [h] at hb
        exact Or.inl ⟨b, hb, Or.inl rfl⟩
      · subst hji
        rw [h] at hb
        exact Or.inl ⟨b2, hb2, Or.inr
          ⟨hc, (congrArg Block.kind (Option.some.inj hb)).symm⟩⟩
    · right
      have hjlen : j < doc2.blocks.length + 1 := by
        have h1 := (List.getElem?_eq_some.mp hb).1
        simpa using h1
      have hje : j = doc1.blocks.length := by omega
      subst hje
      rw [← hlen2, List.getElem?_concat_length] at hb
      exact ⟨rfl, (Option.some.inj hb).symm⟩
  refine ⟨?_, ?_, ?_, ?_⟩
  · cases hcurr : curr with
    | none =>
      have hs3 : d3.sections =
          (doc1.get_section_list none).push doc1.blocks.length kind3.hl_numbered := by
        rw [h3s, hd2, hcurr]
        rfl
      rw [hs3, push_level]
      exact hroot1
    | some i =>
      have hs3 : d3.sections = doc1.sections := by
        rw [h3s, hd2, hcurr, set_section_list_sections_some]
      rw [hs3]
      exact hroot1
  · cases hcurr : curr with
    | none =>
      have hs3 : d3.sections =
          (doc1.get_section_list none).push doc1.blocks.length kind3.hl_numbered := by
        rw [h3s, hd2, hcurr]
        rfl
      rw [hs3]
      rw [hcurr] at hOkPush
      exact hOkPush
    | some i =>
      have hs3 : d3.sections = doc1.sections := by
        rw [h3s, hd2, hcurr, set_section_list_sections_some]
      rw [hs3]
      exact hOk3 _ hwfS1 hokS1
  · cases hcurr : curr with
    | none =>
      have hs3 : d3.sections =
          (doc1.get_section_list none).push doc1.blocks.length kind3.hl_numbered := by
        rw [h3s, hd2, hcurr]
        rfl
      rw [hs3]
      rw [hcurr] at hWFPush
      exact hWFPush
    | some i =>
      have hs3 : d3.sections = doc1.sections := by
        rw [h3s, hd2, hcurr, set_section_list_sections_some]
      rw [hs3]
      exact hWF3 _ hwfS1
  · intro j b hb his
    rcases hblocks3 j b hb with ⟨bOld, hbOld, hcase⟩ | ⟨hj, hbf⟩
    · rcases hcase with rfl | ⟨hc, hcase⟩
      · obtain ⟨hok, hwf⟩ := hblocks1 j b hbOld his
        exact ⟨hOk3 _ hwf hok, hWF3 _ hwf⟩
      · have his' : bOld.kind.hl_is = true := by
          rw [hcase] at his
          simpa using his
        rw [hcase, hl_children_set_children _ his']
        exact ⟨hOkPush, hWFPush⟩
    · subst hbf
      exact ⟨hOkNew, hWFNew⟩

/-- Full characterization of the heading phase of `add_block` on an
invariant document, for a parser-fresh heading-like block. -/
theorem add_block_heading_spec (doc : Document) (kind : BlockKind) (common : BlockCommon)
    (hInv : Inv doc) (his : kind.hl_is = true) (hnf : kind.isFiller = false)
    (hch_emp : kind.hl_children.headings = [])
    (hch_lev : kind.hl_children.level = kind.hl_level + 1)
    (hlev1 : 1 ≤ kind.hl_level)
    (doc2 : Document) (kind3 : BlockKind) (common3 : BlockCommon) (idx1 : Nat)
    (hr : add_block_heading doc kind common doc.blocks.length = (doc2, kind3, common3, idx1)) :
    idx1 = doc2.blocks.length ∧
    kind3.hl_is = true ∧ kind3.isFiller = false ∧
    kind3.hl_level = kind.hl_level ∧ kind3.hl_numbered = kind.hl_numbered ∧
    doc2.ids = doc.ids ∧ doc2.replacements = doc.replacements ∧ doc2.tables = doc.tables ∧
    doc2.glosses = doc.glosses ∧ doc2.table_number = doc.table_number ∧
    doc2.gloss_number = doc.gloss_number ∧ doc2.noid_index = doc.noid_index ∧
    doc.blocks.length ≤ doc2.blocks.length ∧
    (∀ (j : Nat) (b : Block), doc.blocks.length ≤ j → doc2.blocks[j]? = some b →
      b.kind.isFiller = true) ∧
    (∀ j, j < doc.blocks.length → isFillerAt doc2 j = isFillerAt doc j) ∧
    (kind.hl_numbered = false → common3 = common) ∧
    (common.id ≠ "" → common3 = common) ∧
    (kind.hl_numbered = true → common.id = "" →
      common3 = { common with id := "sec-" ++ joinDash kind3.hl_number }) ∧
    (∀ c : BlockCommon, Inv { doc2 with blocks := doc2.blocks ++ [{ kind := kind3, common := c }] }) := by
  obtain ⟨doc1, kind1, ridx, curr, hd⟩ :
      ∃ a b e f, add_block_descend kind.hl_level doc kind doc.blocks.length none = (a, b, e, f) :=
    ⟨_, _, _, _, rfl⟩
  have hF := descend_frame kind.hl_level doc kind doc.blocks.length none
  rw [hd] at hF
  obtain ⟨g1, g0, g2, g3, g4, g5, g6, g7, g8, g9, g10, g11, g12, g13, g14, g15⟩ := hF
  have g1' : kind1.hl_level = kind.hl_level := g1
  have g0' : kind1.isFiller = kind.isFiller := g0
  have g2' : kind1.hl_numbered = kind.hl_numbered := g2
  have g3' : kind1.hl_is = kind.hl_is := g3
  have g4' : kind1.hl_children = kind.hl_children := g4
  have g5' : doc1.ids = doc.ids := g5
  have g6' : doc1.replacements = doc.replacements := g6
  have g7' : doc1.tables = doc.tables := g7
  have g8' : doc1.glosses = doc.glosses := g8
  have g9' : doc1.table_number = doc.table_number := g9
  have g10' : doc1.gloss_number = doc.gloss_number := g10
  have g11' : doc1.noid_index = doc.noid_index := g11
  have g12' : doc.blocks.length ≤ doc1.blocks.length := g12
  have g13' : ridx + doc.blocks.length = doc.blocks.length + doc1.blocks.length := g13
  have g14' : ∀ (j : Nat) (b : Block), doc.blocks.length ≤ j →
      doc1.blocks[j]? = some b → b.kind.isFiller = true := g14
  have g15' : ∀ j, j < doc.blocks.length → isFillerAt doc1 j = isFillerAt doc j := g15
  have hAt0 : HLAt doc none := True.intro
  have hI := descend_inv kind.hl_level doc kind doc.blocks.length none hInv hAt0 rfl
    (Nat.le_add_left _ _)
  rw [hd] at hI
  obtain ⟨i1, i2, i3⟩ := hI
  have hInv1 : Inv doc1 := i1
  have hAt1 : HLAt doc1 curr := i2
  have hlevmax : (doc1.get_section_list curr).level =
      max (doc.get_section_list none).level kind.hl_level := i3
  have hl1lev : (doc1.get_section_list curr).level = kind.hl_level := by
    rw [hlevmax]
    have hroot0 : (doc.get_section_list none).level = 1 := hInv.1
    rw [hroot0]
    omega
  have his1 : kind1.hl_is = true := g3'.trans his
  have hk3is : (heading_kind3 doc1 curr kind1).hl_is = true :=
    (heading_kind3_pres doc1 curr kind1).1.trans his1
  have hk3filler : (heading_kind3 doc1 curr kind1).isFiller = false :=
    (heading_kind3_pres doc1 curr kind1).2.1.trans (g0'.trans hnf)
  have hk3num' : (heading_kind3 doc1 curr kind1).hl_numbered = kind.hl_numbered :=
    (heading_kind3_pres doc1 curr kind1).2.2.1.trans g2'
  have hk3lev' : (heading_kind3 doc1 curr kind1).hl_level = kind.hl_level :=
    (heading_kind3_pres doc1 curr kind1).2.2.2.trans g1'
  have hk3emp : (heading_kind3 doc1 curr kind1).hl_children.headings = [] := by
    rw [(heading_kind3_children doc1 curr kind1 his1).1, g4', hch_emp]
  have hk3chlev : (heading_kind3 doc1 curr kind1).hl_children.level =
      (doc1.get_section_list curr).level + 1 := by
    rw [(heading_kind3_children doc1 curr kind1 his1).2, g4', hch_lev, hl1lev]
  have hk3last : (heading_kind3 doc1 curr kind1).hl_numbered = true →
      (heading_kind3 doc1 curr kind1).hl_number.getLast? =
        some ((doc1.get_section_list curr).last_child_number + 1) :=
    fun hn => heading_kind3_numlast doc1 curr kind1
      ((heading_kind3_pres doc1 curr kind1).2.2.1.symm.trans hn)
  have hridx' : ridx = doc1.blocks.length := by omega
  unfold add_block_heading at hr
  rw [hd] at hr
  simp only [heading_register, Prod.mk.injEq] at hr
  obtain ⟨hd2e, hk3e, hc3e, hie⟩ := hr
  subst hd2e
  subst hk3e
  subst hc3e
  subst hie
  refine ⟨?_, hk3is, hk3filler, hk3lev', hk3num', ?_, ?_, ?_, ?_, ?_, ?_, ?_, ?_, ?_, ?_, ?_,
    ?_, ?_, ?_⟩
  · rw [set_section_list_blocks_length]
    exact hridx'
  · exact (set_section_list_frame doc1 curr _).1.trans g5'
  · exact (set_section_list_frame doc1 curr _).2.1.trans g6'
  · exact (set_section_list_frame doc1 curr _).2.2.1.trans g7'
  · exact (set_section_list_frame doc1 curr _).2.2.2.1.trans g8'
  · exact (set_section_list_frame doc1 curr _).2.2.2.2.1.trans g9'
  · exact (set_section_list_frame doc1 curr _).2.2.2.2.2.1.trans g10'
  · exact (set_section_list_frame doc1 curr _).2.2.2.2.2.2.trans g11'
  · rw [set_section_list_blocks_length]
    exact g12'
  · intro j b hle hb
    rcases blocks_set_section_list doc1 curr
        ((doc1.get_section_list curr).push ridx (heading_kind3 doc1 curr kind1).hl_numbered)
        j with h | ⟨i, b2, hc, hji, hb2, h⟩
    · rw [h] at hb
      exact g14' j b hle hb
    · subst hji
      rw [h] at hb
      obtain rfl := (Option.some.inj hb).symm
      simpa using g14' j b2 hle hb2
  · intro j hj
    rw [isFillerAt_set_section_list]
    exact g15' j hj
  · intro hn
    have hC : (heading_kind2 doc1 curr kind1).hl_numbered = false :=
      ((heading_kind2_pres doc1 curr kind1).2.2.1.trans g2').trans hn
    simp [heading_common3, hC]
  · intro hid
    simp [heading_common3, hid]
  · intro hn hid
    have hC : (heading_kind2 doc1 curr kind1).hl_numbered = true :=
      ((heading_kind2_pres doc1 curr kind1).2.2.1.trans g2').trans hn
    simp [heading_common3, hC, hid]
  · intro c
    rw [hridx']
    exact register_inv doc1 curr (heading_kind3 doc1 curr kind1) c hInv1 hAt1 hk3is hk3emp
      hk3chlev hk3last _ _ rfl rfl rfl

/-! ## Invariant preservation across a whole `add_block` call -/

theorem isNumIdx_congr {d d' : Document} (hb : d'.blocks = d.blocks) (j : Nat) :
    isNumIdx d' j = isNumIdx d j := by
  simp [isNumIdx, hb]

theorem numLast_congr {d d' : Document} (hb : d'.blocks = d.blocks) (j : Nat) :
    numLast d' j = numLast d j := by
  simp [numLast, hb]

theorem numberedFinals_congr {d d' : Document} (hb : d'.blocks = d.blocks) (l : SectionList) :
    numberedFinals d' l = numberedFinals d l := by
  unfold numberedFinals
  rw [List.filter_congr (fun j _ => isNumIdx_congr hb j)]
  exact List.map_congr_left (fun j _ => numLast_congr hb j)

theorem numberedCount_congr {d d' : Document} (hb : d'.blocks = d.blocks) (l : SectionList) :
    numberedCount d' l = numberedCount d l := by
  unfold numberedCount
  rw [List.filter_congr (fun j _ => isNumIdx_congr hb j)]

theorem listOk_congr {d d' : Document} (hb : d'.blocks = d.blocks) {l : SectionList}
    (h : listOk d l) : listOk d' l := by
  unfold listOk
  rw [numberedCount_congr hb, numberedFinals_congr hb]
  exact h

theorem listWF_congr {d d' : Document} (hb : d'.blocks = d.blocks) {l : SectionList}
    (h : listWF d l) : listWF d' l := by
  intro j hj
  obtain ⟨bb, h1, h2, h3⟩ := h j hj
  exact ⟨bb, by rw [hb]; exact h1, h2, h3⟩

/-- The invariant only reads the `blocks` and `sections` fields. -/
theorem Inv_congr {d d' : Document} (hb : d'.blocks = d.blocks)
    (hs : d'.sections = d.sections) (h : Inv d) : Inv d' := by
  obtain ⟨hroot, hok, hwf, hbl⟩ := h
  refine ⟨by rw [hs]; exact hroot, by rw [hs]; exact listOk_congr hb hok,
    by rw [hs]; exact listWF_congr hb hwf, ?_⟩
  intro j b2 hb2 his2
  rw [hb] at hb2
  obtain ⟨o, w⟩ := hbl j b2 hb2 his2
  exact ⟨listOk_congr hb o, listWF_congr hb w⟩

/-- Appending a non-heading block preserves the invariant. -/
theorem Inv_append_nonheading {d T : Document} {x : Block}
    (hb : T.blocks = d.blocks ++ [x]) (hs : T.sections = d.sections)
    (hx : x.kind.hl_is = false) (hInv : Inv d) : Inv T := by
  obtain ⟨hroot, hok, hwf, hbl⟩ := hInv
  refine ⟨by rw [hs]; exact hroot, by rw [hs]; exact listOk_append hb hwf hok,
    by rw [hs]; exact listWF_append hb hwf, ?_⟩
  intro j b2 hb2 his2
  rw [hb] at hb2
  by_cases hj : j < d.blocks.length
  · rw [List.getElem?_append_left hj] at hb2
    obtain ⟨o, w⟩ := hbl j b2 hb2 his2
    exact ⟨listOk_append hb w o, listWF_append hb w⟩
  · have hlt : j < d.blocks.length + 1 := by
      have h1 := (List.getElem?_eq_some.mp hb2).1
      simpa using h1
    have hje : j = d.blocks.length := by omega
    subst hje
    rw [List.getElem?_concat_length] at hb2
    obtain rfl := (Option.some.inj hb2).symm
    rw [hx] at his2
    exact Bool.noConfusion his2

theorem FreshBlock_heading {b : Block} (hf : FreshBlock b = true)
    (his : b.kind.hl_is = true) :
    b.kind.isFiller = false ∧ b.kind.hl_children.headings = [] ∧
    b.kind.hl_children.level = b.kind.hl_level + 1 ∧ 1 ≤ b.kind.hl_level := by
  obtain ⟨bk, bc⟩ := b
  cases bk <;>
    simp_all [FreshBlock, BlockKind.hl_is, BlockKind.isFiller, BlockKind.hl_children,
      BlockKind.hl_level, List.isEmpty_iff]

theorem phase_repl_spec (p : Document × Block) :
    (phase_repl p).1.blocks = p.1.blocks ∧
    (phase_repl p).1.sections = p.1.sections ∧
    (phase_repl p).2.kind.hl_is = p.2.kind.hl_is ∧
    (p.2.kind.hl_is = true → (phase_repl p).2.kind = p.2.kind) := by
  obtain ⟨doc, block⟩ := p
  obtain ⟨bk, bc⟩ := block
  cases bk <;> simp [phase_repl, BlockKind.hl_is]

theorem phase_table_spec (idx : Nat) (p : Document × Block) :
    (phase_table idx p).1.blocks = p.1.blocks ∧
    (phase_table idx p).1.sections = p.1.sections ∧
    (phase_table idx p).2.kind.hl_is = p.2.kind.hl_is ∧
    (p.2.kind.hl_is = true → (phase_table idx p).2.kind = p.2.kind) := by
  obtain ⟨doc, block⟩ := p
  obtain ⟨bk, bc⟩ := block
  cases bk
  case table t => by_cases hn : t.numbered <;> simp [phase_table, BlockKind.hl_is, hn]
  all_goals simp [phase_table, BlockKind.hl_is]

theorem phase_gloss_spec (idx : Nat) (p : Document × Block) :
    (phase_gloss idx p).1.blocks = p.1.blocks ∧
    (phase_gloss idx p).1.sections = p.1.sections ∧
    (phase_gloss idx p).2.kind.hl_is = p.2.kind.hl_is ∧
    (p.2.kind.hl_is = true → (phase_gloss idx p).2.kind = p.2.kind) := by
  obtain ⟨doc, block⟩ := p
  obtain ⟨bk, bc⟩ := block
  cases bk
  case gloss g => by_cases hn : g.numbered <;> simp [phase_gloss, BlockKind.hl_is, hn]
  all_goals simp [phase_gloss, BlockKind.hl_is]

theorem phase_noid_spec (p : Document × Block) :
    (phase_noid p).1.blocks = p.1.blocks ∧
    (phase_noid p).1.sections = p.1.sections ∧
    (phase_noid p).2.kind = p.2.kind := by
  obtain ⟨doc, block⟩ := p
  by_cases hid : block.common.id = "" <;> simp [phase_noid, hid]

/-- The post-heading phases of `add_block` (replacements, table, gloss,
`__no-id`) never touch the block list or the section tree, and never change a
heading's kind. -/
theorem phases_spec (idx : Nat) (doc1 : Document) (block1 : Block) :
    (phase_noid (phase_gloss idx (phase_table idx (phase_repl (doc1, block1))))).1.blocks
      = doc1.blocks ∧
    (phase_noid (phase_gloss idx (phase_table idx (phase_repl (doc1, block1))))).1.sections
      = doc1.sections ∧
    (phase_noid (phase_gloss idx (phase_table idx (phase_repl (doc1, block1))))).2.kind.hl_is
      = block1.kind.hl_is ∧
    (block1.kind.hl_is = true →
      (phase_noid (phase_gloss idx (phase_table idx (phase_repl (doc1, block1))))).2.kind
        = block1.kind) := by
  obtain ⟨r1b, r1s, r1i, r1k⟩ := phase_repl_spec (doc1, block1)
  obtain ⟨r2b, r2s, r2i, r2k⟩ := phase_table_spec idx (phase_repl (doc1, block1))
  obtain ⟨r3b, r3s, r3i, r3k⟩ :=
    phase_gloss_spec idx (phase_table idx (phase_repl (doc1, block1)))
  obtain ⟨r4b, r4s, r4k⟩ :=
    phase_noid_spec (phase_gloss idx (phase_table idx (phase_repl (doc1, block1))))
  refine ⟨?_, ?_, ?_, ?_⟩
  · exact r4b.trans (r3b.trans (r2b.trans r1b))
  · exact r4s.trans (r3s.trans (r2s.trans r1s))
  · exact (congrArg BlockKind.hl_is r4k).trans (r3i.trans (r2i.trans r1i))
  · intro h
    rw [r4k, r3k (by rw [r2i, r1i]; exact h), r2k (by rw [r1i]; exact h), r1k h]

/-- A successful `add_block` call on a parser-produced block preserves the
document invariant. -/
theorem add_block_Inv (d : Document) (b : Block) (hInv : Inv d) (hf : FreshBlock b = true)
    (hok : (d.add_block b).2 = none) : Inv (d.add_block b).1 := by
  obtain ⟨doc5, block5, idx, hp⟩ : ∃ x y z, add_block_prepare d b = (x, y, z) :=
    ⟨_, _, _, rfl⟩
  unfold Document.add_block at hok ⊢
  rw [hp] at hok ⊢
  dsimp only at hok ⊢
  cases hfind : doc5.ids.find? (fun q => q.1 = block5.common.id) with
  | some e =>
    rw [hfind] at hok
    simp at hok
  | none =>
    show Inv
      { doc5 with
          ids := doc5.ids ++ [(block5.common.id, idx)]
          blocks := doc5.blocks ++ [block5] }
    unfold add_block_prepare at hp
    by_cases his : b.kind.hl_is = true
    · obtain ⟨doc2, kind3, common3, idxr, hr⟩ :
          ∃ p q r s, add_block_heading d b.kind b.common d.blocks.length = (p, q, r, s) :=
        ⟨_, _, _, _, rfl⟩
      obtain ⟨hnf, hche, hchl, hl1⟩ := FreshBlock_heading hf his
      obtain ⟨hs1, hs2i, hs2f, hs3l, hs3n, hsids, hsrep, hstab, hsglo, hstn, hsgn, hsni,
        hslen, hsnew, hsfill, hc16, hc17, hc18, hIc⟩ :=
        add_block_heading_spec d b.kind b.common hInv his hnf hche hchl hl1
          doc2 kind3 common3 idxr hr
      have hpe : prepare_heading d b =
          ((doc2 : Document), ({ kind := kind3, common := common3 } : Block), idxr) := by
        unfold prepare_heading
        rw [if_pos his, hr]
      rw [hpe] at hp
      have h5d : (phase_noid (phase_gloss idxr (phase_table idxr
          (phase_repl (doc2, ({ kind := kind3, common := common3 } : Block)))))).1 = doc5 :=
        congrArg (fun t => t.1) hp
      have h5b : (phase_noid (phase_gloss idxr (phase_table idxr
          (phase_repl (doc2, ({ kind := kind3, common := common3 } : Block)))))).2 = block5 :=
        congrArg (fun t => t.2.1) hp
      obtain ⟨psb, pss, psi, psk⟩ :=
        phases_spec idxr doc2 ({ kind := kind3, common := common3 } : Block)
      rw [h5d] at psb pss
      rw [h5b] at psk
      have hk5 : block5.kind = kind3 := psk hs2i
      have hb5 : block5 = { kind := kind3, common := block5.common } := by
        rw [← hk5]
      refine Inv_congr ?_ ?_ (hIc block5.common)
      · show doc5.blocks ++ [block5]
          = doc2.blocks ++ [{ kind := kind3, common := block5.common }]
        rw [psb]
        exact congrArg (fun y => doc2.blocks ++ [y]) hb5
      · show doc5.sections = doc2.sections
        exact pss
    · have hpe : prepare_heading d b = (d, b, d.blocks.length) := by
        unfold prepare_heading
        rw [if_neg his]
      rw [hpe] at hp
      have h5d : (phase_noid (phase_gloss d.blocks.length (phase_table d.blocks.length
          (phase_repl (d, b))))).1 = doc5 := congrArg (fun t => t.1) hp
      have h5b : (phase_noid (phase_gloss d.blocks.length (phase_table d.blocks.length
          (phase_repl (d, b))))).2 = block5 := congrArg (fun t => t.2.1) hp
      obtain ⟨psb, pss, psi, psk⟩ := phases_spec d.blocks.length d b
      rw [h5d] at psb pss
      rw [h5b] at psi
      have hisf : b.kind.hl_is = false := by simpa using his
      have hk5f : block5.kind.hl_is = false := psi.trans hisf
      refine Inv_append_nonheading ?_ ?_ hk5f hInv
      · show doc5.blocks ++ [block5] = d.blocks ++ [block5]
        rw [psb]
      · show doc5.sections = d.sections
        exact pss

theorem Inv_defaultVal : Inv Document.defaultVal := by
  refine ⟨rfl, listOk_empty _ rfl, listWF_empty _ rfl, ?_⟩
  intro j b hb his
  simp [Document.defaultVal] at hb

/-- Every reachable document satisfies the invariant. -/
theorem Reachable_Inv {d : Document} (h : Reachable d) : Inv d := by
  induction h with
  | init => exact Inv_defaultVal
  | step hr hf hok ih => exact add_block_Inv _ _ ih hf hok

/-! ## C1: sibling numbering -/

set_option maxRecDepth 40000 in
theorem c1Doc_reachable : Reachable c1Doc := by
  have h0 : Reachable Document.defaultVal := Reachable.init
  have h1 := @Reachable.step _ (freshHeading 1) h0 (by decide) (by decide)
  have h2 := @Reachable.step _ (freshHeading 2) h1 (by decide) (by decide)
  have h3 := @Reachable.step _ (freshHeading 1 false) h2 (by decide) (by decide)
  have h4 := @Reachable.step _ (freshHeading 2) h3 (by decide) (by decide)
  exact h4

set_option maxRecDepth 40000 in
/-- C1 is false as stated: in the reachable document built from `# A`,
`## A.1`, `#[nonumber] B`, `## B.1`, the section list of the unnumbered
heading `B` records exactly one numbered heading, and its final number
component is 2, not 1 — the sequence of final components is not
`1, 2, 3, …`. -/
theorem C1_counterexample :
    Reachable c1Doc ∧
    numberedFinals c1Doc c1List = [some 2] ∧
    numberedFinals c1Doc c1List ≠
      (List.range' 1 (numberedCount c1Doc c1List)).map some :=
  ⟨c1Doc_reachable, by decide, by decide⟩

/-- C1 (amended): in every document reachable by successful `add_block`
calls on parser-produced blocks, every section list in the tree (the root or
the children list of any heading-like block) records numbered headings whose
final number components form a consecutive run `lcn - n + 1, …, lcn` ending
at the list's `last_child_number`; the run increases by exactly 1 but need
not start at 1, because an unnumbered heading inherits its elder sibling's
child counter. -/
theorem C1_numbering (d : Document) (hd : Reachable d) (curr : Option Nat)
    (hAt : HLAt d curr) :
    numberedFinals d (d.get_section_list curr) =
      (List.range' ((d.get_section_list curr).last_child_number
          - numberedCount d (d.get_section_list curr) + 1)
        (numberedCount d (d.get_section_list curr))).map some :=
  ((Inv_get (Reachable_Inv hd) hAt).1).2

set_option maxRecDepth 40000 in
theorem C1_numbering_witness :
    numberedFinals c1Doc (c1Doc.get_section_list (some 2)) =
      (List.range' ((c1Doc.get_section_list (some 2)).last_child_number
          - numberedCount c1Doc (c1Doc.get_section_list (some 2)) + 1)
        (numberedCount c1Doc (c1Doc.get_section_list (some 2)))).map some :=
  C1_numbering c1Doc c1Doc_reachable (some 2) ⟨_, rfl, rfl⟩

/-! ## C2: filler insertion -/

theorem chain_empty_level_of_empty (fuel : Nat) (doc : Document) (curr : Option Nat)
    (stop : Nat) (h : (doc.get_section_list curr).headings = []) :
    chain_empty_level fuel doc curr stop = (doc.get_section_list curr).level := by
  cases fuel with
  | zero => rfl
  | succ fuel =>
    rw [chain_empty_level]
    simp [h]

/-- The descent loop inserts one filler per level between the first empty
list on the chain and the target level: counting version of the loop of
document.rs lines 62–78. -/
theorem descend_count (fuel : Nat) :
    ∀ (doc : Document) (kind : BlockKind) (idx : Nat) (curr : Option Nat),
    Inv doc → HLAt doc curr →
    (doc.get_section_list curr).level ≤ kind.hl_level →
    idx = doc.blocks.length →
    (add_block_descend fuel doc kind idx curr).1.blocks.length
        + chain_empty_level fuel doc curr kind.hl_level
      = doc.blocks.length + min kind.hl_level ((doc.get_section_list curr).level + fuel) := by
  induction fuel with
  | zero =>
    intro doc kind idx curr hInv hAt hsL hidx
    rw [add_block_descend, chain_empty_level]
    dsimp only
    omega
  | succ fuel ih =>
    intro doc kind idx curr hInv hAt hsL hidx
    rw [add_block_descend, chain_empty_level]
    by_cases hlt : (doc.get_section_list curr).level < kind.hl_level
    · rw [if_pos hlt, if_pos hlt]
      by_cases hemp : (doc.get_section_list curr).headings.isEmpty
      · rw [if_pos hemp, if_pos hemp]
        have hempty : (doc.get_section_list curr).headings = [] := List.isEmpty_iff.mp hemp
        subst hidx
        obtain ⟨hInv1, hc2, hc3, hc4, hlen1, -, -⟩ :=
          docPushFiller_spec doc curr hInv hAt hempty _ rfl
        have hlast : ((docPushFiller doc curr doc.blocks.length).get_section_list
            curr).headings.getLast? = some doc.blocks.length := by
          rw [hc2, push_headings, List.getLast?_concat]
        rw [hlast]
        have hlev2 : ((docPushFiller doc curr doc.blocks.length).get_section_list
            (some doc.blocks.length)).level = (doc.get_section_list curr).level + 1 := by
          rw [hc3]
          rfl
        have hemptyNew : ((docPushFiller doc curr doc.blocks.length).get_section_list
            (some doc.blocks.length)).headings = [] := by
          rw [hc3]
          rfl
        have hrec := ih (docPushFiller doc curr doc.blocks.length)
          (pushIf kind
            ((docPushFiller doc curr doc.blocks.length).get_section_list curr).last_child_number)
          (doc.blocks.length + 1) (some doc.blocks.length)
          hInv1 hc4 (by rw [hlev2, hl_level_pushIf]; omega) (by omega)
        rw [hl_level_pushIf] at hrec
        rw [chain_empty_level_of_empty fuel _ _ _ hemptyNew, hlev2, hlen1] at hrec
        omega
      · rw [if_neg hemp, if_neg hemp]
        have hne : (doc.get_section_list curr).headings ≠ [] := by
          simpa [List.isEmpty_iff] using hemp
        obtain ⟨j, hj⟩ := Option.isSome_iff_exists.mp (List.getLast?_isSome.mpr hne)
        rw [hj]
        have hmem : j ∈ (doc.get_section_list curr).headings := List.mem_of_mem_getLast? hj
        obtain ⟨bj, hbj, hisj, hlevj⟩ := (Inv_get hInv hAt).2 j hmem
        have hAt2 : HLAt doc (some j) := ⟨bj, hbj, hisj⟩
        have hget2 : doc.get_section_list (some j) = bj.kind.hl_children := by
          simp [Document.get_section_list, hbj]
        have hrec := ih doc
          (pushIf kind (doc.get_section_list curr).last_child_number) idx (some j)
          hInv hAt2 (by rw [hget2, hlevj, hl_level_pushIf]; omega) hidx
        rw [hl_level_pushIf] at hrec
        rw [hget2, hlevj] at hrec
        omega
    · rw [if_neg hlt, if_neg hlt]
      dsimp only
      omega

/-- C2: adding a fresh heading of level `L` when the chain of section lists
from the root first meets an empty list at level `k` pushes exactly `L - k`
`FillerHeading` blocks immediately before the heading, the heading's index is
the pre-insertion block count plus `L - k`, and (on success) the heading sits
right after the fillers and every section list's level in the tree is exactly
one greater than its parent's. -/
theorem C2_filler_insertion (d : Document) (hd : Reachable d) (b : Block)
    (his : b.kind.hl_is = true) (hf : FreshBlock b = true)
    (doc5 : Document) (block5 : Block) (idx : Nat)
    (hp : add_block_prepare d b = (doc5, block5, idx)) (k : Nat)
    (hk : chain_empty_level b.kind.hl_level d none b.kind.hl_level = k) :
    k ≤ b.kind.hl_level ∧
    doc5.blocks.length = d.blocks.length + (b.kind.hl_level - k) ∧
    idx = d.blocks.length + (b.kind.hl_level - k) ∧
    (∀ j, d.blocks.length ≤ j → j < doc5.blocks.length → isFillerAt doc5 j = true) ∧
    ((d.add_block b).2 = none →
      (d.add_block b).1.blocks.length = d.blocks.length + (b.kind.hl_level - k) + 1 ∧
      (∃ bH, (d.add_block b).1.blocks[idx]? = some bH ∧ bH.kind.hl_is = true ∧
        bH.kind.isFiller = false ∧ bH.kind.hl_level = b.kind.hl_level) ∧
      (∀ curr : Option Nat, HLAt (d.add_block b).1 curr →
        listWF (d.add_block b).1 ((d.add_block b).1.get_section_list curr))) := by
  have hInv : Inv d := Reachable_Inv hd
  obtain ⟨hnf, hche, hchl, hl1⟩ := FreshBlock_heading hf his
  obtain ⟨doc1, kind1, ridx, curr, hdd⟩ :
      ∃ a a2 e f2, add_block_descend b.kind.hl_level d b.kind d.blocks.length none
        = (a, a2, e, f2) := ⟨_, _, _, _, rfl⟩
  -- the filler count from the descent
  have hroot0 : (d.get_section_list none).level = 1 := hInv.1
  have hcount := descend_count b.kind.hl_level d b.kind d.blocks.length none hInv True.intro
    (by rw [hroot0]; exact hl1) rfl
  rw [hdd, hk, hroot0] at hcount
  have hcount' : doc1.blocks.length + k = d.blocks.length + min b.kind.hl_level
      (1 + b.kind.hl_level) := hcount
  have hF := descend_frame b.kind.hl_level d b.kind d.blocks.length none
  rw [hdd] at hF
  have g12' : d.blocks.length ≤ doc1.blocks.length := hF.2.2.2.2.2.2.2.2.2.2.2.2.1
  have hkleL : k ≤ b.kind.hl_level := by omega
  have hd1len : doc1.blocks.length = d.blocks.length + (b.kind.hl_level - k) := by omega
  -- the register and phase steps
  obtain ⟨doc2, kind3, common3, idxr, hr⟩ :
      ∃ p q r2 s, add_block_heading d b.kind b.common d.blocks.length = (p, q, r2, s) :=
    ⟨_, _, _, _, rfl⟩
  obtain ⟨hs1, hs2i, hs2f, hs3l, hs3n, hsids, hsrep, hstab, hsglo, hstn, hsgn, hsni,
    hslen, hsnew, hsfill, hc16, hc17, hc18, hIc⟩ :=
    add_block_heading_spec d b.kind b.common hInv his hnf hche hchl hl1
      doc2 kind3 common3 idxr hr
  have hd2len : doc2.blocks.length = doc1.blocks.length := by
    have hr' : heading_register (doc1, kind1, ridx, curr) b.common
        = (doc2, kind3, common3, idxr) := by
      rw [← hdd]
      exact hr
    have h2 : doc1.set_section_list curr
        ((doc1.get_section_list curr).push ridx (heading_kind3 doc1 curr kind1).hl_numbered)
        = doc2 := congrArg (fun t => t.1) hr'
    rw [← h2, set_section_list_blocks_length]
  have hidxr : idxr = doc2.blocks.length := hs1
  -- the phases
  unfold add_block_prepare at hp
  have hpe : prepare_heading d b =
      ((doc2 : Document), ({ kind := kind3, common := common3 } : Block), idxr) := by
    unfold prepare_heading
    rw [if_pos his, hr]
  rw [hpe] at hp
  have h5d : (phase_noid (phase_gloss idxr (phase_table idxr
      (phase_repl (doc2, ({ kind := kind3, common := common3 } : Block)))))).1 = doc5 :=
    congrArg (fun t => t.1) hp
  have h5b : (phase_noid (phase_gloss idxr (phase_table idxr
      (phase_repl (doc2, ({ kind := kind3, common := common3 } : Block)))))).2 = block5 :=
    congrArg (fun t => t.2.1) hp
  have h5i : idxr = idx := congrArg (fun t => t.2.2) hp
  obtain ⟨psb, pss, psi, psk⟩ :=
    phases_spec idxr doc2 ({ kind := kind3, common := common3 } : Block)
  rw [h5d] at psb pss
  rw [h5b] at psk
  have hk5 : block5.kind = kind3 := psk hs2i
  have hd5len : doc5.blocks.length = doc2.blocks.length := by rw [psb]
  refine ⟨hkleL, by omega, by omega, ?_, ?_⟩
  · intro j hj1 hj2
    have hfill : isFillerAt doc5 j = isFillerAt doc2 j := by
      simp [isFillerAt, psb]
    rw [hfill]
    have hj2' : j < doc2.blocks.length := by omega
    cases hbb : doc2.blocks[j]? with
    | none =>
      exfalso
      rw [List.getElem?_eq_none_iff] at hbb
      omega
    | some bb =>
      have := hsnew j bb hj1 hbb
      simp [isFillerAt, hbb, this]
  · intro hok
    have hshape : (d.add_block b).1 =
        { doc5 with
            ids := doc5.ids ++ [(block5.common.id, idx)]
            blocks := doc5.blocks ++ [block5] } := by
      unfold Document.add_block at hok ⊢
      have hp' : add_block_prepare d b = (doc5, block5, idx) := by
        unfold add_block_prepare
        rw [hpe]
        exact hp
      rw [hp'] at hok ⊢
      dsimp only at hok ⊢
      cases hfind : doc5.ids.find? (fun q => q.1 = block5.common.id) with
      | some e =>
        exfalso
        rw [hfind] at hok
        simp at hok
      | none => rfl
    have hidx5 : idx = doc5.blocks.length := by omega
    refine ⟨?_, ?_, ?_⟩
    · rw [hshape]
      show (doc5.blocks ++ [block5]).length = d.blocks.length + (b.kind.hl_level - k) + 1
      rw [List.length_append]
      simp
      omega
    · refine ⟨block5, ?_, ?_, ?_, ?_⟩
      · rw [hshape]
        show (doc5.blocks ++ [block5])[idx]? = some block5
        rw [hidx5]
        exact List.getElem?_concat_length _ _
      · rw [hk5]
        exact hs2i
      · rw [hk5]
        exact hs2f
      · rw [hk5]
        exact hs3l
    · intro curr2 hAt2
      exact (Inv_get (add_block_Inv d b hInv hf hok) hAt2).2

theorem C2_witness :
    (add_block_prepare Document.defaultVal (freshHeading 3)).2.2
      = Document.defaultVal.blocks.length + (3 - 1) :=
  (C2_filler_insertion Document.defaultVal Reachable.init (freshHeading 3) (by decide)
    (by decide)
    (add_block_prepare Document.defaultVal (freshHeading 3)).1
    (add_block_prepare Document.defaultVal (freshHeading 3)).2.1
    (add_block_prepare Document.defaultVal (freshHeading 3)).2.2
    rfl 1 (by decide)).2.2.1

/-! ## C10: non-atomicity of `add_block` on failure -/

theorem phase_repl_ids (p : Document × Block) : (phase_repl p).1.ids = p.1.ids := by
  obtain ⟨doc, block⟩ := p
  obtain ⟨bk, bc⟩ := block
  cases bk <;> simp [phase_repl]

theorem phase_table_ids (idx : Nat) (p : Document × Block) :
    (phase_table idx p).1.ids = p.1.ids := by
  obtain ⟨doc, block⟩ := p
  obtain ⟨bk, bc⟩ := block
  cases bk
  case table t => by_cases hn : t.numbered <;> simp [phase_table, hn]
  all_goals simp [phase_table]

theorem phase_gloss_ids (idx : Nat) (p : Document × Block) :
    (phase_gloss idx p).1.ids = p.1.ids := by
  obtain ⟨doc, block⟩ := p
  obtain ⟨bk, bc⟩ := block
  cases bk
  case gloss g => by_cases hn : g.numbered <;> simp [phase_gloss, hn]
  all_goals simp [phase_gloss]

theorem phase_noid_ids (p : Document × Block) : (phase_noid p).1.ids = p.1.ids := by
  obtain ⟨doc, block⟩ := p
  by_cases hid : block.common.id = "" <;> simp [phase_noid, hid]

theorem phases_ids (idx : Nat) (doc1 : Document) (block1 : Block) :
    (phase_noid (phase_gloss idx (phase_table idx (phase_repl (doc1, block1))))).1.ids
      = doc1.ids := by
  rw [phase_noid_ids, phase_gloss_ids, phase_table_ids, phase_repl_ids]

/-- Phases 1–4 of `add_block` never create an id-map entry. -/
theorem prepare_ids (d : Document) (b : Block) : (add_block_prepare d b).1.ids = d.ids := by
  obtain ⟨doc1, block1, idx1, hph⟩ : ∃ x y z, prepare_heading d b = (x, y, z) :=
    ⟨_, _, _, rfl⟩
  have h1 : (add_block_prepare d b).1 =
      (phase_noid (phase_gloss idx1 (phase_table idx1 (phase_repl (doc1, block1))))).1 := by
    unfold add_block_prepare
    rw [hph]
  rw [h1, phases_ids]
  by_cases his : b.kind.hl_is = true
  · obtain ⟨doc2, kind3, common3, idxr, hr⟩ :
        ∃ p q r2 s, add_block_heading d b.kind b.common d.blocks.length = (p, q, r2, s) :=
      ⟨_, _, _, _, rfl⟩
    have hpe : prepare_heading d b =
        ((doc2 : Document), ({ kind := kind3, common := common3 } : Block), idxr) := by
      unfold prepare_heading
      rw [if_pos his, hr]
    have hd1 : doc1 = doc2 := by
      have := hph.symm.trans hpe
      exact congrArg (fun t => t.1) this
    obtain ⟨da, ka, ra, ca, hdd⟩ :
        ∃ a a2 e f2, add_block_descend b.kind.hl_level d b.kind d.blocks.length none
          = (a, a2, e, f2) := ⟨_, _, _, _, rfl⟩
    have hF := descend_frame b.kind.hl_level d b.kind d.blocks.length none
    rw [hdd] at hF
    have g5' : da.ids = d.ids := hF.2.2.2.2.2.1
    have hr' : heading_register (da, ka, ra, ca) b.common = (doc2, kind3, common3, idxr) := by
      rw [← hdd]
      exact hr
    have h2 : da.set_section_list ca
        ((da.get_section_list ca).push ra (heading_kind3 da ca ka).hl_numbered)
        = doc2 := congrArg (fun t => t.1) hr'
    rw [hd1, ← h2, (set_section_list_frame da ca _).1, g5']
  · have hpe : prepare_heading d b = (d, b, d.blocks.length) := by
      unfold prepare_heading
      rw [if_neg his]
    have hd1 : doc1 = d := congrArg (fun t => t.1) (hph.symm.trans hpe)
    rw [hd1]

/-- Phases 1–4 of `add_block` only ever push `FillerHeading` blocks. -/
theorem prepare_blocks_fillers (d : Document) (b : Block) :
    d.blocks.length ≤ (add_block_prepare d b).1.blocks.length ∧
    (∀ (j : Nat) (b2 : Block), d.blocks.length ≤ j →
      (add_block_prepare d b).1.blocks[j]? = some b2 → b2.kind.isFiller = true) := by
  obtain ⟨doc1, block1, idx1, hph⟩ : ∃ x y z, prepare_heading d b = (x, y, z) :=
    ⟨_, _, _, rfl⟩
  have h1 : (add_block_prepare d b).1 =
      (phase_noid (phase_gloss idx1 (phase_table idx1 (phase_repl (doc1, block1))))).1 := by
    unfold add_block_prepare
    rw [hph]
  obtain ⟨psb, -, -, -⟩ := phases_spec idx1 doc1 block1
  rw [h1, psb]
  by_cases his : b.kind.hl_is = true
  · obtain ⟨doc2, kind3, common3, idxr, hr⟩ :
        ∃ p q r2 s, add_block_heading d b.kind b.common d.blocks.length = (p, q, r2, s) :=
      ⟨_, _, _, _, rfl⟩
    have hpe : prepare_heading d b =
        ((doc2 : Document), ({ kind := kind3, common := common3 } : Block), idxr) := by
      unfold prepare_heading
      rw [if_pos his, hr]
    have hd1 : doc1 = doc2 := congrArg (fun t => t.1) (hph.symm.trans hpe)
    obtain ⟨da, ka, ra, ca, hdd⟩ :
        ∃ a a2 e f2, add_block_descend b.kind.hl_level d b.kind d.blocks.length none
          = (a, a2, e, f2) := ⟨_, _, _, _, rfl⟩
    have hF := descend_frame b.kind.hl_level d b.kind d.blocks.length none
    rw [hdd] at hF
    have g12' : d.blocks.length ≤ da.blocks.length := hF.2.2.2.2.2.2.2.2.2.2.2.2.1
    have g14' : ∀ (j : Nat) (b2 : Block), d.blocks.length ≤ j →
        da.blocks[j]? = some b2 → b2.kind.isFiller = true :=
      hF.2.2.2.2.2.2.2.2.2.2.2.2.2.2.1
    have hr' : heading_register (da, ka, ra, ca) b.common = (doc2, kind3, common3, idxr) := by
      rw [← hdd]
      exact hr
    have h2 : da.set_section_list ca
        ((da.get_section_list ca).push ra (heading_kind3 da ca ka).hl_numbered)
        = doc2 := congrArg (fun t => t.1) hr'
    subst hd1
    rw [← h2]
    constructor
    · rw [set_section_list_blocks_length]
      exact g12'
    · intro j b2 hle hb2
      rcases blocks_set_section_list da ca
          ((da.get_section_list ca).push ra (heading_kind3 da ca ka).hl_numbered) j with
        h | ⟨i, bo, hc, hji, hbo, h⟩
      · rw [h] at hb2
        exact g14' j b2 hle hb2
      · subst hji
        rw [h] at hb2
        obtain rfl := (Option.some.inj hb2).symm
        simpa using g14' j bo hle hbo
  · have hpe : prepare_heading d b = (d, b, d.blocks.length) := by
      unfold prepare_heading
      rw [if_neg his]
    have hd1 : doc1 = d := congrArg (fun t => t.1) (hph.symm.trans hpe)
    subst hd1
    refine ⟨le_refl _, ?_⟩
    intro j b2 hle hb2
    exfalso
    have := (List.getElem?_eq_some.mp hb2).1
    omega

/-- The prepare phase on a table block appends the block's index to the
document's table list and bumps the table counter exactly when the table is
numbered. -/
theorem add_block_prepare_table (d : Document) (t : Table) (c : BlockCommon) :
    (add_block_prepare d { kind := .table t, common := c }).1.tables
      = d.tables ++ [d.blocks.length] ∧
    (add_block_prepare d { kind := .table t, common := c }).1.table_number
      = (if t.numbered then d.table_number + 1 else d.table_number) := by
  by_cases hn : t.numbered <;> by_cases hid : c.id = "" <;>
    simp [add_block_prepare, prepare_heading, phase_repl, phase_table, phase_gloss,
      phase_noid, BlockKind.hl_is, hn, hid]

/-- The prepare phase on a gloss block appends the block's index to the
document's gloss list and bumps the gloss counter exactly when the gloss is
numbered. -/
theorem add_block_prepare_gloss (d : Document) (g : Gloss) (c : BlockCommon) :
    (add_block_prepare d { kind := .gloss g, common := c }).1.glosses
      = d.glosses ++ [d.blocks.length] ∧
    (add_block_prepare d { kind := .gloss g, common := c }).1.gloss_number
      = (if g.numbered then d.gloss_number + 1 else d.gloss_number) := by
  by_cases hn : g.numbered <;> by_cases hid : c.id = "" <;>
    simp [add_block_prepare, prepare_heading, phase_repl, phase_table, phase_gloss,
      phase_noid, BlockKind.hl_is, hn, hid]

/-- C10: on a duplicate-id failure, `add_block` keeps the entire prepared
state — every filler pushed, every section-list registration, the table and
gloss counter increments and index-list appends — while the offending block
itself is not appended and no id-map entry is created; the error is always a
duplicate-id error. -/
theorem C10_nonatomic (d : Document) (b : Block)
    (doc5 : Document) (block5 : Block) (idx : Nat)
    (hp : add_block_prepare d b = (doc5, block5, idx)) (e : ErrorKind)
    (herr : (d.add_block b).2 = some e) :
    (d.add_block b).1 = doc5 ∧
    (∃ s, e = ErrorKind.id s) ∧
    doc5.ids = d.ids ∧
    d.blocks.length ≤ doc5.blocks.length ∧
    (∀ (j : Nat) (b2 : Block), d.blocks.length ≤ j → doc5.blocks[j]? = some b2 →
      b2.kind.isFiller = true) ∧
    (∀ t : Table, b = { kind := .table t, common := b.common } →
      doc5.tables = d.tables ++ [d.blocks.length] ∧
      doc5.table_number = (if t.numbered then d.table_number + 1 else d.table_number)) ∧
    (∀ g : Gloss, b = { kind := .gloss g, common := b.common } →
      doc5.glosses = d.glosses ++ [d.blocks.length] ∧
      doc5.gloss_number = (if g.numbered then d.gloss_number + 1 else d.gloss_number)) := by
  have hp1 : (add_block_prepare d b).1 = doc5 := congrArg (fun t => t.1) hp
  have hids : doc5.ids = d.ids := by
    rw [← hp1]
    exact prepare_ids d b
  obtain ⟨hlen, hfill⟩ := prepare_blocks_fillers d b
  rw [hp1] at hlen hfill
  unfold Document.add_block at herr ⊢
  rw [hp] at herr ⊢
  dsimp only at herr ⊢
  cases hfind : doc5.ids.find? (fun q => q.1 = block5.common.id) with
  | none =>
    exfalso
    rw [hfind] at herr
    simp at herr
  | some e0 =>
    rw [hfind] at herr
    refine ⟨rfl, ⟨e0.1, ?_⟩, hids, hlen, hfill, ?_, ?_⟩
    · have : some (ErrorKind.id e0.1) = some e := herr
      exact (Option.some.inj this).symm
    · intro t hbt
      have h1 : (add_block_prepare d { kind := .table t, common := b.common }).1 = doc5 := by
        rw [← hbt, hp]
      obtain ⟨ht1, ht2⟩ := add_block_prepare_table d t b.common
      rw [h1] at ht1 ht2
      exact ⟨ht1, ht2⟩
    · intro g hbg
      have h1 : (add_block_prepare d { kind := .gloss g, common := b.common }).1 = doc5 := by
        rw [← hbg, hp]
      obtain ⟨hg1, hg2⟩ := add_block_prepare_gloss d g b.common
      rw [h1] at hg1 hg2
      exact ⟨hg1, hg2⟩

/-! ## C3: id assignment and auto-id uniqueness -/

theorem natDigits_fuel (n : Nat) : ∀ f f' : Nat, n < f → n < f' →
    natDigits f n = natDigits f' n := by
  induction n using Nat.strong_induction_on with
  | _ n ih =>
    intro f f' hf hf'
    match f, f' with
    | g + 1, g' + 1 =>
      rw [natDigits, natDigits]
      by_cases h10 : n < 10
      · rw [if_pos h10, if_pos h10]
      · rw [if_neg h10, if_neg h10]
        have hlt : n / 10 < n := by omega
        rw [ih (n / 10) hlt g g' (by omega) (by omega)]

theorem natDigits_val (n : Nat) : ∀ f : Nat, n < f → digitsVal (natDigits f n) = n := by
  induction n using Nat.strong_induction_on with
  | _ n ih =>
    intro f hf
    match f with
    | g + 1 =>
      rw [natDigits]
      by_cases h10 : n < 10
      · rw [if_pos h10]
        simp [digitsVal]
      · rw [if_neg h10]
        have hlt : n / 10 < n := by omega
        unfold digitsVal
        rw [List.foldl_append]
        have hrec := ih (n / 10) hlt g (by omega)
        unfold digitsVal at hrec
        rw [hrec]
        simp
        omega

theorem natDigits_lt10 : ∀ (f n : Nat), ∀ d ∈ natDigits f n, d < 10 := by
  intro f
  induction f with
  | zero =>
    intro n d hd
    cases hd
  | succ g ih =>
    intro n d hd
    rw [natDigits] at hd
    by_cases h10 : n < 10
    · rw [if_pos h10] at hd
      have hdn : d = n := by simpa using hd
      omega
    · rw [if_neg h10] at hd
      rcases List.mem_append.mp hd with h | h
      · exact ih _ d h
      · have : d = n % 10 := by simpa using h
        omega

theorem digitChar_inj : ∀ d < 10, ∀ e < 10,
    Char.ofNat (48 + d) = Char.ofNat (48 + e) → d = e := by
  decide

theorem mapDigitChar_inj : ∀ (l1 l2 : List Nat), (∀ d ∈ l1, d < 10) → (∀ d ∈ l2, d < 10) →
    l1.map (fun d => Char.ofNat (48 + d)) = l2.map (fun d => Char.ofNat (48 + d)) →
    l1 = l2 := by
  intro l1
  induction l1 with
  | nil =>
    intro l2 h1 h2 h
    cases l2 with
    | nil => rfl
    | cons b tl => simp at h
  | cons a tl ih =>
    intro l2 h1 h2 h
    cases l2 with
    | nil => simp at h
    | cons b tl2 =>
      rw [List.map_cons, List.map_cons] at h
      have hab := List.head_eq_of_cons_eq h
      have htl := List.tail_eq_of_cons_eq h
      have ha : a = b := digitChar_inj a (h1 a (by simp)) b (h2 b (by simp)) hab
      rw [ha, ih tl2 (fun d hd => h1 d (by simp [hd])) (fun d hd => h2 d (by simp [hd])) htl]

theorem usizeDec_inj (n m : Nat) (h : usizeDec n = usizeDec m) : n = m := by
  unfold usizeDec at h
  have hdata := congrArg String.data h
  rw [List.asString, List.asString] at hdata
  have hlists : (natDigits (n + 1) n).map (fun d => Char.ofNat (48 + d))
      = (natDigits (m + 1) m).map (fun d => Char.ofNat (48 + d)) := hdata
  have hdig : natDigits (n + 1) n = natDigits (m + 1) m :=
    mapDigitChar_inj _ _ (natDigits_lt10 _ _) (natDigits_lt10 _ _) hlists
  have hv := congrArg digitsVal hdig
  rw [natDigits_val n (n + 1) (by omega), natDigits_val m (m + 1) (by omega)] at hv
  exact hv

theorem string_append_left_cancel (s x y : String) (h : s ++ x = s ++ y) : x = y := by
  have hdata := congrArg String.data h
  rw [String.data_append, String.data_append] at hdata
  have hxy : x.data = y.data := List.append_cancel_left hdata
  cases x
  cases y
  exact congrArg String.mk hxy

theorem sec_ne_noid (x y : String) : "sec-" ++ x ≠ "__no-id-" ++ y := by
  intro h
  have hdata := congrArg String.data h
  rw [String.data_append, String.data_append] at hdata
  have h3 : ('s' :: 'e' :: 'c' :: '-' :: x.data)
      = ('_' :: '_' :: 'n' :: 'o' :: '-' :: 'i' :: 'd' :: '-' :: y.data) := hdata
  simp at h3

theorem sec_ne_empty (x : String) : "sec-" ++ x ≠ "" := by
  intro h
  have hdata := congrArg String.data h
  rw [String.data_append] at hdata
  have h3 : ('s' :: 'e' :: 'c' :: '-' :: x.data) = ([] : List Char) := hdata
  simp at h3

theorem noid_ne_empty (x : String) : "__no-id-" ++ x ≠ "" := by
  intro h
  have hdata := congrArg String.data h
  rw [String.data_append] at hdata
  have h3 : ('_' :: '_' :: 'n' :: 'o' :: '-' :: 'i' :: 'd' :: '-' :: x.data)
      = ([] : List Char) := hdata
  simp at h3

theorem phase_repl_common (p : Document × Block) : (phase_repl p).2.common = p.2.common := by
  obtain ⟨doc, block⟩ := p
  obtain ⟨bk, bc⟩ := block
  cases bk <;> simp [phase_repl]

theorem phase_table_common (idx : Nat) (p : Document × Block) :
    (phase_table idx p).2.common = p.2.common := by
  obtain ⟨doc, block⟩ := p
  obtain ⟨bk, bc⟩ := block
  cases bk
  case table t => by_cases hn : t.numbered <;> simp [phase_table, hn]
  all_goals simp [phase_table]

theorem phase_gloss_common (idx : Nat) (p : Document × Block) :
    (phase_gloss idx p).2.common = p.2.common := by
  obtain ⟨doc, block⟩ := p
  obtain ⟨bk, bc⟩ := block
  cases bk
  case gloss g => by_cases hn : g.numbered <;> simp [phase_gloss, hn]
  all_goals simp [phase_gloss]

theorem phase_repl_noidx (p : Document × Block) :
    (phase_repl p).1.noid_index = p.1.noid_index := by
  obtain ⟨doc, block⟩ := p
  obtain ⟨bk, bc⟩ := block
  cases bk <;> simp [phase_repl]

theorem phase_table_noidx (idx : Nat) (p : Document × Block) :
    (phase_table idx p).1.noid_index = p.1.noid_index := by
  obtain ⟨doc, block⟩ := p
  obtain ⟨bk, bc⟩ := block
  cases bk
  case table t => by_cases hn : t.numbered <;> simp [phase_table, hn]
  all_goals simp [phase_table]

theorem phase_gloss_noidx (idx : Nat) (p : Document × Block) :
    (phase_gloss idx p).1.noid_index = p.1.noid_index := by
  obtain ⟨doc, block⟩ := p
  obtain ⟨bk, bc⟩ := block
  cases bk
  case gloss g => by_cases hn : g.numbered <;> simp [phase_gloss, hn]
  all_goals simp [phase_gloss]

theorem phase_noid_id (p : Document × Block) :
    (phase_noid p).2.common.id
      = (if p.2.common.id = "" then "__no-id-" ++ usizeDec p.1.noid_index
        else p.2.common.id) ∧
    (phase_noid p).1.noid_index
      = (if p.2.common.id = "" then p.1.noid_index + 1 else p.1.noid_index) := by
  obtain ⟨doc, block⟩ := p
  by_cases hid : block.common.id = "" <;> simp [phase_noid, hid]

theorem hl_numbered_hl_is {k : BlockKind} (h : k.hl_numbered = true) : k.hl_is = true := by
  cases k <;> simp_all [BlockKind.hl_numbered, BlockKind.hl_is]

/-- The id rewriting of the heading phase, with no invariant assumptions: an
empty-id unnumbered heading keeps its empty id, an empty-id numbered heading
receives a `sec-` id; the `__no-id` counter is untouched. -/
theorem prepare_heading_frame (d : Document) (b : Block) :
    (prepare_heading d b).1.noid_index = d.noid_index ∧
    (prepare_heading d b).2.1.kind.hl_numbered = b.kind.hl_numbered ∧
    (b.common.id = "" → b.kind.hl_numbered = false →
      (prepare_heading d b).2.1.common = b.common) ∧
    (b.common.id = "" → b.kind.hl_numbered = true →
      ∃ x, (prepare_heading d b).2.1.common = { b.common with id := "sec-" ++ x }) := by
  by_cases his : b.kind.hl_is = true
  · obtain ⟨da, ka, ra, ca, hdd⟩ :
        ∃ a a2 e f2, add_block_descend b.kind.hl_level d b.kind d.blocks.length none
          = (a, a2, e, f2) := ⟨_, _, _, _, rfl⟩
    have hF := descend_frame b.kind.hl_level d b.kind d.blocks.length none
    rw [hdd] at hF
    have g2' : ka.hl_numbered = b.kind.hl_numbered := hF.2.2.1
    have g11' : da.noid_index = d.noid_index := hF.2.2.2.2.2.2.2.2.2.2.2.1
    have hpe : prepare_heading d b =
        ((da.set_section_list ca
            ((da.get_section_list ca).push ra (heading_kind3 da ca ka).hl_numbered) : Document),
          ({ kind := heading_kind3 da ca ka,
             common := heading_common3 da ca ka b.common } : Block), ra) := by
      unfold prepare_heading
      rw [if_pos his]
      unfold add_block_heading
      rw [hdd]
      rfl
    rw [hpe]
    refine ⟨?_, ?_, ?_, ?_⟩
    · show (da.set_section_list ca _).noid_index = d.noid_index
      rw [(set_section_list_frame da ca _).2.2.2.2.2.2, g11']
    · show (heading_kind3 da ca ka).hl_numbered = b.kind.hl_numbered
      rw [(heading_kind3_pres da ca ka).2.2.1, g2']
    · intro hid hnum
      show heading_common3 da ca ka b.common = b.common
      have hC : (heading_kind2 da ca ka).hl_numbered = false :=
        ((heading_kind2_pres da ca ka).2.2.1.trans g2').trans hnum
      simp [heading_common3, hC]
    · intro hid hnum
      refine ⟨joinDash (heading_kind3 da ca ka).hl_number, ?_⟩
      show heading_common3 da ca ka b.common = _
      have hC : (heading_kind2 da ca ka).hl_numbered = true :=
        ((heading_kind2_pres da ca ka).2.2.1.trans g2').trans hnum
      simp [heading_common3, hC, hid]
  · have hpe : prepare_heading d b = (d, b, d.blocks.length) := by
      unfold prepare_heading
      rw [if_neg his]
    rw [hpe]
    refine ⟨rfl, rfl, fun _ _ => rfl, ?_⟩
    intro hid hnum
    exact absurd (hl_numbered_hl_is hnum) his

/-- The id `add_block` assigns to a block with no explicit id, and the
resulting `__no-id` counter: unnumbered blocks get `__no-id-<n>` and bump the
counter, numbered headings get a `sec-` id and leave it alone. -/
theorem assigned_id_auto (d : Document) (b : Block) (hb : b.common.id = "") :
    (b.kind.hl_numbered = false →
      assigned_id d b = "__no-id-" ++ usizeDec d.noid_index ∧
      (add_block_prepare d b).1.noid_index = d.noid_index + 1) ∧
    (b.kind.hl_numbered = true →
      (∃ x, assigned_id d b = "sec-" ++ x) ∧
      (add_block_prepare d b).1.noid_index = d.noid_index) := by
  obtain ⟨doc1, block1, idx1, hph⟩ : ∃ x y z, prepare_heading d b = (x, y, z) :=
    ⟨_, _, _, rfl⟩
  obtain ⟨pf1, pf2, pf3, pf4⟩ := prepare_heading_frame d b
  rw [hph] at pf1 pf2 pf3 pf4
  have pf1' : doc1.noid_index = d.noid_index := pf1
  have pf3' : b.common.id = "" → b.kind.hl_numbered = false → block1.common = b.common := pf3
  have pf4' : b.common.id = "" → b.kind.hl_numbered = true →
      ∃ x, block1.common = { b.common with id := "sec-" ++ x } := pf4
  have h1 : (add_block_prepare d b).1 =
      (phase_noid (phase_gloss idx1 (phase_table idx1 (phase_repl (doc1, block1))))).1 := by
    unfold add_block_prepare
    rw [hph]
  have h2 : (add_block_prepare d b).2.1 =
      (phase_noid (phase_gloss idx1 (phase_table idx1 (phase_repl (doc1, block1))))).2 := by
    unfold add_block_prepare
    rw [hph]
  have hc3 : (phase_gloss idx1 (phase_table idx1 (phase_repl (doc1, block1)))).2.common
      = block1.common := by
    rw [phase_gloss_common, phase_table_common, phase_repl_common]
  have hx3 : (phase_gloss idx1 (phase_table idx1 (phase_repl (doc1, block1)))).1.noid_index
      = d.noid_index := by
    rw [phase_gloss_noidx, phase_table_noidx, phase_repl_noidx]
    exact pf1'
  obtain ⟨hn1, hn2⟩ :=
    phase_noid_id (phase_gloss idx1 (phase_table idx1 (phase_repl (doc1, block1))))
  constructor
  · intro hnum
    have hcomm : block1.common = b.common := pf3' hb hnum
    constructor
    · unfold assigned_id
      rw [h2, hn1, hc3, hcomm, hb, hx3]
      simp
    · rw [h1, hn2, hc3, hcomm, hb, hx3]
      simp
  · intro hnum
    obtain ⟨x, hcomm⟩ := pf4' hb hnum
    constructor
    · refine ⟨x, ?_⟩
      unfold assigned_id
      rw [h2, hn1, hc3, hcomm]
      simp [sec_ne_empty x]
    · rw [h1, hn2, hc3, hcomm, hx3]
      simp [sec_ne_empty x]

/-- The error behaviour of `add_block`: a duplicate-id error naming the
assigned id exactly when that id is already in the map, success otherwise. -/
theorem add_block_err_char (d : Document) (b : Block) :
    (d.add_block b).2
      = (if d.ids.any (fun q => q.1 = assigned_id d b) then
          some (ErrorKind.id (assigned_id d b)) else none) := by
  obtain ⟨doc5, block5, idx, hp⟩ : ∃ x y z, add_block_prepare d b = (x, y, z) :=
    ⟨_, _, _, rfl⟩
  have hp1 : (add_block_prepare d b).1 = doc5 := congrArg (fun t => t.1) hp
  have hids : doc5.ids = d.ids := by
    rw [← hp1]
    exact prepare_ids d b
  have hass : assigned_id d b = block5.common.id := congrArg (fun t => t.2.1.common.id) hp
  rw [hass, ← hids]
  unfold Document.add_block
  rw [hp]
  dsimp only
  cases hfind : doc5.ids.find? (fun q => q.1 = block5.common.id) with
  | some e =>
    have hae : e.1 = block5.common.id := by
      have h2 := List.find?_some hfind
      simpa using h2
    rw [if_pos (List.any_eq_true.mpr ⟨e, List.mem_of_find?_eq_some hfind, by simp [hae]⟩)]
    show some (ErrorKind.id e.1) = some (ErrorKind.id block5.common.id)
    rw [hae]
  | none =>
    have hcond : ¬(doc5.ids.any (fun q => q.1 = block5.common.id)) = true := by
      intro hany
      obtain ⟨q, hq, hq1⟩ := List.any_eq_true.mp hany
      exact (List.find?_eq_none.mp hfind q hq) hq1
    rw [if_neg hcond]

theorem NoidInv_defaultVal : NoidInv Document.defaultVal := by
  intro p hp j hpj
  cases hp

theorem NoidInv_step (d : Document) (b : Block) (hb : b.common.id = "")
    (hI : NoidInv d) : NoidInv (d.add_block b).1 := by
  obtain ⟨doc5, block5, idx, hp⟩ : ∃ x y z, add_block_prepare d b = (x, y, z) :=
    ⟨_, _, _, rfl⟩
  have hp1 : (add_block_prepare d b).1 = doc5 := congrArg (fun t => t.1) hp
  have hids : doc5.ids = d.ids := by
    rw [← hp1]
    exact prepare_ids d b
  have hass : assigned_id d b = block5.common.id := congrArg (fun t => t.2.1.common.id) hp
  have h5n : (add_block_prepare d b).1.noid_index = doc5.noid_index :=
    congrArg (fun t => t.1.noid_index) hp
  obtain ⟨ha, hsec⟩ := assigned_id_auto d b hb
  have hmono : d.noid_index ≤ doc5.noid_index := by
    rcases Bool.eq_false_or_eq_true b.kind.hl_numbered with hn | hn
    · have h3 := (hsec hn).2
      rw [h5n] at h3
      omega
    · have h3 := (ha hn).2
      rw [h5n] at h3
      omega
  unfold Document.add_block
  rw [hp]
  dsimp only
  cases hfind : doc5.ids.find? (fun q => q.1 = block5.common.id) with
  | some e =>
    intro p hp2 j hpj
    show j < doc5.noid_index
    have hp2' : p ∈ doc5.ids := hp2
    rw [hids] at hp2'
    exact lt_of_lt_of_le (hI p hp2' j hpj) hmono
  | none =>
    intro p hp2 j hpj
    show j < doc5.noid_index
    have hp2' : p ∈ doc5.ids ++ [(block5.common.id, idx)] := hp2
    rcases List.mem_append.mp hp2' with h | h
    · rw [hids] at h
      exact lt_of_lt_of_le (hI p h j hpj) hmono
    · have hpe : p = (block5.common.id, idx) := by simpa using h
      rw [hpe] at hpj
      have hpj' : block5.common.id = "__no-id-" ++ usizeDec j := hpj
      rcases Bool.eq_false_or_eq_true b.kind.hl_numbered with hn | hn
      · obtain ⟨x, hx⟩ := (hsec hn).1
        rw [hass] at hx
        rw [hx] at hpj'
        exact absurd hpj' (sec_ne_noid x (usizeDec j))
      · obtain ⟨hx, hinc⟩ := ha hn
        rw [hass] at hx
        rw [hx] at hpj'
        have hj : usizeDec d.noid_index = usizeDec j :=
          string_append_left_cancel "__no-id-" _ _ hpj'
        have hje : d.noid_index = j := usizeDec_inj _ _ hj
        rw [h5n] at hinc
        omega

theorem ReachableNE_NoidInv {d : Document} (h : ReachableNE d) : NoidInv d := by
  induction h with
  | init => exact NoidInv_defaultVal
  | step hr hb ih => exact NoidInv_step _ _ hb ih

set_option maxRecDepth 40000 in
theorem c3Doc_reachableNE : ReachableNE c3Doc := by
  have h0 : ReachableNE Document.defaultVal := ReachableNE.init
  have h1 := @ReachableNE.step _ (freshHeading 1) h0 rfl
  have h2 := @ReachableNE.step _ (freshHeading 4) h1 rfl
  have h3 := @ReachableNE.step _ (freshHeading 3) h2 rfl
  have h4 := @ReachableNE.step _ (freshHeading 3) h3 rfl
  have h5 := @ReachableNE.step _ (freshHeading 4) h4 rfl
  have h6 := @ReachableNE.step _ (freshHeading 2 false) h5 rfl
  exact h6

set_option maxRecDepth 40000 in
/-- C3 is false in its uniqueness half: in the document built from the six
explicit-id-free headings `#`, `####`, `###`, `###`, `####`, `##[nonumber]`
(all six insertions succeed, registering six auto-ids), adding a seventh
explicit-id-free heading `####` synthesizes the numbered-heading id
`sec-1-0-2-1` a second time, and the insertion fails with a duplicate-id
error. -/
theorem C3_counterexample :
    ReachableNE c3Doc ∧
    c3Doc.ids.length = 6 ∧
    (freshHeading 4).common.id = "" ∧
    (c3Doc.add_block (freshHeading 4)).2 = some (ErrorKind.id "sec-1-0-2-1") :=
  ⟨c3Doc_reachableNE, by decide, rfl, by decide⟩

/-- C3 (amended): `add_block` fails with a duplicate-id error naming the
block's assigned id (explicit or synthesized) exactly when that id is
already in the id map; in an explicit-id-free document, a block that is not
a numbered heading always receives the fresh id `__no-id-<n>` and its
insertion succeeds — but numbered-heading `sec-` ids may collide, so not all
auto-id insertions succeed. -/
theorem C3_duplicate_ids (d : Document) (hd : ReachableNE d) (b : Block)
    (hb : b.common.id = "") :
    (d.add_block b).2
      = (if d.ids.any (fun q => q.1 = assigned_id d b) then
          some (ErrorKind.id (assigned_id d b)) else none) ∧
    (b.kind.hl_numbered = false → (d.add_block b).2 = none) := by
  have hI : NoidInv d := ReachableNE_NoidInv hd
  refine ⟨add_block_err_char d b, ?_⟩
  intro hnum
  rw [add_block_err_char d b]
  obtain ⟨ha, -⟩ := assigned_id_auto d b hb
  obtain ⟨hass, -⟩ := ha hnum
  rw [hass]
  have hcond : ¬(d.ids.any (fun q => q.1 = "__no-id-" ++ usizeDec d.noid_index)) = true := by
    intro hany
    obtain ⟨q, hq, hq1⟩ := List.any_eq_true.mp hany
    have hq1' : q.1 = "__no-id-" ++ usizeDec d.noid_index := by simpa using hq1
    have := hI q hq d.noid_index hq1'
    omega
  rw [if_neg hcond]

theorem C3_duplicate_ids_witness :
    (Document.defaultVal.add_block
      ({ kind := .text Text.new, common := BlockCommon.defaultVal } : Block)).2 = none :=
  (C3_duplicate_ids Document.defaultVal ReachableNE.init
    ({ kind := .text Text.new, common := BlockCommon.defaultVal } : Block) rfl).2 rfl

/-! ## C4: replacements merging -/

/-- Every error `add_block` can return is a duplicate-id error. -/
theorem add_block_error_id (d : Document) (b : Block) (e : ErrorKind)
    (herr : (d.add_block b).2 = some e) : ∃ s, e = ErrorKind.id s := by
  obtain ⟨doc5, block5, idx, hp⟩ : ∃ x y z, add_block_prepare d b = (x, y, z) :=
    ⟨_, _, _, rfl⟩
  unfold Document.add_block at herr
  rw [hp] at herr
  dsimp only at herr
  cases hfind : doc5.ids.find? (fun q => q.1 = block5.common.id) with
  | none =>
    rw [hfind] at herr
    simp at herr
  | some e0 =>
    rw [hfind] at herr
    have h2 : some (ErrorKind.id e0.1) = some e := herr
    exact ⟨e0.1, (Option.some.inj h2).symm⟩

theorem find?_map_keep (l : List (String × Text)) (k key : String) (v : Text)
    (hkey : ¬key = k) :
    (l.map (fun p => if p.1 = k then (k, v) else p)).find? (fun p => p.1 = key)
      = l.find? (fun p => p.1 = key) := by
  induction l with
  | nil => rfl
  | cons hd tl ih =>
    by_cases hhd : hd.1 = k
    · simp only [List.map_cons, if_pos hhd]
      rw [List.find?_cons_of_neg _ (by simp [Ne.symm hkey]),
        List.find?_cons_of_neg _ (by simp [hhd, Ne.symm hkey])]
      exact ih
    · simp only [List.map_cons, if_neg hhd]
      by_cases hm : hd.1 = key
      · rw [List.find?_cons_of_pos _ (by simp [hm]), List.find?_cons_of_pos _ (by simp [hm])]
      · rw [List.find?_cons_of_neg _ (by simp [hm]), List.find?_cons_of_neg _ (by simp [hm])]
        exact ih

theorem find?_map_hit (l : List (String × Text)) (k : String) (v : Text)
    (hc : ∃ q ∈ l, q.1 = k) :
    (l.map (fun p => if p.1 = k then (k, v) else p)).find? (fun p => p.1 = k)
      = some (k, v) := by
  induction l with
  | nil => simp at hc
  | cons hd tl ih =>
    by_cases hhd : hd.1 = k
    · simp only [List.map_cons, if_pos hhd]
      rw [List.find?_cons_of_pos _ (by simp)]
    · simp only [List.map_cons, if_neg hhd]
      rw [List.find?_cons_of_neg _ (by simp [hhd])]
      apply ih
      rcases hc with ⟨q, hq, hq1⟩
      rcases List.mem_cons.mp hq with h | h
      · exact absurd (h ▸ hq1) hhd
      · exact ⟨q, h, hq1⟩

/-- `HashMap::insert` semantics of the embedding: the new binding wins, all
other keys are untouched. -/
theorem get_mapInsert (r : Replacements) (k key : String) (v : Text) :
    (r.mapInsert k v).get key = if key = k then some v else r.get key := by
  unfold Replacements.mapInsert Replacements.get
  by_cases hc : r.containsKey k
  · rw [if_pos hc]
    dsimp only
    have hex : ∃ q ∈ r.replacements, q.1 = k := by
      unfold Replacements.containsKey at hc
      rw [List.any_eq_true] at hc
      obtain ⟨q, hq, hq1⟩ := hc
      exact ⟨q, hq, by simpa using hq1⟩
    by_cases hkey : key = k
    · subst hkey
      rw [if_pos rfl, find?_map_hit _ _ _ hex]
      rfl
    · rw [if_neg hkey, find?_map_keep _ _ _ _ hkey]
  · rw [if_neg hc]
    dsimp only
    have hnone : r.replacements.find? (fun p => p.1 = k) = none := by
      rw [List.find?_eq_none]
      intro p hp
      simp only [decide_eq_true_eq]
      intro hpk
      unfold Replacements.containsKey at hc
      exact hc (List.any_eq_true.mpr ⟨p, hp, by simp [hpk]⟩)
    by_cases hkey : key = k
    · subst hkey
      rw [if_pos rfl, List.find?_append, hnone]
      simp
    · rw [if_neg hkey, List.find?_append]
      cases hf : r.replacements.find? (fun p => p.1 = key) with
      | some p => simp
      | none => simp [Ne.symm hkey]

theorem foldl_mapInsert_get (l : List (String × Text)) (key : String) :
    (l.map Prod.fst).Nodup → ∀ r : Replacements,
      (l.foldl (fun acc p => acc.mapInsert p.1 p.2) r).get key =
        (if l.any (fun p => p.1 = key) then
          (l.find? (fun p => p.1 = key)).map (fun p => p.2)
        else r.get key) := by
  induction l with
  | nil =>
    intro _ r
    simp
  | cons hd tl ih =>
    intro hnd r
    rw [List.foldl_cons]
    have hndtl : (tl.map Prod.fst).Nodup := by
      rw [List.map_cons] at hnd
      exact hnd.of_cons
    have hnotin : hd.1 ∉ tl.map Prod.fst := by
      rw [List.map_cons] at hnd
      exact (List.nodup_cons.mp hnd).1
    rw [ih hndtl (r.mapInsert hd.1 hd.2)]
    by_cases hk : hd.1 = key
    · have htlany : tl.any (fun p => p.1 = key) = false := by
        rw [List.any_eq_false]
        intro p hp
        simp only [decide_eq_true_eq]
        intro hpk
        exact hnotin (by rw [hk, ← hpk]; exact List.mem_map_of_mem Prod.fst hp)
      rw [htlany]
      simp only [Bool.false_eq_true, if_false]
      rw [get_mapInsert, if_pos hk.symm]
      rw [if_pos (by simp [List.any_cons, hk])]
      rw [List.find?_cons_of_pos _ (by simp [hk])]
      rfl
    · by_cases hany : tl.any (fun p => p.1 = key) = true
      · rw [if_pos hany, if_pos (by simp [List.any_cons, hany])]
        rw [List.find?_cons_of_neg _ (by simp [hk])]
      · rw [if_neg hany, if_neg (by simp [List.any_cons, hk, hany])]
        rw [get_mapInsert, if_neg (fun h => hk h.symm)]

/-- `Replacements::update` semantics of the embedding: a key bound by the
incoming block takes the incoming value, all other keys keep their old
bindings (the incoming map has distinct keys, as a `HashMap` does). -/
theorem update_get (r other : Replacements) (key : String)
    (hnd : (other.replacements.map Prod.fst).Nodup) :
    (r.update other).get key =
      (if other.containsKey key then other.get key else r.get key) :=
  foldl_mapInsert_get other.replacements key hnd r

/-- The prepare phase on a replacements block drains the block's map into the
document's with `Replacements::update`. -/
theorem add_block_prepare_repl (d : Document) (r : Replacements) (c : BlockCommon) :
    (add_block_prepare d { kind := .replacements r, common := c }).1.replacements
      = d.replacements.update r := by
  by_cases hid : c.id = "" <;>
    simp [add_block_prepare, prepare_heading, phase_repl, phase_table, phase_gloss,
      phase_noid, BlockKind.hl_is, hid]

set_option maxRecDepth 40000 in
/-- C4 is false as stated: adding a second replacements block that re-binds
the key `a` succeeds (no fatal error) and silently overwrites the document's
binding of `a`. -/
theorem C4_counterexample :
    ((Document.defaultVal.add_block (replBlock "a" "x")).1.add_block
        (replBlock "a" "y")).2 = none ∧
    ((Document.defaultVal.add_block (replBlock "a" "x")).1.add_block
        (replBlock "a" "y")).1.replacements.get "a" = some (Text.ofString "y") ∧
    (Document.defaultVal.add_block (replBlock "a" "x")).1.replacements.get "a"
      = some (Text.ofString "x") :=
  ⟨rfl, rfl, rfl⟩

/-- C4 (amended): `add_block` merges a replacements block with
`Replacements::update`, which silently overwrites duplicate keys — the new
block's binding wins and no error is raised; every `add_block` error is a
duplicate-id error, never a duplicate-replacement-key error.  The
duplicate-key `Replace` error exists only in `Replacements::insert`, which
accumulates keys within a single block at parse time and fails exactly when
the key is already present there. -/
theorem C4_replace_semantics (d : Document) (r : Replacements) (c : BlockCommon)
    (doc5 : Document) (block5 : Block) (idx : Nat)
    (hp : add_block_prepare d { kind := .replacements r, common := c } = (doc5, block5, idx))
    (hnd : (r.replacements.map Prod.fst).Nodup) (key : String) (v : Text) :
    doc5.replacements = d.replacements.update r ∧
    (d.replacements.update r).get key =
      (if r.containsKey key then r.get key else d.replacements.get key) ∧
    (∀ e, (d.add_block { kind := .replacements r, common := c }).2 = some e →
      ∃ s, e = ErrorKind.id s) ∧
    (d.replacements.insert key v).2
      = (if d.replacements.containsKey key then some (ErrorKind.replace key) else none) := by
  refine ⟨?_, ?_, ?_, ?_⟩
  · have h1 : (add_block_prepare d { kind := .replacements r, common := c }).1 = doc5 :=
      congrArg (fun t => t.1) hp
    rw [← h1]
    exact add_block_prepare_repl d r c
  · exact update_get d.replacements r key hnd
  · intro e herr
    exact add_block_error_id d _ e herr
  · by_cases hc : d.replacements.containsKey key <;> simp [Replacements.insert, hc]

set_option maxRecDepth 40000 in
theorem C4_replace_semantics_witness :
    ((Document.defaultVal.add_block (replBlock "a" "x")).1.replacements.update
        { replacements := [("a", Text.ofString "y")] }).get "a" =
      (if ({ replacements := [("a", Text.ofString "y")] } : Replacements).containsKey "a" then
        ({ replacements := [("a", Text.ofString "y")] } : Replacements).get "a"
      else (Document.defaultVal.add_block (replBlock "a" "x")).1.replacements.get "a") :=
  (C4_replace_semantics (Document.defaultVal.add_block (replBlock "a" "x")).1
    { replacements := [("a", Text.ofString "y")] } BlockCommon.defaultVal
    (add_block_prepare (Document.defaultVal.add_block (replBlock "a" "x")).1
      { kind := .replacements { replacements := [("a", Text.ofString "y")] }
        common := BlockCommon.defaultVal }).1
    (add_block_prepare (Document.defaultVal.add_block (replBlock "a" "x")).1
      { kind := .replacements { replacements := [("a", Text.ofString "y")] }
        common := BlockCommon.defaultVal }).2.1
    (add_block_prepare (Document.defaultVal.add_block (replBlock "a" "x")).1
      { kind := .replacements { replacements := [("a", Text.ofString "y")] }
        common := BlockCommon.defaultVal }).2.2
    rfl (by simp) "a" (Text.ofString "z")).2.1

set_option maxRecDepth 40000 in
theorem C10_nonatomic_witness :
    (c10Doc.add_block (freshHeading 3 true "sec-1")).1
      = (add_block_prepare c10Doc (freshHeading 3 true "sec-1")).1 :=
  (C10_nonatomic c10Doc (freshHeading 3 true "sec-1")
    (add_block_prepare c10Doc (freshHeading 3 true "sec-1")).1
    (add_block_prepare c10Doc (freshHeading 3 true "sec-1")).2.1
    (add_block_prepare c10Doc (freshHeading 3 true "sec-1")).2.2
    rfl (ErrorKind.id "sec-1") (by decide)).1

/-! ## Inversion lemmas for parser results -/

theorem pout_bind_def {α β : Type} (x : POut α) (f : α → POut β) :
    x >>= f = POut.bind x f := rfl

theorem pout_bind_ok {α β : Type} {x : POut α} {f : α → POut β} {b : β} :
    POut.bind x f = .ok b ↔ ∃ a, x = .ok a ∧ f a = .ok b := by
  cases x with
  | ok a => simp [POut.bind]
  | err e => simp [POut.bind]
  | fuel => simp [POut.bind]

theorem pout_ok_inj {α : Type} {a b : α} (h : (POut.ok a : POut α) = .ok b) : a = b := by
  injection h

/-- `arm_toc` only ever returns a contents block. -/
theorem arm_toc_kind {fuel : Nat} {s : Scanner} {b : Block} {s2 : Scanner}
    (h : arm_toc fuel s = .ok (b, s2)) : b.kind.isContents = true := by
  unfold arm_toc at h
  rw [pout_bind_def, pout_bind_ok] at h
  obtain ⟨⟨toc, common, s1⟩, _, h⟩ := h
  dsimp only at h
  rw [pout_bind_def, pout_bind_ok] at h
  obtain ⟨⟨title, s2x⟩, _, h⟩ := h
  dsimp only at h
  have hb := congrArg (fun p : Block × Scanner => p.1.kind.isContents) (pout_ok_inj h)
  simpa using hb.symm

/-- `arm_list` only ever returns a list block. -/
theorem arm_list_kind {fuel : Nat} {s : Scanner} {b : Block} {s2 : Scanner}
    (h : arm_list fuel s = .ok (b, s2)) : b.kind.isListB = true := by
  unfold arm_list at h
  rw [pout_bind_def, pout_bind_ok] at h
  obtain ⟨⟨list, common, s1⟩, _, h⟩ := h
  dsimp only at h
  rw [pout_bind_def, pout_bind_ok] at h
  obtain ⟨⟨list2, s2x⟩, _, h⟩ := h
  dsimp only at h
  have hb := congrArg (fun p : Block × Scanner => p.1.kind.isListB) (pout_ok_inj h)
  simpa using hb.symm

/-- `arm_table` only ever returns a table block. -/
theorem arm_table_kind {fuel : Nat} {s : Scanner} {b : Block} {s2 : Scanner}
    (h : arm_table fuel s = .ok (b, s2)) : b.kind.isTable = true := by
  unfold arm_table at h
  rw [pout_bind_def, pout_bind_ok] at h
  obtain ⟨⟨table, common, s1⟩, _, h⟩ := h
  dsimp only at h
  rw [pout_bind_def, pout_bind_ok] at h
  obtain ⟨⟨title, s2x⟩, _, h⟩ := h
  dsimp only at h
  rw [pout_bind_def, pout_bind_ok] at h
  obtain ⟨⟨table1, s3x⟩, _, h⟩ := h
  dsimp only at h
  rw [pout_bind_def, pout_bind_ok] at h
  obtain ⟨⟨table2, s4x⟩, _, h⟩ := h
  dsimp only at h
  have hb := congrArg (fun p : Block × Scanner => p.1.kind.isTable) (pout_ok_inj h)
  simpa using hb.symm

/-- `arm_gloss` only ever returns a gloss block. -/
theorem arm_gloss_kind {fuel : Nat} {s : Scanner} {b : Block} {s2 : Scanner}
    (h : arm_gloss fuel s = .ok (b, s2)) : b.kind.isGloss = true := by
  unfold arm_gloss at h
  rw [pout_bind_def, pout_bind_ok] at h
  obtain ⟨⟨gloss, common, s1⟩, _, h⟩ := h
  dsimp only at h
  rw [pout_bind_def, pout_bind_ok] at h
  obtain ⟨⟨title, s2x⟩, _, h⟩ := h
  dsimp only at h
  rw [pout_bind_def, pout_bind_ok] at h
  obtain ⟨⟨gloss1, s3x⟩, _, h⟩ := h
  dsimp only at h
  have hb := congrArg (fun p : Block × Scanner => p.1.kind.isGloss) (pout_ok_inj h)
  simpa using hb.symm

/-- `arm_paragraph` only ever returns a text block. -/
theorem arm_paragraph_kind {fuel : Nat} {s : Scanner} {b : Block} {s2 : Scanner}
    (h : arm_paragraph fuel s = .ok (b, s2)) : b.kind.isText = true := by
  unfold arm_paragraph at h
  rw [pout_bind_def, pout_bind_ok] at h
  obtain ⟨⟨txt, s1⟩, _, h⟩ := h
  dsimp only at h
  have hb := congrArg (fun p : Block × Scanner => p.1.kind.isText) (pout_ok_inj h)
  simpa using hb.symm

/-! ## C5: directive dispatch -/

/-- The first step of `parse` on a block whose first non-whitespace
character is `:`: the scanner consumes the colon and the directive is read
from the next position. -/
theorem blockParse_colon_next {s : Scanner}
    (hpeek : s.skip_whitespace.peek = some ':') :
    s.skip_whitespace.next
      = (some ':', { s.skip_whitespace with idx := s.skip_whitespace.idx + 1 }) := by
  unfold Scanner.next
  unfold Scanner.peek at hpeek
  rw [hpeek]

/-- C5 (counterexample to the claim as stated): a leading `:replace:`
directive does not produce a dedicated replacements block — `parse` has no
`replace` arm, rewinds, and parses the block as a paragraph (a text block
carrying a `Replace` inline). -/
theorem C5_counterexample :
    ∃ b s2, blockParse 64 (mkScanner ":replace: x") = .ok (some b, s2) ∧
      b.kind.isReplacements = false ∧ b.kind.isText = true :=
  ⟨_, _, rfl, rfl, rfl⟩

set_option maxHeartbeats 1000000 in
/-- C5 (amended): when the first non-whitespace character of a block is `:`
and the directive reads as `name`, a successful `parse` yields a contents
block for `toc`, a list block for `list`, a table block for `table`, a gloss
block for `gloss`, and a text block (a paragraph) for every other name —
including `replace`, which has no dedicated arm. -/
theorem C5_directive_dispatch (fuel : Nat) (s : Scanner) (name : String) (s2 : Scanner)
    (b : Block) (sEnd : Scanner)
    (hpeek : s.skip_whitespace.peek = some ':')
    (hdir : directiveLoop fuel { s.skip_whitespace with idx := s.skip_whitespace.idx + 1 } ""
      = .ok (name, s2))
    (hparse : blockParse fuel s = .ok (some b, sEnd)) :
    (name = "toc" → b.kind.isContents = true) ∧
    (name = "list" → b.kind.isListB = true) ∧
    (name = "table" → b.kind.isTable = true) ∧
    (name = "gloss" → b.kind.isGloss = true) ∧
    (name ≠ "toc" → name ≠ "list" → name ≠ "table" → name ≠ "gloss" →
      b.kind.isText = true) := by
  unfold blockParse at hparse
  rw [blockParse_colon_next hpeek] at hparse
  dsimp only at hparse
  rw [if_pos rfl] at hparse
  rw [pout_bind_def, pout_bind_ok] at hparse
  obtain ⟨⟨name', s2'⟩, hdir', hparse⟩ := hparse
  obtain ⟨rfl, rfl⟩ : name = name' ∧ s2 = s2' := by
    have := pout_ok_inj (hdir.symm.trans hdir')
    exact ⟨congrArg Prod.fst this, congrArg Prod.snd this⟩
  dsimp only at hparse
  refine ⟨?_, ?_, ?_, ?_, ?_⟩
  · intro hname; subst hname
    rw [if_pos rfl] at hparse
    try rw [pout_bind_def] at hparse
    rw [pout_bind_ok] at hparse
    obtain ⟨⟨b', s3'⟩, harm, hp⟩ := hparse
    dsimp only at hp
    obtain rfl : b' = b := Option.some.inj (congrArg Prod.fst (pout_ok_inj hp))
    exact arm_toc_kind harm
  · intro hname; subst hname
    rw [if_neg (by decide), if_pos rfl] at hparse
    try rw [pout_bind_def] at hparse
    rw [pout_bind_ok] at hparse
    obtain ⟨⟨b', s3'⟩, harm, hp⟩ := hparse
    dsimp only at hp
    obtain rfl : b' = b := Option.some.inj (congrArg Prod.fst (pout_ok_inj hp))
    exact arm_list_kind harm
  · intro hname; subst hname
    rw [if_neg (by decide), if_neg (by decide), if_pos rfl] at hparse
    try rw [pout_bind_def] at hparse
    rw [pout_bind_ok] at hparse
    obtain ⟨⟨b', s3'⟩, harm, hp⟩ := hparse
    dsimp only at hp
    obtain rfl : b' = b := Option.some.inj (congrArg Prod.fst (pout_ok_inj hp))
    exact arm_table_kind harm
  · intro hname; subst hname
    rw [if_neg (by decide), if_neg (by decide), if_neg (by decide), if_pos rfl] at hparse
    try rw [pout_bind_def] at hparse
    rw [pout_bind_ok] at hparse
    obtain ⟨⟨b', s3'⟩, harm, hp⟩ := hparse
    dsimp only at hp
    obtain rfl : b' = b := Option.some.inj (congrArg Prod.fst (pout_ok_inj hp))
    exact arm_gloss_kind harm
  · intro h1 h2 h3 h4
    rw [if_neg h1, if_neg h2, if_neg h3, if_neg h4] at hparse
    try rw [pout_bind_def] at hparse
    rw [pout_bind_ok] at hparse
    obtain ⟨⟨b', s3'⟩, harm, hp⟩ := hparse
    dsimp only at hp
    obtain rfl : b' = b := Option.some.inj (congrArg Prod.fst (pout_ok_inj hp))
    exact arm_paragraph_kind harm

/-- C5 witness: the dispatch theorem at the concrete block `:toc:`. -/
theorem C5_directive_dispatch_witness :
    ∃ b sEnd, blockParse 32 (mkScanner ":toc:") = .ok (some b, sEnd) ∧
      b.kind.isContents = true := by
  obtain ⟨b, sEnd, h⟩ :
      ∃ b sEnd, blockParse 32 (mkScanner ":toc:") = .ok (some b, sEnd) := ⟨_, _, rfl⟩
  exact ⟨b, sEnd, h,
    (C5_directive_dispatch 32 (mkScanner ":toc:") "toc" _ b sEnd rfl rfl h).1 rfl⟩

/-! ## C6: the `_` formatting arm passes the wrong delimiter -/

/-- C6 (the code bug): the `_` arm of `text_until` (parse.rs lines 565–572)
calls `formatting_inline` with the delimiter `'*'`, not `'_'`.  So `_x_`
does not parse to an Italics inline terminated by the matching underscore:
the opening `_` looks for `*`, the closing `_` re-enters the `_` arm, and
the block ends with an `EndOfBlock(Expect('*'))` error.  For contrast,
`*x*` parses to the Emphasis inline the spec describes for `*`, and `_x*` —
an underscore closed by an asterisk — parses to an Italics inline, which is
exactly the wrong-delimiter behaviour. -/
theorem C6_underscore_delimiter :
    text_rest 32 (mkScanner "_x_") Text.new
        = .err (.ctx 0 (.endOfBlock (.expect '*'))) ∧
    (∃ s1, text_rest 32 (mkScanner "*x*") Text.new
        = .ok (Text.mk [Inline.mk (.emphasis (Text.mk [Inline.ofString "x"])) ""], s1)) ∧
    (∃ s1, text_rest 32 (mkScanner "_x*") Text.new
        = .ok (Text.mk [Inline.mk (.italics (Text.mk [Inline.ofString "x"])) ""], s1)) :=
  ⟨rfl, ⟨_, rfl⟩, ⟨_, rfl⟩⟩

/-! ## C8: gloss lines after the postamble -/

/-- The structural invariant of the gloss line loop: a successful run only
appends to the three line lists; it appends nothing to the preamble once the
body is nonempty, nothing to the body once the postamble is nonempty (a
split line would instead raise the `GlossLine` error), and it appends to the
postamble only when the body is (or becomes) nonempty. -/
theorem glossLoop_post (fuel : Nat) : ∀ (s : Scanner) (g g2 : Gloss) (s2 : Scanner),
    glossLoop fuel s g = .ok (g2, s2) →
    ∃ p b a, g2.preamble = g.preamble ++ p ∧ g2.gloss = g.gloss ++ b ∧
      g2.postamble = g.postamble ++ a ∧ (g.gloss ≠ [] → p = []) ∧
      (g.postamble ≠ [] → b = []) ∧ (a ≠ [] → g.gloss ++ b ≠ []) := by
  induction fuel with
  | zero =>
    intro s g g2 s2 h
    simp [glossLoop] at h
  | succ f ih =>
    intro s g g2 s2 h
    unfold glossLoop at h
    cases hpk : s.peek with
    | none =>
      rw [hpk] at h
      dsimp only at h
      have hg := pout_ok_inj h
      obtain rfl : g = g2 := congrArg Prod.fst hg
      exact ⟨[], [], [], by simp, by simp, by simp, fun _ => rfl, fun _ => rfl,
        fun ha => absurd rfl ha⟩
    | some c =>
      rw [hpk] at h
      dsimp only at h
      rw [pout_bind_def, pout_bind_ok] at h
      obtain ⟨⟨kind, cls, s3⟩, _, h⟩ := h
      dsimp only at h
      cases kind with
      | noSplit =>
        dsimp only at h
        rw [pout_bind_def, pout_bind_ok] at h
        obtain ⟨⟨line, s4⟩, _, h⟩ := h
        dsimp only at h
        by_cases hg : g.gloss.length = 0
        · rw [if_pos hg] at h
          obtain ⟨p', b', a', h1, h2, h3, h4, h5, h6⟩ := ih _ _ _ _ h
          dsimp only at h1 h2 h3 h4 h5 h6
          have hgnil : g.gloss = [] := List.length_eq_zero.mp hg
          refine ⟨(if cls.length ≠ 0 then line.with_class cls else line) :: p', b', a',
            ?_, h2, h3, ?_, h5, ?_⟩
          · rw [h1, List.append_assoc]; rfl
          · intro hne; exact absurd hgnil hne
          · intro ha; exact h6 ha
        · rw [if_neg hg] at h
          obtain ⟨p', b', a', h1, h2, h3, h4, h5, h6⟩ := ih _ _ _ _ h
          dsimp only at h1 h2 h3 h4 h5 h6
          have hgne : g.gloss ≠ [] := fun he => hg (by rw [he]; rfl)
          have hb' : b' = [] := h5 (by simp)
          refine ⟨p', b', (if cls.length ≠ 0 then line.with_class cls else line) :: a',
            h1, h2, ?_, h4, fun _ => hb', ?_⟩
          · rw [h3, List.append_assoc]; rfl
          · intro _ hcon
            exact hgne (List.append_eq_nil.mp hcon).1
      | split =>
        dsimp only at h
        by_cases hpost : g.postamble.length ≠ 0
        · rw [if_pos hpost] at h
          exact absurd h (by simp)
        · rw [if_neg hpost] at h
          rw [pout_bind_def, pout_bind_ok] at h
          obtain ⟨⟨line, s4⟩, _, h⟩ := h
          dsimp only at h
          obtain ⟨p', b', a', h1, h2, h3, h4, h5, h6⟩ := ih _ _ _ _ h
          dsimp only at h1 h2 h3 h4 h5 h6
          have hpnil : g.postamble = [] := List.length_eq_zero.mp (by omega)
          have hp' : p' = [] := h4 (by simp)
          refine ⟨p', line :: b', a', h1, ?_, h3, fun _ => hp', ?_, ?_⟩
          · rw [h2, List.append_assoc]; rfl
          · intro hne; exact absurd hpnil hne
          · intro _ hcon
            have := (List.append_eq_nil.mp hcon).2
            exact List.noConfusion this

/-- C8: a successfully parsed gloss keeps its preamble, body, and postamble
lines contiguous and in that order (the loop invariant above), and a
`Split` line after a recorded postamble line aborts the parse with the
`GlossLine` error wrapped in the block's starting line, as on the concrete
block `:gloss:` with a split line, a `[nosplit]` line (which lands in the
postamble), and another split line, starting at line 3. -/
theorem C8_gloss_postamble :
    (∀ (fuel : Nat) (s : Scanner) (g g2 : Gloss) (s2 : Scanner),
      glossLoop fuel s g = .ok (g2, s2) →
      ∃ p b a, g2.preamble = g.preamble ++ p ∧ g2.gloss = g.gloss ++ b ∧
        g2.postamble = g.postamble ++ a ∧ (g.gloss ≠ [] → p = []) ∧
        (g.postamble ≠ [] → b = []) ∧ (a ≠ [] → g.gloss ++ b ≠ [])) ∧
    blockParse 64 { mkScanner ":gloss:\n::a\n::[nosplit] b\n::c" with startLine := 3 }
      = .err (.ctx 3 .glossLine) :=
  ⟨fun fuel s g g2 s2 h => glossLoop_post fuel s g g2 s2 h, rfl⟩

/-! ## C7: the table continuation accounting -/

theorem getD_append_zero (l r : List Nat) : ∀ j,
    (l ++ r).getD j 0 = if j < l.length then l.getD j 0 else r.getD (j - l.length) 0 := by
  induction l with
  | nil => intro j; simp
  | cons x xs ih =>
    intro j
    cases j with
    | zero => simp
    | succ j =>
      simp only [List.cons_append, List.getD_cons_succ, List.length_cons, ih j]
      by_cases hj : j < xs.length
      · rw [if_pos hj, if_pos (by omega)]
      · rw [if_neg hj, if_neg (by omega),
          (by omega : j + 1 - (xs.length + 1) = j - xs.length)]

theorem getD_replicate_zero : ∀ (m j : Nat), (List.replicate m (0 : Nat)).getD j 0 = 0 := by
  intro m
  induction m with
  | zero => intro j; simp
  | succ m ih =>
    intro j
    cases j with
    | zero => simp [List.replicate_succ]
    | succ j => simp [List.replicate_succ, ih j]

theorem getD_out_of_range (l : List Nat) (j : Nat) (h : l.length ≤ j) : l.getD j 0 = 0 := by
  rw [List.getD_eq_getElem?_getD, List.getElem?_eq_none (by omega)]
  rfl

theorem getD_set_zero (l : List Nat) (i j v : Nat) :
    (l.set i v).getD j 0 = if i = j ∧ i < l.length then v else l.getD j 0 := by
  by_cases hij : i = j ∧ i < l.length
  · obtain ⟨rfl, hlt⟩ := hij
    rw [if_pos ⟨rfl, hlt⟩, List.getD_eq_getElem?_getD, List.getElem?_set_self hlt]
    rfl
  · rw [if_neg hij]
    by_cases hji : i = j
    · subst hji
      have hge : l.length ≤ i := by
        by_contra hc
        exact hij ⟨rfl, by omega⟩
      rw [getD_out_of_range _ _ (by simpa using hge), getD_out_of_range _ _ hge]
    · rw [List.getD_eq_getElem?_getD, List.getElem?_set_ne hji, ← List.getD_eq_getElem?_getD]

/-- The advancing loop of the continuation accounting: the emitted column is
the first column at or after `col` whose count is zero (or the first past
the end), and each positive count passed is decremented. -/
theorem advanceCol_spec : ∀ (fuel : Nat) (cc : List Nat) (col : Nat),
    cc.length < fuel + col →
    ∀ cc1 c, advanceCol fuel cc col = (cc1, c) →
      col ≤ c ∧
      (∀ j, col ≤ j → j < c → 0 < cc.getD j 0) ∧
      (c < cc.length → cc.getD c 0 = 0) ∧
      cc1.length = cc.length ∧
      (∀ j, cc1.getD j 0 = if col ≤ j ∧ j < c then cc.getD j 0 - 1 else cc.getD j 0) := by
  intro fuel
  induction fuel with
  | zero =>
    intro cc col hf cc1 c h
    have h' : ((cc, col) : List Nat × Nat) = (cc1, c) := h
    obtain ⟨rfl, rfl⟩ : cc = cc1 ∧ col = c :=
      ⟨congrArg Prod.fst h', congrArg Prod.snd h'⟩
    exact ⟨le_refl _, fun j h1 h2 => absurd (lt_of_le_of_lt h1 h2) (lt_irrefl _),
      fun hc => absurd hc (by omega), rfl, fun j => by rw [if_neg (by omega)]⟩
  | succ f ih =>
    intro cc col hf cc1 c h
    rw [advanceCol] at h
    cases hget : cc[col]? with
    | none =>
      rw [hget] at h
      dsimp only at h
      obtain ⟨rfl, rfl⟩ : cc = cc1 ∧ col = c :=
        ⟨congrArg Prod.fst h, congrArg Prod.snd h⟩
      have hlen : cc.length ≤ col := by
        by_contra hc
        rw [List.getElem?_eq_getElem (by omega)] at hget
        exact Option.noConfusion hget
      exact ⟨le_refl _, fun j h1 h2 => absurd (lt_of_le_of_lt h1 h2) (lt_irrefl _),
        fun hc => absurd hc (by omega), rfl, fun j => by rw [if_neg (by omega)]⟩
    | some n =>
      rw [hget] at h
      dsimp only at h
      have hcl : col < cc.length := by
        by_contra hc
        rw [List.getElem?_eq_none (by omega)] at hget
        exact Option.noConfusion hget
      have hcolv : cc.getD col 0 = n := by
        rw [List.getD_eq_getElem?_getD, hget]
        rfl
      by_cases hn : 0 < n
      · rw [if_pos hn] at h
        have hset : ∀ j, (cc.set col (n - 1)).getD j 0
            = if col = j ∧ col < cc.length then n - 1 else cc.getD j 0 :=
          fun j => getD_set_zero cc col j (n - 1)
        obtain ⟨h1, h2, h3, h4, h5⟩ := ih _ _ (by simp; omega) _ _ h
        have hlen : (cc.set col (n - 1)).length = cc.length := by simp
        refine ⟨by omega, ?_, ?_, by rw [h4, hlen], ?_⟩
        · intro j hj1 hj2
          by_cases hj : j = col
          · subst hj; rw [hcolv]; exact hn
          · have := h2 j (by omega) hj2
            rw [hset j, if_neg (by omega)] at this
            exact this
        · intro hc
          have := h3 (by rw [hlen]; exact hc)
          rw [hset c, if_neg (by omega)] at this
          exact this
        · intro j
          rw [h5 j, hset j]
          by_cases hj : j = col
          · subst hj
            rw [if_neg (show ¬(j + 1 ≤ j ∧ j < c) by omega),
              if_pos (show j = j ∧ j < cc.length from ⟨rfl, hcl⟩),
              if_pos (show j ≤ j ∧ j < c by omega), hcolv]
          · rw [if_neg (show ¬(col = j ∧ col < cc.length) from fun hx => hj hx.1.symm)]
            by_cases hjr : col + 1 ≤ j ∧ j < c
            · rw [if_pos hjr, if_pos (show col ≤ j ∧ j < c by omega)]
            · rw [if_neg hjr, if_neg (show ¬(col ≤ j ∧ j < c) by omega)]
      · rw [if_neg hn] at h
        have h' : ((cc, col) : List Nat × Nat) = (cc1, c) := h
        obtain ⟨rfl, rfl⟩ : cc = cc1 ∧ col = c :=
          ⟨congrArg Prod.fst h', congrArg Prod.snd h'⟩
        exact ⟨le_refl _, fun j h1 h2 => absurd (lt_of_le_of_lt h1 h2) (lt_irrefl _),
          fun _ => by rw [hcolv]; omega, rfl, fun j => by rw [if_neg (by omega)]⟩

theorem resizeZero_length (l : List Nat) (n : Nat) :
    (resizeZero l n).length = max l.length n := by
  unfold resizeZero
  by_cases hl : l.length < n
  · rw [if_pos hl]; simp; omega
  · rw [if_neg hl]; omega

theorem resizeZero_getD (l : List Nat) (n j : Nat) :
    (resizeZero l n).getD j 0 = l.getD j 0 := by
  unfold resizeZero
  by_cases hl : l.length < n
  · rw [if_pos hl, getD_append_zero]
    by_cases hj : j < l.length
    · rw [if_pos hj]
    · rw [if_neg hj, getD_replicate_zero, getD_out_of_range _ _ (by omega)]
  · rw [if_neg hl]

theorem paintRange_length : ∀ (l : List Nat) (i c k r : Nat),
    (paintRange l i c k r).length = l.length := by
  intro l
  induction l with
  | nil => intro i c k r; rfl
  | cons x xs ih => intro i c k r; simp [paintRange, ih]

theorem paintRange_getD : ∀ (l : List Nat) (i c k r j : Nat),
    (paintRange l i c k r).getD j 0 =
      if j < l.length then
        if c ≤ i + j ∧ i + j < c + k then max r (l.getD j 0) - 1 else l.getD j 0
      else 0 := by
  intro l
  induction l with
  | nil => intro i c k r j; simp [paintRange]
  | cons x xs ih =>
    intro i c k r j
    cases j with
    | zero =>
      simp only [paintRange, List.getD_cons_zero, List.length_cons, Nat.add_zero]
      rw [if_pos (show (0 : Nat) < xs.length + 1 by omega)]
      by_cases h1 : c ≤ i <;> by_cases h2 : i < c + k <;> simp [h1, h2]
    | succ j =>
      simp only [paintRange, List.getD_cons_succ, List.length_cons, ih (i + 1) c k r j]
      by_cases hj : j < xs.length
      · rw [if_pos hj, if_pos (show j + 1 < xs.length + 1 by omega),
          (show i + 1 + j = i + (j + 1) by omega)]
      · rw [if_neg hj, if_neg (show ¬(j + 1 < xs.length + 1) by omega)]

/-- The per-cell characterization: `placeCell` emits at the first free
column and repaints the occupied range. -/
theorem placeCell_spec (cc : List Nat) (col : Nat) (cell : Cell) :
    col ≤ (placeCell cc col cell).2 ∧
    (∀ j, col ≤ j → j < (placeCell cc col cell).2 → 0 < cc.getD j 0) ∧
    ((placeCell cc col cell).2 < cc.length → cc.getD (placeCell cc col cell).2 0 = 0) ∧
    (placeCell cc col cell).1.length
      = max cc.length ((placeCell cc col cell).2 + cell.cols) ∧
    (∀ j, (placeCell cc col cell).1.getD j 0 =
      if (placeCell cc col cell).2 ≤ j ∧ j < (placeCell cc col cell).2 + cell.cols then
        max cell.rows (cc.getD j 0) - 1
      else if col ≤ j ∧ j < (placeCell cc col cell).2 then cc.getD j 0 - 1
      else cc.getD j 0) := by
  obtain ⟨cc1, c, hA⟩ : ∃ cc1 c, advanceCol (cc.length + 1) cc col = (cc1, c) := ⟨_, _, rfl⟩
  have hP : placeCell cc col cell
      = (paintRange (resizeZero cc1 (c + cell.cols)) 0 c cell.cols cell.rows, c) := by
    unfold placeCell
    rw [hA]
  obtain ⟨h1, h2, h3, h4, h5⟩ := advanceCol_spec (cc.length + 1) cc col (by omega) cc1 c hA
  rw [hP]
  dsimp only
  refine ⟨h1, h2, h3, ?_, ?_⟩
  · rw [paintRange_length, resizeZero_length, h4]
  · intro j
    rw [paintRange_getD, resizeZero_length, resizeZero_getD, h4, Nat.zero_add, h5 j]
    by_cases hA1 : c ≤ j ∧ j < c + cell.cols
    · rw [if_pos (show j < max cc.length (c + cell.cols) by omega), if_pos hA1,
        if_neg (show ¬(col ≤ j ∧ j < c) by omega), if_pos hA1]
    · by_cases hB : col ≤ j ∧ j < c
      · have hpos := h2 j hB.1 hB.2
        have hjl : j < cc.length := by
          by_contra hh
          rw [getD_out_of_range _ _ (by omega)] at hpos
          omega
        rw [if_pos (show j < max cc.length (c + cell.cols) by omega), if_neg hA1,
          if_pos hB, if_neg hA1]
      · by_cases hlen : j < max cc.length (c + cell.cols)
        · rw [if_pos hlen, if_neg hA1, if_neg hB, if_neg hA1]
        · rw [if_neg hlen, if_neg hA1, if_neg hB, getD_out_of_range _ _ (by omega)]

set_option maxRecDepth 10000 in
/-- C7: in `Table::write`'s continuation accounting, each cell is emitted at
the first column at or after the cursor whose remaining continuation count
is zero (counts passed on the way are consumed by decrementing), and the
columns the cell occupies get their counts set to `max(existing, cell.rows)
- 1`, with positions newly created by the resize counting as zero; and on
the concrete 2×2 table — a `rows=2, cols=2` cell at physical column 0 — the
first cell of the next row is emitted at physical column 2. -/
theorem C7_table_continuation :
    (∀ (cc : List Nat) (col : Nat) (cell : Cell),
      col ≤ (placeCell cc col cell).2 ∧
      (∀ j, col ≤ j → j < (placeCell cc col cell).2 → 0 < cc.getD j 0) ∧
      ((placeCell cc col cell).2 < cc.length → cc.getD (placeCell cc col cell).2 0 = 0) ∧
      (placeCell cc col cell).1.length
        = max cc.length ((placeCell cc col cell).2 + cell.cols) ∧
      (∀ j, (placeCell cc col cell).1.getD j 0 =
        if (placeCell cc col cell).2 ≤ j ∧ j < (placeCell cc col cell).2 + cell.cols then
          max cell.rows (cc.getD j 0) - 1
        else if col ≤ j ∧ j < (placeCell cc col cell).2 then cc.getD j 0 - 1
        else cc.getD j 0)) ∧
    tableEmitCols c7Table = [[0], [2]] :=
  ⟨fun cc col cell => placeCell_spec cc col cell, by decide⟩

/-! ## C9: the gloss `<dl>` groups -/

theorem glossGroupsFrom_length (lines : List GlossLine) : ∀ (count i : Nat) (s : Bool),
    (glossGroupsFrom lines i count s).length = count := by
  intro count
  induction count with
  | zero => intro i s; rfl
  | succ count ih =>
    intro i s
    unfold glossGroupsFrom
    cases lineHeadWord lines i with
    | some w => simp [ih]
    | none => simp [ih]

theorem glossGroupsFrom_get (lines : List GlossLine) : ∀ (count i : Nat) (s : Bool) (j : Nat),
    (glossGroupsFrom lines i count s)[j]? =
      if j < count then
        some ((if j = 0 then s else lineEndsDash lines (i + j - 1))
            || !(lineStartsDash lines (i + j)),
          lineHeadWord lines (i + j),
          (lines.drop 1).map (fun l => l.words[i + j]?))
      else none := by
  intro count
  induction count with
  | zero => intro i s j; simp [glossGroupsFrom]
  | succ count ih =>
    intro i s j
    unfold glossGroupsFrom
    cases hw : lineHeadWord lines i with
    | some w =>
      cases j with
      | zero =>
        have hst : lineStartsDash lines i = w.starts_with '-' := by
          unfold lineStartsDash
          rw [hw]
        simp [hw, hst]
      | succ j =>
        simp only [List.getElem?_cons_succ, ih (i + 1) (w.ends_with '-') j]
        rw [(show i + 1 + j = i + (j + 1) by omega),
          if_neg (show ¬(j + 1 = 0) by omega)]
        have hinner : (if j = 0 then w.ends_with '-'
            else lineEndsDash lines (i + (j + 1) - 1))
            = lineEndsDash lines (i + (j + 1) - 1) := by
          cases j with
          | zero =>
            have hi : i + (0 + 1) - 1 = i := by omega
            simp [lineEndsDash, hi, hw]
          | succ j => rw [if_neg (show ¬(j + 1 = 0) by omega)]
        rw [hinner]
        by_cases hj : j < count
        · rw [if_pos hj, if_pos (show j + 1 < count + 1 by omega)]
        · rw [if_neg hj, if_neg (show ¬(j + 1 < count + 1) by omega)]
    | none =>
      cases j with
      | zero =>
        have hst : lineStartsDash lines i = false := by
          unfold lineStartsDash
          rw [hw]
        simp [hw, hst]
      | succ j =>
        simp only [List.getElem?_cons_succ, ih (i + 1) false j]
        rw [(show i + 1 + j = i + (j + 1) by omega),
          if_neg (show ¬(j + 1 = 0) by omega)]
        have hinner : (if j = 0 then false
            else lineEndsDash lines (i + (j + 1) - 1))
            = lineEndsDash lines (i + (j + 1) - 1) := by
          cases j with
          | zero =>
            have hi : i + (0 + 1) - 1 = i := by omega
            simp [lineEndsDash, hi, hw]
          | succ j => rw [if_neg (show ¬(j + 1 = 0) by omega)]
        rw [hinner]
        by_cases hj : j < count
        · rw [if_pos hj, if_pos (show j + 1 < count + 1 by omega)]
        · rw [if_neg hj, if_neg (show ¬(j + 1 < count + 1) by omega)]

set_option maxHeartbeats 1000000 in
/-- C9: `Gloss::write` emits exactly `N` `<dl>` groups, `N` the maximum word
count over the body lines (none when the body is empty); group `i` pairs
word `i` of the first body line with word `i` of each other body line
(missing words giving empty entries), and a separating space is written
before group `i` unless its head word begins with `-` while the previous
group's head word did not end with `-`. -/
theorem C9_gloss_groups (g : Gloss) :
    (glossGroups g).length = glossMaxWords g ∧
    (g.gloss = [] → glossGroups g = []) ∧
    ∀ i, (glossGroups g)[i]? =
      if i < glossMaxWords g then
        some (glossSpaceSpec g i, glossHeadWord g i,
          (g.gloss.drop 1).map (fun l => l.words[i]?))
      else none := by
  have hbool : ∀ p q : Bool, (p || !q) = !(q && !p) := by decide
  unfold glossGroups glossMaxWords
  cases hmax : (g.gloss.map (fun l => l.words.length)).max? with
  | none =>
    refine ⟨rfl, fun _ => rfl, ?_⟩
    intro i
    rw [if_neg (by simp)]
    rfl
  | some n =>
    refine ⟨glossGroupsFrom_length g.gloss n 0 false, ?_, ?_⟩
    · intro hnil
      rw [hnil] at hmax
      simp at hmax
    · intro i
      rw [glossGroupsFrom_get g.gloss n 0 false i]
      simp only [Option.getD_some, Nat.zero_add]
      by_cases hi : i < n
      · rw [if_pos hi, if_pos hi]
        have hspace : ((if i = 0 then false else lineEndsDash g.gloss (i - 1))
            || !(lineStartsDash g.gloss i)) = glossSpaceSpec g i := by
          unfold glossSpaceSpec glossStartsDash
          rw [hbool (if i = 0 then false else lineEndsDash g.gloss (i - 1))
            (lineStartsDash g.gloss i)]
          cases i with
          | zero => rfl
          | succ j =>
            rw [if_neg (by omega)]
            have : glossPrevEndsDash g (j + 1) = lineEndsDash g.gloss j := rfl
            rw [this, (by omega : j + 1 - 1 = j)]
        rw [hspace]
        rfl
      · rw [if_neg hi, if_neg hi]

end ConlangFmt

